import Mathlib

/-!
# terraform-provider-timeutils: a shallow embedding

The provider exposes four functions (unix_timestamp, parse_rfc3339, strftime,
days_difference).  Each Run method is a few lines that call into the Go standard
library (time.Parse, Time.Sub, Duration.Hours, strconv) and into
github.com/lestrrat-go/strftime.  The embedding below follows the Run methods line by
line and models the library functions they call (Go 1.22 time package, strconv,
strftime v1.0.6) on byte strings, integers and correctly rounded binary64 values.
-/

namespace TimeUtils

/-! ## Byte strings -/

/-- Go strings are byte sequences; a byte is a natural number below 256. -/
abbrev Bytes := List Nat

/-- UTF-8 encoding of one code point. -/
def utf8Char (c : Nat) : Bytes :=
  if c < 0x80 then [c]
  else if c < 0x800 then [0xC0 + c / 64, 0x80 + c % 64]
  else if c < 0x10000 then [0xE0 + c / 4096, 0x80 + c / 64 % 64, 0x80 + c % 64]
  else [0xF0 + c / 262144, 0x80 + c / 4096 % 64, 0x80 + c / 64 % 64, 0x80 + c % 64]

/-- UTF-8 encoding of a list of characters. -/
def encodeUtf8 : List Char → Bytes
  | [] => []
  | c :: cs => utf8Char c.toNat ++ encodeUtf8 cs

/-- The Go string with the given text. -/
def str (s : String) : Bytes := encodeUtf8 s.toList

/-- Go slice expression s[i:j]. -/
def slice (s : Bytes) (i j : Nat) : Bytes := (s.drop i).take (j - i)

/-- Go index expression s[i] (0 when out of range; every use is guarded by a length test). -/
def byteAt (s : Bytes) (i : Nat) : Nat := s.getD i 0

/-! ## strconv -/

/-- The loop of strconv.formatBits for base 10: least significant digit first into acc. -/
def formatBitsAux : Nat → Nat → Bytes → Bytes
  | 0, u, acc => (48 + u % 10) :: acc
  | fuel + 1, u, acc =>
    if u ≥ 10 then formatBitsAux fuel (u / 10) ((48 + u % 10) :: acc)
    else (48 + u) :: acc

/-- Decimal text of an unsigned value (strconv.FormatUint with base 10). -/
def formatUint (u : Nat) : Bytes := formatBitsAux u u []

/-- Decimal text of a signed value (strconv.FormatInt with base 10, and strconv.Itoa). -/
def Itoa (i : Int) : Bytes :=
  if i < 0 then 45 :: formatUint (-i).toNat else formatUint i.toNat

/-! ## Calendar arithmetic of package time -/

def secondsPerMinute : Int := 60
def secondsPerHour : Int := 3600
def secondsPerDay : Int := 86400
def secondsPerWeek : Int := 604800
def daysPer400Years : Nat := 146097
def daysPer100Years : Nat := 36524
def daysPer4Years : Nat := 1461

/-- The year of the absolute epoch. -/
def absoluteZeroYear : Int := -292277022399

/-- Seconds from the internal epoch (year 1) to the Unix epoch. -/
def unixToInternal : Int := (1969 * 365 + 1969 / 4 - 1969 / 100 + 1969 / 400) * 86400

/-- Seconds from the absolute epoch to the internal epoch. -/
def absoluteToInternal : Int := -9223371966579724800

/-- Seconds from the Unix epoch to the absolute epoch. -/
def unixToAbsolute : Int := unixToInternal + -absoluteToInternal

/-- Cumulative days before each month in a non-leap year. -/
def daysBefore : List Int := [0, 31, 59, 90, 120, 151, 181, 212, 243, 273, 304, 334, 365]

def isLeap (year : Int) : Bool :=
  year % 4 == 0 && (year % 100 != 0 || year % 400 == 0)

/-- Number of days in month m of the given year. -/
def daysIn (m : Int) (year : Int) : Int :=
  if m == 2 && isLeap year then 29
  else daysBefore.getD m.toNat 0 - daysBefore.getD (m.toNat - 1) 0

/-- Go norm: carry lo into hi so that 0 ≤ lo < base. -/
def norm (hi lo base : Int) : Int × Int :=
  let (hi1, lo1) :=
    if lo < 0 then
      let n := Int.tdiv (-lo - 1) base + 1
      (hi - n, lo + n * base)
    else (hi, lo)
  if lo1 ≥ base then
    let n := Int.tdiv lo1 base
    (hi1 + n, lo1 - n * base)
  else (hi1, lo1)

/-- Days from the absolute epoch to January 1 of the year. -/
def daysSinceEpoch (year : Int) : Nat :=
  let y : Nat := (year - absoluteZeroYear).toNat
  let n := y / 400
  let y := y - 400 * n
  let d := daysPer400Years * n
  let n := y / 100
  let y := y - 100 * n
  let d := d + daysPer100Years * n
  let n := y / 4
  let y := y - 4 * n
  let d := d + daysPer4Years * n
  let n := y
  d + 365 * n

/-- Unix seconds and nanoseconds of time.Date(year, month, day, hour, min, sec, nsec, UTC). -/
def Date (year month day hour min sec nsec : Int) : Int × Int :=
  let ym := norm year (month - 1) 12
  let year := ym.1
  let month := ym.2 + 1
  let sn := norm sec nsec 1000000000
  let ms := norm min sn.1 60
  let hm := norm hour ms.1 60
  let dh := norm day hm.1 24
  let d : Int := daysSinceEpoch year
  let d := d + daysBefore.getD (month - 1).toNat 0
  let d := if isLeap year && month ≥ 3 then d + 1 else d
  let d := d + (dh.1 - 1)
  let abs := d * secondsPerDay
  let abs := abs + (dh.2 * secondsPerHour + hm.2 * secondsPerMinute + ms.2)
  (abs - unixToAbsolute, sn.2)

/-- Go absDate(abs, false): the year and the zero-based day of the year. -/
def absYday (abs : Nat) : Int × Int :=
  let d := abs / 86400
  let n := d / daysPer400Years
  let y := 400 * n
  let d := d - daysPer400Years * n
  let n := d / daysPer100Years
  let n := n - n / 4
  let y := y + 100 * n
  let d := d - daysPer100Years * n
  let n := d / daysPer4Years
  let y := y + 4 * n
  let d := d - daysPer4Years * n
  let n := d / 365
  let n := n - n / 4
  let y := y + n
  let d := d - 365 * n
  ((y : Int) + absoluteZeroYear, (d : Int))

/-- Go absDate(abs, true): year, month, day and zero-based day of the year. -/
def absDate (abs : Nat) : Int × Int × Int × Int :=
  let year := (absYday abs).1
  let yday := (absYday abs).2
  if isLeap year && yday == 31 + 29 - 1 then (year, 2, 29, yday)
  else
    let day := if isLeap year && yday > 31 + 29 - 1 then yday - 1 else yday
    let month := day / 31
    let fin := daysBefore.getD (month + 1).toNat 0
    if day ≥ fin then (year, month + 1 + 1, day - fin + 1, yday)
    else (year, month + 1, day - daysBefore.getD month.toNat 0 + 1, yday)

/-- Go absWeekday: Sunday = 0 .. Saturday = 6. -/
def absWeekday (abs : Nat) : Int :=
  let sec := (abs + 1 * 86400) % 604800
  (sec / 86400 : Nat)

/-- Go absClock: hour, minute and second within the day. -/
def absClock (abs : Nat) : Int × Int × Int :=
  let sec := abs % 86400
  let hour := sec / 3600
  let sec := sec - hour * 3600
  let min := sec / 60
  let sec := sec - min * 60
  (hour, min, sec)

/-! ## Locations and instants -/

/-- The zone in effect at one instant: abbreviation and seconds east of UTC. -/
structure Location where
  name : Bytes
  offset : Int
  deriving DecidableEq

/-- The process environment as far as package time reads it: the lookup function of the
Local location of the host, from Unix seconds to the zone in effect (abbreviation, offset). -/
structure Env where
  localLookup : Int → Location

/-- The location time.UTC. -/
def UTC : Location := { name := str "UTC", offset := 0 }

/-- The location time.FixedZone(name, offset). -/
def FixedZone (name : Bytes) (offset : Int) : Location := { name := name, offset := offset }

/-- A time.Time: Unix seconds, nanoseconds within the second, and the zone its location
yields at this instant. -/
structure Time where
  sec : Int
  nsec : Int
  loc : Location
  deriving DecidableEq

/-- Go Time.abs: seconds since the absolute epoch, shifted into the zone of the time. -/
def Time.abs (t : Time) : Nat := (t.sec + t.loc.offset + unixToAbsolute).toNat

def Time.Unix (t : Time) : Int := t.sec
def Time.Year (t : Time) : Int := (absDate t.abs).1
def Time.Month (t : Time) : Int := (absDate t.abs).2.1
def Time.Day (t : Time) : Int := (absDate t.abs).2.2.1
/-- Day of the year, 1 to 366. -/
def Time.YearDay (t : Time) : Int := (absDate t.abs).2.2.2 + 1
def Time.Hour (t : Time) : Int := (absClock t.abs).1
def Time.Minute (t : Time) : Int := (absClock t.abs).2.1
def Time.Second (t : Time) : Int := (absClock t.abs).2.2
def Time.Weekday (t : Time) : Int := absWeekday t.abs

/-! ## time.Parse with layout RFC3339 -/

/-- The layout constant time.RFC3339. -/
def RFC3339 : Bytes := str "2006-01-02T15:04:05Z07:00"

/-- The error value of package time. -/
structure ParseError where
  Layout : Bytes
  Value : Bytes
  LayoutElem : Bytes
  ValueElem : Bytes
  Message : Bytes
  deriving DecidableEq

def lowerhex (n : Nat) : Nat := if n < 10 then 48 + n else 87 + n

/-- Go quote of package time: double quotes around the text, quote and backslash escaped,
control and non-ASCII bytes written as \xNN. -/
def quoteBody : Bytes → Bytes
  | [] => []
  | c :: cs =>
    if c ≥ 0x80 ∨ c < 32 then 92 :: 120 :: lowerhex (c / 16) :: lowerhex (c % 16) :: quoteBody cs
    else if c = 34 ∨ c = 92 then 92 :: c :: quoteBody cs
    else c :: quoteBody cs

def quote (s : Bytes) : Bytes := 34 :: (quoteBody s ++ [34])

/-- The method ParseError.Error. -/
def ParseError.Error (e : ParseError) : Bytes :=
  if e.Message = [] then
    str "parsing time " ++ quote e.Value ++ str " as " ++ quote e.Layout ++
      str ": cannot parse " ++ quote e.ValueElem ++ str " as " ++ quote e.LayoutElem
  else str "parsing time " ++ quote e.Value ++ e.Message

def newParseError (layout value layoutElem valueElem message : Bytes) : ParseError :=
  { Layout := layout, Value := value, LayoutElem := layoutElem, ValueElem := valueElem,
    Message := message }

def isDigit (s : Bytes) (i : Nat) : Bool :=
  if s.length ≤ i then false
  else
    let c := byteAt s i
    48 ≤ c && c ≤ 57

def commaOrPeriod (b : Nat) : Bool := b == 46 || b == 44

/-- Number of leading decimal digits of s. -/
def digitRun : Bytes → Nat
  | [] => 0
  | c :: cs => if 48 ≤ c ∧ c ≤ 57 then digitRun cs + 1 else 0

/-- The loop "n := 2; for ; n < len(s) && isDigit(s, n); n++" of both parsers. -/
def fracEnd (s : Bytes) : Nat := 2 + digitRun (s.drop 2)

/-- Go leadingInt: the leading digits of s as a number, the rest, and an overflow flag. -/
def leadingInt : Bytes → Nat → Nat × Bytes × Bool
  | [], x => (x, [], false)
  | c :: cs, x =>
    if c < 48 ∨ c > 57 then (x, c :: cs, false)
    else if x > 2 ^ 63 / 10 then (0, [], true)
    else
      let x := x * 10 + c - 48
      if x > 2 ^ 63 then (0, [], true) else leadingInt cs x

/-- Go atoi: value and error flag. -/
def atoi (s : Bytes) : Int × Bool :=
  let neg := decide (0 < s.length) && byteAt s 0 == 45
  let s := if decide (0 < s.length) && (byteAt s 0 == 45 || byteAt s 0 == 43) then s.drop 1 else s
  let (q, rem, err) := leadingInt s 0
  if err || decide (0 < rem.length) then (0, true)
  else if neg then (-(q : Int), false) else ((q : Int), false)

/-- Go getnum: a one- or two-digit number (exactly two when fixed), the rest, error flag. -/
def getnum (s : Bytes) (fixed : Bool) : Int × Bytes × Bool :=
  if !isDigit s 0 then (0, s, true)
  else if !isDigit s 1 then
    if fixed then (0, s, true) else ((byteAt s 0 : Int) - 48, s.drop 1, false)
  else (((byteAt s 0 : Int) - 48) * 10 + ((byteAt s 1 : Int) - 48), s.drop 2, false)

/-- Go parseNanoseconds: nanoseconds, range error text, error flag. -/
def parseNanoseconds (value : Bytes) (nbytes : Nat) : Int × Bytes × Bool :=
  if !commaOrPeriod (byteAt value 0) then (0, [], true)
  else
    let (value, nbytes) := if nbytes > 10 then (value.take 10, 10) else (value, nbytes)
    let (ns, err) := atoi (slice value 1 nbytes)
    if err then (ns, [], true)
    else if ns < 0 then (ns, str "fractional second", false)
    else (ns * 10 ^ (10 - nbytes), [], false)

/-- Go Time.setLoc after parsing an offset: the Local location when it has this offset at
this instant, otherwise a fixed zone without a name. -/
def locate (env : Env) (sec : Int) (zoneOffset : Int) : Location :=
  if (env.localLookup sec).offset = zoneOffset then
    { name := (env.localLookup sec).name, offset := zoneOffset }
  else FixedZone [] zoneOffset

/-- The closure parseUint of parseRFC3339: digits only, value within [min, max]. -/
def parseUintDigits : Bytes → Int → Option Int
  | [], x => some x
  | c :: cs, x => if c < 48 ∨ 57 < c then none else parseUintDigits cs (x * 10 + (c : Int) - 48)

def parseUint (s : Bytes) (min max : Int) : Int × Bool :=
  match parseUintDigits s 0 with
  | none => (min, false)
  | some x => if x < min ∨ max < x then (min, false) else (x, true)

/-- Go parseRFC3339: the fast path of time.Parse for the RFC3339 layout. -/
def parseRFC3339 (env : Env) (s : Bytes) : Option Time :=
  if s.length < 19 then none
  else
    let (year, ok1) := parseUint (slice s 0 4) 0 9999
    let (month, ok2) := parseUint (slice s 5 7) 1 12
    let (day, ok3) := parseUint (slice s 8 10) 1 (daysIn month year)
    let (hour, ok4) := parseUint (slice s 11 13) 0 23
    let (min, ok5) := parseUint (slice s 14 16) 0 59
    let (sec, ok6) := parseUint (slice s 17 19) 0 59
    if !(ok1 && ok2 && ok3 && ok4 && ok5 && ok6) ||
        !(byteAt s 4 == 45 && byteAt s 7 == 45 && byteAt s 10 == 84 && byteAt s 13 == 58 &&
          byteAt s 16 == 58) then none
    else
      let s := s.drop 19
      let (nsec, s) :=
        if decide (s.length ≥ 2) && byteAt s 0 == 46 && isDigit s 1 then
          let n := fracEnd s
          ((parseNanoseconds s n).1, s.drop n)
        else (0, s)
      let t := Date year month day hour min sec nsec
      if s.length ≠ 1 ∨ byteAt s 0 ≠ 90 then
        if s.length ≠ 6 then none
        else
          let (hr, ok7) := parseUint (slice s 1 3) 0 23
          let (mm, ok8) := parseUint (slice s 4 6) 0 59
          if !(ok7 && ok8) || !((byteAt s 0 == 45 || byteAt s 0 == 43) && byteAt s 3 == 58) then
            none
          else
            let zoneOffset := (hr * 60 + mm) * 60
            let zoneOffset := if byteAt s 0 == 45 then -zoneOffset else zoneOffset
            let sec := t.1 + -zoneOffset
            some { sec := sec, nsec := t.2, loc := locate env sec zoneOffset }
      else some { sec := t.1, nsec := t.2, loc := UTC }

/-- The layout elements of package time (the std codes); the digit count and the separator
that a fractional-second element carries are kept beside it, in StdChunk. -/
inductive Std where
  | stdLongMonth | stdMonth | stdZeroMonth | stdLongWeekDay | stdWeekDay | stdZeroDay
  | stdUnderDay | stdHour | stdZeroHour12 | stdZeroMinute | stdZeroSecond | stdLongYear
  | stdYear | stdPM | stdTZ | stdISO8601ColonTZ | stdNumTZ | stdFracSecond0 | stdFracSecond9
  | stdNumMonth | stdDay | stdUnderYearDay | stdZeroYearDay | stdHour12 | stdMinute | stdSecond
  | stdpm | stdISO8601TZ | stdISO8601SecondsTZ | stdISO8601ShortTZ | stdISO8601ColonSecondsTZ
  | stdNumSecondsTz | stdNumShortTZ | stdNumColonTZ | stdNumColonSecondsTZ
  deriving DecidableEq

/-- One result of nextStdChunk: the literal text before the element, the element, and the
layout text of the element. -/
structure Chunk where
  lit : Bytes
  std : Std
  stdstr : Bytes

/-- The successive results of nextStdChunk on the layout RFC3339,
"2006-01-02T15:04:05Z07:00"; after the last element the layout is empty. -/
def rfc3339Chunks : List Chunk :=
  [ { lit := [], std := .stdLongYear, stdstr := str "2006" },
    { lit := str "-", std := .stdZeroMonth, stdstr := str "01" },
    { lit := str "-", std := .stdZeroDay, stdstr := str "02" },
    { lit := str "T", std := .stdHour, stdstr := str "15" },
    { lit := str ":", std := .stdZeroMinute, stdstr := str "04" },
    { lit := str ":", std := .stdZeroSecond, stdstr := str "05" },
    { lit := [], std := .stdISO8601ColonTZ, stdstr := str "Z07:00" } ]

/-- Go cutspace: drop leading spaces. -/
def cutspace : Bytes → Bytes
  | [] => []
  | c :: cs => if c = 32 then cutspace cs else c :: cs

/-- Go skip: remove the literal text lit from the front of value; the flag reports a
mismatch, and the text returned is what was left when it was found. -/
def skip : Nat → Bytes → Bytes → Bytes × Bool
  | 0, value, _ => (value, false)
  | fuel + 1, value, lit =>
    match lit with
    | [] => (value, false)
    | p :: ps =>
      if p = 32 then
        if 0 < value.length ∧ byteAt value 0 ≠ 32 then (value, true)
        else skip fuel (cutspace value) (cutspace (p :: ps))
      else if value.length = 0 ∨ byteAt value 0 ≠ p then (value, true)
      else skip fuel (value.drop 1) ps

/-- The variables of the generic parser that the RFC3339 layout can set. -/
structure ParseState where
  value : Bytes
  year : Int := 0
  month : Int := -1
  day : Int := -1
  hour : Int := 0
  min : Int := 0
  sec : Int := 0
  nsec : Int := 0
  z : Option Location := none
  zoneOffset : Int := -1

/-- Outcome of one case of the switch: the updated variables, rangeErrString, err. -/
structure StepResult where
  st : ParseState
  rangeErrString : Bytes := []
  err : Bool := false

/-- The switch of the generic parser, for the elements of the RFC3339 layout.  The
argument next is the element that follows in the layout, if any (the lookahead of the
seconds case). -/
def parseStd (std : Std) (next : Option Std) (st : ParseState) : StepResult :=
  let value := st.value
  match std with
  | .stdLongYear =>
    if value.length < 4 ∨ !isDigit value 0 then { st := st, err := true }
    else
      let (year, err) := atoi (slice value 0 4)
      { st := { st with value := value.drop 4, year := year }, err := err }
  | .stdZeroMonth =>
    let (month, value, err) := getnum value true
    { st := { st with value := value, month := month },
      rangeErrString := if !err ∧ (month ≤ 0 ∨ 12 < month) then str "month" else [],
      err := err }
  | .stdZeroDay =>
    let (day, value, err) := getnum value true
    { st := { st with value := value, day := day }, err := err }
  | .stdHour =>
    let (hour, value, err) := getnum value false
    { st := { st with value := value, hour := hour },
      rangeErrString := if hour < 0 ∨ 24 ≤ hour then str "hour" else [],
      err := err }
  | .stdZeroMinute =>
    let (min, value, err) := getnum value true
    { st := { st with value := value, min := min },
      rangeErrString := if min < 0 ∨ 60 ≤ min then str "minute" else [],
      err := err }
  | .stdZeroSecond =>
    let (sec, value, err) := getnum value true
    let st := { st with value := value, sec := sec }
    if err then { st := st, err := true }
    else if sec < 0 ∨ 60 ≤ sec then { st := st, rangeErrString := str "second" }
    else if decide (value.length ≥ 2) && commaOrPeriod (byteAt value 0) && isDigit value 1 then
      if next = some .stdFracSecond0 ∨ next = some .stdFracSecond9 then { st := st }
      else
        let n := fracEnd value
        let (nsec, rangeErrString, err) := parseNanoseconds value n
        { st := { st with value := value.drop n, nsec := nsec },
          rangeErrString := rangeErrString, err := err }
    else { st := st }
  | .stdISO8601ColonTZ =>
    if decide (value.length ≥ 1) && byteAt value 0 == 90 then
      { st := { st with value := value.drop 1, z := some UTC } }
    else if value.length < 6 then { st := st, err := true }
    else if byteAt value 3 ≠ 58 then { st := st, err := true }
    else
      let sign := byteAt value 0
      let (hr, _, err1) := getnum (slice value 1 3) true
      let (mm, err2) := if !err1 then ((getnum (slice value 4 6) true).1,
        (getnum (slice value 4 6) true).2.2) else (0, err1)
      let (ss, err3) := if !err2 then ((getnum (str "00") true).1,
        (getnum (str "00") true).2.2) else (0, err2)
      let rangeErrString : Bytes := if hr > 24 then str "time zone offset hour" else []
      let rangeErrString := if mm > 60 then str "time zone offset minute" else rangeErrString
      let rangeErrString := if ss > 60 then str "time zone offset second" else rangeErrString
      let zoneOffset := (hr * 60 + mm) * 60 + ss
      let (zoneOffset, err4) :=
        if sign = 43 then (zoneOffset, err3)
        else if sign = 45 then (-zoneOffset, err3)
        else (zoneOffset, true)
      { st := { st with value := value.drop 6, zoneOffset := zoneOffset },
        rangeErrString := rangeErrString, err := err4 }
  | _ => { st := st, err := true }

/-- The loop of the generic parser over the elements of the layout, ending with the
check that no text is left. -/
def parseChunks (alayout avalue : Bytes) : List Chunk → ParseState → Except ParseError ParseState
  | [], st =>
    if st.value.length ≠ 0 then
      .error (newParseError alayout avalue [] st.value (str ": extra text: " ++ quote st.value))
    else .ok st
  | c :: rest, st =>
    let (value, bad) := skip c.lit.length st.value c.lit
    if bad then .error (newParseError alayout avalue c.lit value [])
    else
      let hold := value
      let r := parseStd c.std (rest.head?.map (·.std)) { st with value := value }
      if r.rangeErrString ≠ [] then
        .error (newParseError alayout avalue c.stdstr r.st.value
          (str ": " ++ r.rangeErrString ++ str " out of range"))
      else if r.err then .error (newParseError alayout avalue c.stdstr hold [])
      else parseChunks alayout avalue rest r.st

/-- Go parse(layout, value, UTC, Local) for the layout RFC3339. -/
def parse (env : Env) (value : Bytes) : Except ParseError Time :=
  match parseChunks RFC3339 value rfc3339Chunks { value := value } with
  | .error e => .error e
  | .ok st =>
    if st.day < 1 ∨ st.day > daysIn st.month st.year then
      .error (newParseError RFC3339 value [] st.value (str ": day out of range"))
    else
      let t := Date st.year st.month st.day st.hour st.min st.sec st.nsec
      match st.z with
      | some z => .ok { sec := t.1, nsec := t.2, loc := z }
      | none =>
        if st.zoneOffset ≠ -1 then
          let sec := t.1 + -st.zoneOffset
          .ok { sec := sec, nsec := t.2, loc := locate env sec st.zoneOffset }
        else .ok { sec := t.1, nsec := t.2, loc := UTC }

/-- Go time.Parse(time.RFC3339, value): the fast path, then the generic parser. -/
def Parse (env : Env) (value : Bytes) : Except ParseError Time :=
  match parseRFC3339 env value with
  | some t => .ok t
  | none => parse env value

/-! ## binary64 arithmetic

A finite binary64 value is kept as an integer significand and a binary exponent.  Every
operation computes the exact result and rounds it to 53 significant bits, ties to even,
as IEEE 754 prescribes.  The exponent range is not modelled: the values that arise in
Duration.Hours and in the division by 24 are zero or have magnitude between 2^-42 and
2^22, far inside the normal range. -/

/-- The value m * 2^e. -/
structure F64 where
  m : Int
  e : Int
  deriving DecidableEq

def bitLenAux : Nat → Nat → Nat
  | 0, _ => 0
  | fuel + 1, n => if n = 0 then 0 else bitLenAux fuel (n / 2) + 1

/-- Number of binary digits of n. -/
def bitLen (n : Nat) : Nat := bitLenAux n n

/-- The integer nearest to n / d, ties to even. -/
def divRoundEven (n d : Nat) : Nat :=
  let q := n / d
  let r := n % d
  if 2 * r < d ∨ (2 * r = d ∧ q % 2 = 0) then q else q + 1

/-- Round the positive rational n / d to 53 significant bits: significand and exponent. -/
def roundMag (n d : Nat) : Nat × Int :=
  let s0 : Int := 53 + (bitLen d : Int) - (bitLen n : Int)
  let s : Int :=
    if n * 2 ^ s0.toNat ≥ d * 2 ^ (53 + (-s0).toNat) then s0 - 1 else s0
  (divRoundEven (n * 2 ^ s.toNat) (d * 2 ^ (-s).toNat), -s)

/-- Round the rational num / den * 2^e to binary64. -/
def F64.round (num : Int) (den : Nat) (e : Int) : F64 :=
  if num = 0 then { m := 0, e := 0 }
  else
    let r := roundMag num.natAbs den
    { m := if num < 0 then -(r.1 : Int) else r.1, e := r.2 + e }

/-- Conversion float64(i) of an integer. -/
def F64.ofInt (i : Int) : F64 := F64.round i 1 0

/-- Sum of two binary64 values. -/
def F64.add (a b : F64) : F64 :=
  let e := min a.e b.e
  F64.round (a.m * 2 ^ (a.e - e).toNat + b.m * 2 ^ (b.e - e).toNat) 1 e

/-- Quotient of two binary64 values; the divisor is a nonzero constant at both uses. -/
def F64.div (a b : F64) : F64 :=
  F64.round (if b.m < 0 then -a.m else a.m) b.m.natAbs (a.e - b.e)

/-- Conversion int(f): the integer part, truncated toward zero. -/
def F64.toInt (a : F64) : Int :=
  if a.e ≥ 0 then a.m * 2 ^ a.e.toNat else Int.tdiv a.m (2 ^ (-a.e).toNat)

/-! ## Durations -/

def Nanosecond : Int := 1
def Second : Int := 1000000000
def Hour : Int := 3600000000000
def minDuration : Int := -2 ^ 63
def maxDuration : Int := 2 ^ 63 - 1

/-- Two-complement wraparound of int64 arithmetic. -/
def wrap64 (x : Int) : Int := (x + 2 ^ 63) % 2 ^ 64 - 2 ^ 63

/-- Go Time.Add; the seconds of the times at hand are far from the int64 limits, so
addSec does not saturate. -/
def Time.Add (t : Time) (d : Int) : Time :=
  let dsec := Int.tdiv d 1000000000
  let nsec := t.nsec + Int.tmod d 1000000000
  let (dsec, nsec) :=
    if nsec ≥ 1000000000 then (dsec + 1, nsec - 1000000000)
    else if nsec < 0 then (dsec - 1, nsec + 1000000000)
    else (dsec, nsec)
  { t with sec := t.sec + dsec, nsec := nsec }

def Time.Equal (t u : Time) : Bool := t.sec == u.sec && t.nsec == u.nsec

def Time.Before (t u : Time) : Bool :=
  decide (t.sec < u.sec) || (t.sec == u.sec && decide (t.nsec < u.nsec))

/-- Go Time.Sub: the duration t - u in nanoseconds, saturated at the int64 limits. -/
def Time.Sub (t u : Time) : Int :=
  let d := wrap64 (wrap64 ((t.sec - u.sec) * TimeUtils.Second) + (t.nsec - u.nsec))
  if (u.Add d).Equal t then d
  else if t.Before u then minDuration
  else maxDuration

/-- Go Duration.Hours. -/
def Hours (d : Int) : F64 :=
  let hour := Int.tdiv d Hour
  let nsec := Int.tmod d Hour
  F64.add (F64.ofInt hour) (F64.div (F64.ofInt nsec) (F64.ofInt (60 * 60 * 1000000000)))

/-! ## Time.Format -/

/-- Go appendInt: decimal text of x, left-padded with zeros to the given width. -/
def appendInt (x : Int) (width : Nat) : Bytes :=
  let ds := formatUint x.natAbs
  let padded := List.replicate (width - ds.length) 48 ++ ds
  if x < 0 then 45 :: padded else padded

/-- English month names (Month.String). -/
def longMonthNames : List Bytes :=
  [str "January", str "February", str "March", str "April", str "May", str "June",
   str "July", str "August", str "September", str "October", str "November", str "December"]

/-- English day names (Weekday.String), Sunday first. -/
def longDayNames : List Bytes :=
  [str "Sunday", str "Monday", str "Tuesday", str "Wednesday", str "Thursday", str "Friday",
   str "Saturday"]

def monthString (m : Int) : Bytes := longMonthNames.getD (m - 1).toNat []
def weekdayString (d : Int) : Bytes := longDayNames.getD d.toNat []

/-- Go startsWithLowerCase. -/
def startsWithLowerCase (s : Bytes) : Bool :=
  match s with
  | [] => false
  | c :: _ => decide (97 ≤ c) && decide (c ≤ 122)

/-- The test "len(layout) >= i+n && layout[i:i+n] == w" of nextStdChunk, on l = layout[i:]. -/
def hasPrefix (l : Bytes) (w : String) : Bool := (str w).isPrefixOf l

/-- The table std0x of nextStdChunk: the elements 01 to 06. -/
def std0x (k : Nat) : Std :=
  match k with
  | 0 => .stdZeroMonth
  | 1 => .stdZeroDay
  | 2 => .stdZeroHour12
  | 3 => .stdZeroMinute
  | 4 => .stdZeroSecond
  | _ => .stdYear

/-- Number of leading bytes of a text that equal ch. -/
def sameRun (ch : Nat) : Bytes → Nat
  | [] => 0
  | c :: cs => if c = ch then sameRun ch cs + 1 else 0

/-- A layout element as nextStdChunk finds it at a position i: pre is the number of bytes
from i on that still belong to the prefix (1 for the underscore of _2006, else 0), len the
length of the element, digits and sep the arguments of a fractional-second element. -/
structure StdChunk where
  pre : Nat := 0
  std : Std
  len : Nat
  digits : Nat := 0
  sep : Nat := 0

/-- Case J of the switch of nextStdChunk: January, Jan. -/
def stdCaseJ (l : Bytes) : Option StdChunk :=
  if hasPrefix l "Jan" then
    if hasPrefix l "January" then some { std := .stdLongMonth, len := 7 }
    else if !startsWithLowerCase (l.drop 3) then some { std := .stdMonth, len := 3 }
    else none
  else none

/-- Case M of the switch of nextStdChunk: Monday, Mon, MST. -/
def stdCaseM (l : Bytes) : Option StdChunk :=
  if hasPrefix l "Mon" ∧ hasPrefix l "Monday" then some { std := .stdLongWeekDay, len := 6 }
  else if hasPrefix l "Mon" ∧ !startsWithLowerCase (l.drop 3) then
    some { std := .stdWeekDay, len := 3 }
  else if hasPrefix l "MST" then some { std := .stdTZ, len := 3 }
  else none

/-- Case 0 of the switch of nextStdChunk: 01, 02, 03, 04, 05, 06, 002. -/
def stdCase0 (l : Bytes) : Option StdChunk :=
  if decide (l.length ≥ 2) && decide (49 ≤ byteAt l 1) && decide (byteAt l 1 ≤ 54) then
    some { std := std0x (byteAt l 1 - 49), len := 2 }
  else if decide (l.length ≥ 3) && byteAt l 1 == 48 && byteAt l 2 == 50 then
    some { std := .stdZeroYearDay, len := 3 }
  else none

/-- Case 1 of the switch of nextStdChunk: 15, 1. -/
def stdCase1 (l : Bytes) : Option StdChunk :=
  if decide (l.length ≥ 2) && byteAt l 1 == 53 then some { std := .stdHour, len := 2 }
  else some { std := .stdNumMonth, len := 1 }

/-- Case 2 of the switch of nextStdChunk: 2006, 2. -/
def stdCase2 (l : Bytes) : Option StdChunk :=
  if hasPrefix l "2006" then some { std := .stdLongYear, len := 4 }
  else some { std := .stdDay, len := 1 }

/-- The underscore case of the switch of nextStdChunk: _2, _2006, __2.  For _2006 the
underscore stays in the prefix and the element is the year 2006 after it. -/
def stdCaseUnder (l : Bytes) : Option StdChunk :=
  if decide (l.length ≥ 2) && byteAt l 1 == 50 then
    if hasPrefix (l.drop 1) "2006" then some { pre := 1, std := .stdLongYear, len := 4 }
    else some { std := .stdUnderDay, len := 2 }
  else if decide (l.length ≥ 3) && byteAt l 1 == 95 && byteAt l 2 == 50 then
    some { std := .stdUnderYearDay, len := 3 }
  else none

/-- Case P of the switch of nextStdChunk: PM. -/
def stdCaseP (l : Bytes) : Option StdChunk :=
  if decide (l.length ≥ 2) && byteAt l 1 == 77 then some { std := .stdPM, len := 2 } else none

/-- Case p of the switch of nextStdChunk: pm. -/
def stdCasep (l : Bytes) : Option StdChunk :=
  if decide (l.length ≥ 2) && byteAt l 1 == 109 then some { std := .stdpm, len := 2 } else none

/-- The minus case of the switch of nextStdChunk: -070000, -07:00:00, -0700, -07:00, -07. -/
def stdCaseMinus (l : Bytes) : Option StdChunk :=
  if hasPrefix l "-070000" then some { std := .stdNumSecondsTz, len := 7 }
  else if hasPrefix l "-07:00:00" then some { std := .stdNumColonSecondsTZ, len := 9 }
  else if hasPrefix l "-0700" then some { std := .stdNumTZ, len := 5 }
  else if hasPrefix l "-07:00" then some { std := .stdNumColonTZ, len := 6 }
  else if hasPrefix l "-07" then some { std := .stdNumShortTZ, len := 3 }
  else none

/-- Case Z of the switch of nextStdChunk: Z070000, Z07:00:00, Z0700, Z07:00, Z07. -/
def stdCaseZ (l : Bytes) : Option StdChunk :=
  if hasPrefix l "Z070000" then some { std := .stdISO8601SecondsTZ, len := 7 }
  else if hasPrefix l "Z07:00:00" then some { std := .stdISO8601ColonSecondsTZ, len := 9 }
  else if hasPrefix l "Z0700" then some { std := .stdISO8601TZ, len := 5 }
  else if hasPrefix l "Z07:00" then some { std := .stdISO8601ColonTZ, len := 6 }
  else if hasPrefix l "Z07" then some { std := .stdISO8601ShortTZ, len := 3 }
  else none

/-- The period and comma case of the switch of nextStdChunk: a fractional second is the
separator and a run of 0 or of 9 that no digit follows. -/
def stdCaseFrac (l : Bytes) : Option StdChunk :=
  if decide (1 < l.length) && (byteAt l 1 == 48 || byteAt l 1 == 57) then
    let n := sameRun (byteAt l 1) (l.drop 1)
    if !isDigit l (1 + n) then
      some { std := if byteAt l 1 = 57 then .stdFracSecond9 else .stdFracSecond0,
             len := 1 + n, digits := n, sep := byteAt l 0 }
    else none
  else none

/-- The switch of nextStdChunk at one position i, on l = layout[i:]: the element that starts
there, if any. -/
def stdAt (l : Bytes) : Option StdChunk :=
  let c := byteAt l 0
  if l.length = 0 then none
  else if c = 74 then stdCaseJ l
  else if c = 77 then stdCaseM l
  else if c = 48 then stdCase0 l
  else if c = 49 then stdCase1 l
  else if c = 50 then stdCase2 l
  else if c = 95 then stdCaseUnder l
  else if c = 51 then some { std := .stdHour12, len := 1 }
  else if c = 52 then some { std := .stdMinute, len := 1 }
  else if c = 53 then some { std := .stdSecond, len := 1 }
  else if c = 80 then stdCaseP l
  else if c = 112 then stdCasep l
  else if c = 45 then stdCaseMinus l
  else if c = 90 then stdCaseZ l
  else if c = 46 ∨ c = 44 then stdCaseFrac l
  else none

/-- Go nextStdChunk: the text before the first layout element, the element (none when the
layout has no more), and the text after it. -/
def nextStdChunk : Bytes → Bytes × Option StdChunk × Bytes
  | [] => ([], none, [])
  | c :: rest =>
    match stdAt (c :: rest) with
    | some k => ((c :: rest).take k.pre, some k, (c :: rest).drop (k.pre + k.len))
    | none =>
      let r := nextStdChunk rest
      (c :: r.1, r.2.1, r.2.2)

/-- The sign, hours and minutes of a zone offset, as the time-zone cases of appendFormat
write them; the flags say whether a colon follows the hours, whether the minutes are
written, whether seconds follow and whether a colon precedes them. -/
def formatOffset (offset : Int) (colon minutes seconds secondsColon : Bool) : Bytes :=
  let zone := Int.tdiv offset 60
  let sign : Nat := if zone < 0 then 45 else 43
  let absoffset := if zone < 0 then -offset else offset
  let zone := if zone < 0 then -zone else zone
  sign :: (appendInt (Int.tdiv zone 60) 2 ++ (if colon then [58] else []) ++
    (if minutes then appendInt (Int.tmod zone 60) 2 else []) ++
    (if seconds then (if secondsColon then [58] else []) ++ appendInt (Int.tmod absoffset 60) 2
     else []))

/-- A text without its trailing bytes 0. -/
def trimZeros (b : Bytes) : Bytes := (b.reverse.dropWhile (· == 48)).reverse

/-- Go appendNano: the fractional second; what it appends starts with the separator, so the
trimming of trailing zeros never reaches the text written before. -/
def appendNano (nanosec : Int) (k : StdChunk) : Bytes :=
  let trim := decide (k.std = .stdFracSecond9)
  if trim && (k.digits == 0 || nanosec == 0) then []
  else
    let b := k.sep :: appendInt nanosec 9
    let b := if k.digits < 9 then b.take (b.length - 9 + k.digits) else b
    if trim then
      let b := trimZeros b
      if b.getLast? = some k.sep then b.dropLast else b
    else b

/-- One case of the switch of Time.appendFormat. -/
def formatStd (t : Time) (k : StdChunk) : Bytes :=
  match k.std with
  | .stdYear =>
    let y := t.Year
    let y := if y < 0 then -y else y
    appendInt (Int.tmod y 100) 2
  | .stdLongYear => appendInt t.Year 4
  | .stdMonth => (monthString t.Month).take 3
  | .stdLongMonth => monthString t.Month
  | .stdNumMonth => appendInt t.Month 0
  | .stdZeroMonth => appendInt t.Month 2
  | .stdWeekDay => (weekdayString t.Weekday).take 3
  | .stdLongWeekDay => weekdayString t.Weekday
  | .stdDay => appendInt t.Day 0
  | .stdUnderDay => (if t.Day < 10 then [32] else []) ++ appendInt t.Day 0
  | .stdZeroDay => appendInt t.Day 2
  | .stdUnderYearDay =>
    (if t.YearDay < 100 then 32 :: (if t.YearDay < 10 then [32] else []) else []) ++
      appendInt t.YearDay 0
  | .stdZeroYearDay => appendInt t.YearDay 3
  | .stdHour => appendInt t.Hour 2
  | .stdHour12 =>
    let hr := Int.tmod t.Hour 12
    let hr := if hr = 0 then 12 else hr
    appendInt hr 0
  | .stdZeroHour12 =>
    let hr := Int.tmod t.Hour 12
    let hr := if hr = 0 then 12 else hr
    appendInt hr 2
  | .stdMinute => appendInt t.Minute 0
  | .stdZeroMinute => appendInt t.Minute 2
  | .stdSecond => appendInt t.Second 0
  | .stdZeroSecond => appendInt t.Second 2
  | .stdPM => if t.Hour ≥ 12 then str "PM" else str "AM"
  | .stdpm => if t.Hour ≥ 12 then str "pm" else str "am"
  | .stdISO8601TZ => if t.loc.offset = 0 then [90] else formatOffset t.loc.offset false true false false
  | .stdISO8601ColonTZ =>
    if t.loc.offset = 0 then [90] else formatOffset t.loc.offset true true false false
  | .stdISO8601SecondsTZ =>
    if t.loc.offset = 0 then [90] else formatOffset t.loc.offset false true true false
  | .stdISO8601ShortTZ =>
    if t.loc.offset = 0 then [90] else formatOffset t.loc.offset false false false false
  | .stdISO8601ColonSecondsTZ =>
    if t.loc.offset = 0 then [90] else formatOffset t.loc.offset true true true true
  | .stdNumTZ => formatOffset t.loc.offset false true false false
  | .stdNumColonTZ => formatOffset t.loc.offset true true false false
  | .stdNumSecondsTz => formatOffset t.loc.offset false true true false
  | .stdNumShortTZ => formatOffset t.loc.offset false false false false
  | .stdNumColonSecondsTZ => formatOffset t.loc.offset true true true true
  | .stdTZ =>
    if t.loc.name ≠ [] then t.loc.name
    else formatOffset t.loc.offset false true false false
  | .stdFracSecond0 => appendNano t.nsec k
  | .stdFracSecond9 => appendNano t.nsec k

/-- The loop of Time.appendFormat: each round writes the text before the next layout
element and the element, and goes on with the rest of the layout. -/
def appendFormat (t : Time) : Nat → Bytes → Bytes
  | 0, _ => []
  | fuel + 1, layout =>
    if layout.length = 0 then []
    else
      match nextStdChunk layout with
      | (pre, none, _) => pre
      | (pre, some k, suffix) => pre ++ formatStd t k ++ appendFormat t fuel suffix

/-- Go Time.Format(layout).  AppendFormat first sets apart the two layouts RFC3339 and
RFC3339Nano; both hold the text Z07:00, which no layout of the strftime specification set
holds and no text free of digits can supply, so every layout that reaches it from strftime
goes to appendFormat. -/
def Time.Format (t : Time) (layout : Bytes) : Bytes := appendFormat t layout.length layout

/-- Go Time.ISOWeek, the week number only. -/
def Time.ISOWeek (t : Time) : Int :=
  let abs := t.abs
  let d := 4 - absWeekday abs
  let d := if d = 4 then -3 else d
  let abs := ((abs : Int) + d * secondsPerDay).toNat
  (absDate abs).2.2.2 / 7 + 1

/-! ## github.com/lestrrat-go/strftime -/

/-- The Appender implementations of the default specification set. -/
inductive Appender where
  /-- Verbatim(s): the text s. -/
  | verbatim (s : Bytes)
  /-- StdlibFormat(s): t.Format(s). -/
  | stdlibFormat (s : Bytes)
  | century
  | dayOfYear
  | hourPadded (twelveHour : Bool) (pad : Nat)
  | hmsWAMPM
  | weeknumberOffset (v : Int)
  | weekNumberISO
  | weekday (v : Int)

/-- The default specification set: the appender of each directive character. -/
def lookupSpec (b : Nat) : Option Appender :=
  if b = 65 then some (.stdlibFormat (str "Monday"))                      -- A
  else if b = 97 then some (.stdlibFormat (str "Mon"))                    -- a
  else if b = 66 then some (.stdlibFormat (str "January"))                -- B
  else if b = 98 then some (.stdlibFormat (str "Jan"))                    -- b
  else if b = 67 then some .century                                       -- C
  else if b = 99 then some (.stdlibFormat (str "Mon Jan _2 15:04:05 2006")) -- c
  else if b = 68 then some (.stdlibFormat (str "01/02/06"))               -- D
  else if b = 100 then some (.stdlibFormat (str "02"))                    -- d
  else if b = 101 then some (.stdlibFormat (str "_2"))                    -- e
  else if b = 70 then some (.stdlibFormat (str "2006-01-02"))             -- F
  else if b = 72 then some (.stdlibFormat (str "15"))                     -- H
  else if b = 104 then some (.stdlibFormat (str "Jan"))                   -- h
  else if b = 73 then some (.stdlibFormat (str "03"))                     -- I
  else if b = 106 then some .dayOfYear                                    -- j
  else if b = 107 then some (.hourPadded false 32)                        -- k
  else if b = 108 then some (.hourPadded true 32)                         -- l
  else if b = 77 then some (.stdlibFormat (str "04"))                     -- M
  else if b = 109 then some (.stdlibFormat (str "01"))                    -- m
  else if b = 110 then some (.verbatim [10])                              -- n
  else if b = 112 then some (.stdlibFormat (str "PM"))                    -- p
  else if b = 82 then some (.stdlibFormat (str "15:04"))                  -- R
  else if b = 114 then some .hmsWAMPM                                     -- r
  else if b = 83 then some (.stdlibFormat (str "05"))                     -- S
  else if b = 84 then some (.stdlibFormat (str "15:04:05"))               -- T
  else if b = 116 then some (.verbatim [9])                               -- t
  else if b = 85 then some (.weeknumberOffset 0)                          -- U
  else if b = 117 then some (.weekday 1)                                  -- u
  else if b = 86 then some .weekNumberISO                                 -- V
  else if b = 118 then some (.stdlibFormat (str "_2-Jan-2006"))           -- v
  else if b = 87 then some (.weeknumberOffset 1)                          -- W
  else if b = 119 then some (.weekday 0)                                  -- w
  else if b = 88 then some (.stdlibFormat (str "15:04:05"))               -- X
  else if b = 120 then some (.stdlibFormat (str "01/02/06"))              -- x
  else if b = 89 then some (.stdlibFormat (str "2006"))                   -- Y
  else if b = 121 then some (.stdlibFormat (str "06"))                    -- y
  else if b = 90 then some (.stdlibFormat (str "MST"))                    -- Z
  else if b = 122 then some (.stdlibFormat (str "-0700"))                 -- z
  else if b = 37 then some (.verbatim [37])                               -- %
  else none

/-- Two decimal digits of a number below 100. -/
def twoDigits (n : Int) : Bytes := [(48 + n / 10).toNat, (48 + n % 10).toNat]

/-- The method Append of each appender: the text it contributes for the time t. -/
def Appender.Append (a : Appender) (t : Time) : Bytes :=
  match a with
  | .verbatim s => s
  | .stdlibFormat s => t.Format s
  | .century =>
    let n := Int.tdiv t.Year 100
    (if n < 10 then [48] else []) ++ Itoa n
  | .dayOfYear =>
    let n := t.YearDay
    (if n < 10 then [48, 48] else if n < 100 then [48] else []) ++ Itoa n
  | .hourPadded twelveHour pad =>
    let h := t.Hour
    let h := if twelveHour ∧ h > 12 then h - 12 else h
    let h := if twelveHour ∧ h = 0 then 12 else h
    if h < 10 then [pad, (h + 48).toNat] else twoDigits h
  | .hmsWAMPM =>
    let h := t.Hour
    let hh := if h = 0 then [49, 50] else twoDigits (if h > 12 then h - 12 else h)
    hh ++ [58] ++ twoDigits t.Minute ++ [58] ++ twoDigits t.Second ++
      [32, if h < 12 then 65 else 80, 77]
  | .weeknumberOffset v =>
    let yd := t.YearDay
    let offset := t.Weekday - v
    let offset := if offset < 0 then offset + 7 else offset
    if yd < offset then [48, 48]
    else
      let n := Int.tdiv (yd - offset) 7 + 1
      (if n < 10 then [48] else []) ++ Itoa n
  | .weekNumberISO =>
    let n := t.ISOWeek
    (if n < 10 then [48] else []) ++ Itoa n
  | .weekday v =>
    let n := t.Weekday
    let n := if n < v then n + 7 else n
    [(n + 48).toNat]

/-- Go strings.Contains(s, w). -/
def containsText : Bytes → Bytes → Bool
  | [], w => w.isEmpty
  | c :: cs, w => w.isPrefixOf (c :: cs) || containsText cs w

/-- The words that keep a verbatim text from being combined. -/
def combineExclusion : List Bytes :=
  [str "Mon", str "Monday", str "Jan", str "January", str "MST", str "PM", str "pm"]

/-- The function canCombine of strftime: the text has no decimal digit and none of the
excluded words. -/
def canCombine (s : Bytes) : Bool :=
  !(s.any (fun c => decide (48 ≤ c) && decide (c ≤ 57))) &&
    combineExclusion.all (fun w => !containsText s w)

/-- The method canCombine of the interface combiner; an appender that does not implement
the interface is never combined. -/
def Appender.canCombine : Appender → Bool
  | .verbatim s => TimeUtils.canCombine s
  | .stdlibFormat _ => true
  | _ => false

/-- The method str of the interface combiner. -/
def Appender.str : Appender → Bytes
  | .verbatim s => s
  | .stdlibFormat s => s
  | _ => []

/-- The method combine: a time layout followed by anything, or a verbatim text followed by a
time layout, is the time layout of the joined text; two verbatim texts are one. -/
def Appender.combine (v w : Appender) : Appender :=
  match v with
  | .stdlibFormat s => .stdlibFormat (s ++ w.str)
  | .verbatim s =>
    match w with
    | .stdlibFormat l => .stdlibFormat (s ++ l)
    | _ => .verbatim (s ++ w.str)
  | _ => v

/-- The type combiningAppend: its list is done followed by prev. -/
structure CombiningAppend where
  done : List Appender := []
  prev : Option Appender := none
  prevCanCombine : Bool := false

/-- The method combiningAppend.Append. -/
def CombiningAppend.Append (ca : CombiningAppend) (w : Appender) : CombiningAppend :=
  match ca.prev with
  | some p =>
    if ca.prevCanCombine && w.canCombine then { ca with prev := some (p.combine w) }
    else { done := ca.done ++ [p], prev := some w, prevCanCombine := w.canCombine }
  | none => { done := ca.done, prev := some w, prevCanCombine := w.canCombine }

/-- The field list of combiningAppend. -/
def CombiningAppend.list (ca : CombiningAppend) : List Appender := ca.done ++ ca.prev.toList

/-- Position of the first percent sign, as strings.IndexByte(p, 37). -/
def indexPercent : Bytes → Option Nat
  | [] => none
  | c :: cs => if c = 37 then some 0 else (indexPercent cs).map (· + 1)

/-- The function compile of strftime with the handler appenderListBuilder, which passes
each appender to combiningAppend.Append.  Each round consumes at least one byte of the
pattern. -/
def compile : Nat → Bytes → CombiningAppend → Except Bytes CombiningAppend
  | 0, _, h => .ok h
  | fuel + 1, p, h =>
    if p.length = 0 then .ok h
    else
      match indexPercent p with
      | none => .ok (h.Append (.verbatim p))
      | some i =>
        if i = p.length - 1 then .error (str "stray % at the end of pattern")
        else
          let h := if i > 0 then h.Append (.verbatim (p.take i)) else h
          let p := p.drop i
          match lookupSpec (byteAt p 1) with
          | none =>
            .error (str "pattern compilation failed: lookup failed: \x27%" ++ utf8Char (byteAt p 1) ++
              str "\x27 was not found in specification set")
          | some spec => compile fuel (p.drop 2) (h.Append spec)

/-- The constructor strftime.New(p) with the default specification set: the compiled
appender list. -/
def strftimeNew (p : Bytes) : Except Bytes (List Appender) :=
  match compile p.length p {} with
  | .error e => .error (str "failed to compile format: " ++ e)
  | .ok h => .ok h.list

/-- The method Strftime.FormatString. -/
def FormatString (compiled : List Appender) (t : Time) : Bytes :=
  match compiled with
  | [] => []
  | w :: ws => w.Append t ++ FormatString ws t

/-! ## The Run methods -/

/-- The fields of function.RunResponse that a Run method sets. -/
structure RunResponse where
  Error : Option Bytes := none
  Result : Option Bytes := none
  deriving DecidableEq

/-- The method UnixTimestampFunction.Run on the bound argument. -/
def unix_timestamp (env : Env) (timestamp : Bytes) : RunResponse :=
  match Parse env timestamp with
  | .error err => { Error := some (str "Invalid RFC3339 timestamp: " ++ err.Error) }
  | .ok t => { Result := some (Itoa t.Unix) }

/-- The method ParseRFC3339Function.Run on the bound argument. -/
def parse_rfc3339 (env : Env) (timestamp : Bytes) : RunResponse :=
  match Parse env timestamp with
  | .error err => { Error := some (str "Invalid RFC3339 timestamp: " ++ err.Error) }
  | .ok t =>
    { Result := some (
        str "\x7b\"year\":\"" ++ Itoa t.Year ++
        str "\",\"month\":\"" ++ Itoa t.Month ++
        str "\",\"day\":\"" ++ Itoa t.Day ++
        str "\",\"hour\":\"" ++ Itoa t.Hour ++
        str "\",\"minute\":\"" ++ Itoa t.Minute ++
        str "\",\"second\":\"" ++ Itoa t.Second ++
        str "\",\"unix\":\"" ++ Itoa t.Unix ++
        str "\",\"weekday\":\"" ++ Itoa t.Weekday ++ str "\"\x7d") }

/-- The method DaysDifferenceFunction.Run on the bound arguments. -/
def days_difference (env : Env) (startTimestamp endTimestamp : Bytes) : RunResponse :=
  match Parse env startTimestamp with
  | .error err => { Error := some (str "Invalid start timestamp: " ++ err.Error) }
  | .ok startTime =>
    match Parse env endTimestamp with
    | .error err => { Error := some (str "Invalid end timestamp: " ++ err.Error) }
    | .ok endTime =>
      let duration := endTime.Sub startTime
      let days := F64.toInt (F64.div (Hours duration) (F64.ofInt 24))
      { Result := some (Itoa days) }

/-- The method StrftimeFunction.Run on the bound arguments. -/
def strftime (env : Env) (format timestamp : Bytes) : RunResponse :=
  match Parse env timestamp with
  | .error err => { Error := some (str "Invalid RFC3339 timestamp: " ++ err.Error) }
  | .ok t =>
    match strftimeNew format with
    | .error err => { Error := some (str "Invalid strftime format: " ++ err) }
    | .ok formatter => { Result := some (FormatString formatter t) }

/-! ## Specification side: well-formed timestamps and the civil calendar -/

/-- Two decimal digits of a number below 100. -/
def pad2 (n : Nat) : Bytes := [48 + n / 10, 48 + n % 10]

/-- Four decimal digits of a number below 10000. -/
def pad4 (n : Nat) : Bytes := [48 + n / 1000, 48 + n / 100 % 10, 48 + n / 10 % 10, 48 + n % 10]

/-- The zone designator of an RFC 3339 timestamp: Z, or a numeric offset. -/
inductive Zone where
  | utc
  | offset (neg : Bool) (hh mm : Nat)

def Zone.text : Zone → Bytes
  | .utc => [90]
  | .offset neg hh mm => (if neg then 45 else 43) :: (pad2 hh ++ 58 :: pad2 mm)

/-- Seconds east of UTC. -/
def Zone.seconds : Zone → Int
  | .utc => 0
  | .offset neg hh mm => if neg then -((hh : Int) * 3600 + mm * 60) else (hh : Int) * 3600 + mm * 60

def Zone.Valid : Zone → Prop
  | .utc => True
  | .offset _ hh mm => hh ≤ 23 ∧ mm ≤ 59

/-- The fields of an RFC 3339 timestamp as written: calendar date, time of day, the digits
of the fractional second (none when the list is empty) and the zone designator. -/
structure Stamp where
  year : Nat
  month : Nat
  day : Nat
  hour : Nat
  minute : Nat
  second : Nat
  frac : List Nat
  zone : Zone

def isLeapYear (y : Nat) : Bool := y % 4 = 0 ∧ (y % 100 ≠ 0 ∨ y % 400 = 0)

def yearLength (y : Nat) : Nat := if isLeapYear y then 366 else 365

/-- Days of month m (1 to 12) in year y of the Gregorian calendar. -/
def monthLength (y m : Nat) : Nat :=
  if m = 2 then (if isLeapYear y then 29 else 28)
  else if m = 4 ∨ m = 6 ∨ m = 9 ∨ m = 11 then 30
  else 31

/-- Days from 0000-01-01 to January 1 of year y. -/
def daysBeforeYear : Nat → Nat
  | 0 => 0
  | y + 1 => daysBeforeYear y + yearLength y

/-- Days from January 1 of year y to the first day of month m + 1. -/
def daysBeforeMonth (y : Nat) : Nat → Nat
  | 0 => 0
  | m + 1 => daysBeforeMonth y m + monthLength y (m + 1)

/-- Days from 1970-01-01 to the given calendar date. -/
def civilDays (y m d : Nat) : Int :=
  (daysBeforeYear y : Int) + daysBeforeMonth y (m - 1) + ((d : Int) - 1) - 719528

/-- The text of the fractional second: nothing, or a period and the digits. -/
def fracText (ds : List Nat) : Bytes := if ds = [] then [] else 46 :: ds.map (48 + ·)

/-- The first nine fractional digits read as nanoseconds. -/
def fracNanos (ds : List Nat) : Nat :=
  (ds.take 9).foldl (fun acc d => acc * 10 + d) 0 * 10 ^ (9 - ds.length)

/-- The timestamp text. -/
def Stamp.text (s : Stamp) : Bytes :=
  pad4 s.year ++ 45 :: (pad2 s.month ++ 45 :: (pad2 s.day ++ 84 :: (pad2 s.hour ++ 58 ::
    (pad2 s.minute ++ 58 :: (pad2 s.second ++ (fracText s.frac ++ s.zone.text))))))

/-- A timestamp of the RFC 3339 profile: every field in range, the day existing in its month. -/
def Stamp.Valid (s : Stamp) : Prop :=
  s.year ≤ 9999 ∧ 1 ≤ s.month ∧ s.month ≤ 12 ∧ 1 ≤ s.day ∧ s.day ≤ monthLength s.year s.month ∧
  s.hour ≤ 23 ∧ s.minute ≤ 59 ∧ s.second ≤ 59 ∧ (∀ d ∈ s.frac, d ≤ 9) ∧ s.zone.Valid

/-- Seconds from 1970-01-01T00:00:00Z to the instant the timestamp denotes, whole seconds. -/
def Stamp.epochSeconds (s : Stamp) : Int :=
  civilDays s.year s.month s.day * 86400 + s.hour * 3600 + s.minute * 60 + s.second - s.zone.seconds

/-- Day of the week of the calendar date as written, Sunday = 0; 1970-01-01 was a Thursday. -/
def Stamp.weekday (s : Stamp) : Int := (civilDays s.year s.month s.day + 4) % 7

/-- The instant a timestamp denotes, with the zone package time attaches to it. -/
def Stamp.time (env : Env) (st : Stamp) : Time :=
  { sec := st.epochSeconds
    nsec := fracNanos st.frac
    loc := match st.zone with
      | .utc => UTC
      | .offset _ _ _ => locate env st.epochSeconds st.zone.seconds }

/-! ## Notions used in the statements and proofs -/

/-- The rational number a binary64 value stands for. -/
def F64.val (a : F64) : ℚ := (a.m : ℚ) * (2 : ℚ) ^ a.e

/-- The value y is a correct rounding of x to 53 significant bits: the relative error is
at most 2^-53, and a representable x is returned unchanged. -/
def Rounds (x y : ℚ) : Prop :=
  |y - x| ≤ |x| / 2 ^ 53 ∧ ∀ (M : Int) (E : Int), x = M * (2 : ℚ) ^ E → |M| < 2 ^ 53 → y = x

/-- Sign change of a binary64 value. -/
def F64.neg (a : F64) : F64 := { m := -a.m, e := a.e }

/-- The day count of days_difference as a function of the duration. -/
def daysOf (d : Int) : Int := F64.toInt (F64.div (Hours d) (F64.ofInt 24))

instance (z : Zone) : Decidable z.Valid := by
  cases z <;> unfold Zone.Valid <;> infer_instance

instance (s : Stamp) : Decidable s.Valid := by
  unfold Stamp.Valid; infer_instance

/-- The environment of a host whose local zone is UTC. -/
def envUTC : Env := { localLookup := fun _ => UTC }

/-- The text ends with a zone designator: Z, or a sign, two bytes, a colon and two bytes. -/
def HasZone (s : Bytes) : Prop :=
  ∃ pre, s = pre ++ [90] ∨
    ∃ sg a b c d, (sg = 43 ∨ sg = 45) ∧ s = pre ++ [sg, a, b, 58, c, d]

/-- The two-digit number written at positions i and i + 1 of s. -/
def num2 (s : Bytes) (i : Nat) : Int :=
  ((byteAt s i : Int) - 48) * 10 + ((byteAt s (i + 1) : Int) - 48)

/-- A date-time written with a four-digit year and two-digit fields, followed by rest. -/
def fieldsText (y m d H M S : Nat) (rest : Bytes) : Bytes :=
  pad4 y ++ 45 :: (pad2 m ++ 45 :: (pad2 d ++ 84 :: (pad2 H ++ 58 :: (pad2 M ++ 58 ::
    (pad2 S ++ rest)))))

/-- Every field lies in its range and the day exists in the month. -/
def FieldsInRange (y m d H M S : Nat) : Prop :=
  1 ≤ m ∧ m ≤ 12 ∧ 1 ≤ d ∧ d ≤ monthLength y m ∧ H ≤ 23 ∧ M ≤ 59 ∧ S ≤ 59

/-- The malformed timestamp texts of the error contract: the empty text, a text without a
zone designator at its end, a text whose byte between date and time is not T, and a
date-time with a field out of range or a day that does not exist in its month. -/
def Malformed (s : Bytes) : Prop :=
  s = [] ∨ ¬ HasZone s ∨ byteAt s 10 ≠ 84 ∨
  ∃ y m d H M S rest, y ≤ 9999 ∧ m < 100 ∧ d < 100 ∧ H < 100 ∧ M < 100 ∧ S < 100 ∧
    ¬ FieldsInRange y m d H M S ∧ s = fieldsText y m d H M S rest

instance (y m d H M S : Nat) : Decidable (FieldsInRange y m d H M S) := by
  unfold FieldsInRange; infer_instance

/-! ## Specification side: strftime formats -/

/-- The ten directives of the documented subset. -/
inductive Directive where
  | year | month | day | hour | minute | second | hour12 | ampm | weekdayFull | monthFull
  deriving DecidableEq

/-- The directive character that follows the percent sign. -/
def Directive.char : Directive → Nat
  | .year => 89
  | .month => 109
  | .day => 100
  | .hour => 72
  | .minute => 77
  | .second => 83
  | .hour12 => 73
  | .ampm => 112
  | .weekdayFull => 65
  | .monthFull => 66

/-- Full English name of a weekday, Sunday = 0. -/
def weekdayName : Nat → Bytes
  | 0 => str "Sunday"
  | 1 => str "Monday"
  | 2 => str "Tuesday"
  | 3 => str "Wednesday"
  | 4 => str "Thursday"
  | 5 => str "Friday"
  | 6 => str "Saturday"
  | _ => []

/-- Full English name of a month, January = 1. -/
def monthName : Nat → Bytes
  | 1 => str "January"
  | 2 => str "February"
  | 3 => str "March"
  | 4 => str "April"
  | 5 => str "May"
  | 6 => str "June"
  | 7 => str "July"
  | 8 => str "August"
  | 9 => str "September"
  | 10 => str "October"
  | 11 => str "November"
  | 12 => str "December"
  | _ => []

/-- The field of a timestamp, as written, that a directive stands for. -/
def Directive.expand (st : Stamp) : Directive → Bytes
  | .year => pad4 st.year
  | .month => pad2 st.month
  | .day => pad2 st.day
  | .hour => pad2 st.hour
  | .minute => pad2 st.minute
  | .second => pad2 st.second
  | .hour12 => pad2 (if st.hour = 0 ∨ st.hour = 12 then 12 else st.hour % 12)
  | .ampm => if st.hour < 12 then str "AM" else str "PM"
  | .weekdayFull => weekdayName st.weekday.toNat
  | .monthFull => monthName st.month

/-- A format of literal texts and directives: each pair is a literal text and the directive
that follows it, and tail is the literal text after the last directive. -/
def formatOf : List (Bytes × Directive) → Bytes → Bytes
  | [], tail => tail
  | (r, d) :: segs, tail => r ++ 37 :: d.char :: formatOf segs tail

/-- The format with each directive replaced by the field of the timestamp. -/
def expandOf (st : Stamp) : List (Bytes × Directive) → Bytes → Bytes
  | [], tail => tail
  | (r, d) :: segs, tail => r ++ d.expand st ++ expandOf st segs tail

/-- The literal text r, directly before the directive d, is read as part of a layout
element: r has no decimal digit and none of the words Mon, Monday, Jan, January, MST, PM, pm,
so that the library joins it with the layout of d, and r ends in P before %A (read as PM
and onday) or in two underscores before %Y (read as __2 and 006). -/
def misread (r : Bytes) (d : Directive) : Bool :=
  canCombine r &&
    ((decide ([80] <:+ r) && decide (d = .weekdayFull)) ||
     (decide ([95, 95] <:+ r) && decide (d = .year)))

/-- The directive characters of the default specification set:
AaBbCcDdeFHhIjklMmnpRrSTtUuVvWwXxYyZz and the percent sign. -/
def directiveChars : Bytes :=
  [65, 97, 66, 98, 67, 99, 68, 100, 101, 70, 72, 104, 73, 106, 107, 108, 77, 109, 110, 112, 82,
   114, 83, 84, 116, 85, 117, 86, 118, 87, 119, 88, 120, 89, 121, 90, 122, 37]

/-- Scan of a format, left to right; pending says that the byte before was a percent sign
that waits for its directive character. -/
def directivesOkFrom : Bool → Bytes → Bool
  | pending, [] => !pending
  | false, c :: rest => directivesOkFrom (decide (c = 37)) rest
  | true, c :: rest => decide (c ∈ directiveChars) && directivesOkFrom false rest

/-- Reading the format left to right, with each percent sign taking the byte after it as
its directive character: every percent sign so read is followed by a directive character. -/
def directivesOk (p : Bytes) : Bool := directivesOkFrom false p

/-! ## Specification side: the environment -/

/-- A time without the name of its zone. -/
def forget (t : Time) : Time := { t with loc := { name := [], offset := t.loc.offset } }

/-- The result of a parse without the zone names. -/
def forgetResult : Except ParseError Time → Except ParseError Time
  | .error e => .error e
  | .ok t => .ok (forget t)

/-- Scan of a format, left to right; pending says that the byte before was a percent sign
that waits for its directive character. The answer is whether some directive is %Z. -/
def usesZoneNameFrom : Bool → Bytes → Bool
  | _, [] => false
  | false, c :: rest => usesZoneNameFrom (decide (c = 37)) rest
  | true, c :: rest => decide (c = 90) || usesZoneNameFrom false rest

/-- The format holds the directive %Z, the abbreviation of the time zone. -/
def usesZoneName (p : Bytes) : Bool := usesZoneNameFrom false p

/-- An environment whose local zone is PST, eight hours west of UTC. -/
def envPST : Env := { localLookup := fun _ => { name := str "PST", offset := -28800 } }

/-! ## Specification side: the shape of a timestamp text -/

/-- The byte is a decimal digit. -/
def isDigitByte (c : Nat) : Bool := decide (48 ≤ c) && decide (c ≤ 57)

/-- The byte at position i of s is a decimal digit. -/
def digitAt (s : Bytes) (i : Nat) : Bool := isDigitByte (byteAt s i)

/-- A zone designator and nothing else: Z, or a sign, two digits, a colon and two digits. -/
def zoneShape (v : Bytes) : Bool :=
  (v.length == 1 && byteAt v 0 == 90) ||
  (v.length == 6 && (byteAt v 0 == 43 || byteAt v 0 == 45) && digitAt v 1 && digitAt v 2 &&
    byteAt v 3 == 58 && digitAt v 4 && digitAt v 5)

/-- An optional fraction, introduced by a period and made of one or more digits, then the
zone designator. -/
def strictFracZone (v : Bytes) : Bool :=
  if byteAt v 0 == 46 && digitAt v 1 then zoneShape ((v.drop 2).dropWhile isDigitByte)
  else zoneShape v

/-- An optional fraction, introduced by a period or a comma and made of one or more digits,
then the zone designator. -/
def lenientFracZone (v : Bytes) : Bool :=
  if (byteAt v 0 == 46 || byteAt v 0 == 44) && digitAt v 1 then
    zoneShape ((v.drop 2).dropWhile isDigitByte)
  else zoneShape v

/-- A colon, two digits, a colon, two digits, and then what fz accepts. -/
def minSecShape (fz : Bytes → Bool) (v : Bytes) : Bool :=
  byteAt v 0 == 58 && digitAt v 1 && digitAt v 2 && byteAt v 3 == 58 && digitAt v 4 &&
    digitAt v 5 && fz (v.drop 6)

/-- Four digits, a hyphen, two digits, a hyphen, two digits, the letter T and a digit. -/
def dateShape (s : Bytes) : Bool :=
  digitAt s 0 && digitAt s 1 && digitAt s 2 && digitAt s 3 && byteAt s 4 == 45 &&
    digitAt s 5 && digitAt s 6 && byteAt s 7 == 45 && digitAt s 8 && digitAt s 9 &&
    byteAt s 10 == 84 && digitAt s 11

/-- The RFC 3339 profile in the words of the specification: a 4-digit year, 2-digit month,
day, hour, minute and second separated by hyphens, T and colons, an optional fraction
introduced by a period, then Z or an offset +HH:MM or -HH:MM, with nothing following. -/
def strictShape (s : Bytes) : Bool :=
  dateShape s && digitAt s 12 && minSecShape strictFracZone (s.drop 13)

/-- The profile with two relaxations: the hour may have a single digit, and the fraction
may be introduced by a comma. -/
def lenientShape (s : Bytes) : Bool :=
  dateShape s && minSecShape lenientFracZone (s.drop (if digitAt s 12 then 13 else 12))

/-- The exact time from the instant of a to the instant of b, in nanoseconds. -/
def Stamp.elapsedNanos (a b : Stamp) : Int :=
  (b.epochSeconds - a.epochSeconds) * 1000000000 + ((fracNanos b.frac : Int) - fracNanos a.frac)

/-! ## Notions used in the proofs about strftime -/

/-- The time layout that the default specification set gives each of the ten directives. -/
def Directive.layout : Directive → Bytes
  | .year => str "2006"
  | .month => str "01"
  | .day => str "02"
  | .hour => str "15"
  | .minute => str "04"
  | .second => str "05"
  | .hour12 => str "03"
  | .ampm => str "PM"
  | .weekdayFull => str "Monday"
  | .monthFull => str "January"

/-- The layout element that each of the ten directives stands for. -/
def Directive.elem : Directive → StdChunk
  | .year => { std := .stdLongYear, len := 4 }
  | .month => { std := .stdZeroMonth, len := 2 }
  | .day => { std := .stdZeroDay, len := 2 }
  | .hour => { std := .stdHour, len := 2 }
  | .minute => { std := .stdZeroMinute, len := 2 }
  | .second => { std := .stdZeroSecond, len := 2 }
  | .hour12 => { std := .stdZeroHour12, len := 2 }
  | .ampm => { std := .stdPM, len := 2 }
  | .weekdayFull => { std := .stdLongWeekDay, len := 6 }
  | .monthFull => { std := .stdLongMonth, len := 7 }

/-- The byte c, when the bytes a and b follow it, starts no layout element. -/
def Quiet (c a b : Nat) : Prop :=
  (c < 48 ∨ 53 < c) ∧ (c = 74 → ¬(a = 97 ∧ b = 110)) ∧
  (c = 77 → ¬(a = 111 ∧ b = 110) ∧ ¬(a = 83 ∧ b = 84)) ∧
  (c = 95 → a ≠ 50 ∧ ¬(a = 95 ∧ b = 50)) ∧ (c = 80 → a ≠ 77) ∧ (c = 112 → a ≠ 109) ∧
  (c = 45 ∨ c = 90 → ¬(a = 48 ∧ b = 55)) ∧
  (c = 46 ∨ c = 44 → (a ≠ 48 ∧ a ≠ 57) ∨ (a = 48 ∧ 49 ≤ b ∧ b ≤ 57))

/-- The layout L is read element by element whatever follows it. -/
def Closed (t : Time) (L : Bytes) : Prop := ∀ R, t.Format (L ++ R) = t.Format L ++ t.Format R

/-- The state of the handler between two directives: a pending appender that can still be
combined is a time layout that is read element by element whatever follows. -/
def Ext (t : Time) (h : CombiningAppend) : Prop :=
  h.prevCanCombine = true → ∃ L, h.prev = some (.stdlibFormat L) ∧ Closed t L

/-- The handler after the verbatim text before a percent sign. -/
def afterText (h : CombiningAppend) (pre : Bytes) : CombiningAppend :=
  if pre = [] then h else h.Append (.verbatim pre)

/-- Every place where the text reads MST comes directly after a P. -/
def Guarded (S : Bytes) : Prop :=
  ∀ j, hasPrefix (S.drop j) "MST" = true → 1 ≤ j ∧ byteAt S (j - 1) = 80

/-- One step of the automaton that looks for MST not directly after P: state 1 after a P,
state 2 after such an M, state 3 after MS, state 4 once MST is found, state 0 otherwise. -/
def tzStep (q c : Nat) : Nat :=
  if q = 4 then 4
  else if q = 3 ∧ c = 84 then 4
  else if q = 2 ∧ c = 83 then 3
  else if c = 80 then 1
  else if c = 77 then (if q = 1 then 0 else 2)
  else 0

/-- The state of the automaton after a text. -/
def tzScan (q : Nat) (s : Bytes) : Nat := s.foldl tzStep q

/-- The appender prints the same for a time and for the time without the name of its
zone. -/
def EnvFree (a : Appender) : Prop := ∀ t, a.Append t = a.Append (forget t)

/-- What the handler holds while a format without %Z is compiled: every appender set aside
prints no zone name, and a pending appender that can still be combined is a text s whose
automaton state satisfies Q. -/
def Inv (Q : Nat → Prop) (h : CombiningAppend) : Prop :=
  (∀ a ∈ h.done, EnvFree a) ∧
  ∀ p, h.prev = some p → EnvFree p ∧
    (h.prevCanCombine = true →
      ∃ s, (p = .verbatim s ∨ p = .stdlibFormat s) ∧ Q (tzScan 0 s))

/-- The appender of a directive other than %Z: it never prints a zone name, and when it can
be combined its text leaves the automaton in state 0. -/
def SpecGood (spec : Appender) : Prop :=
  (spec.canCombine = false ∧ EnvFree spec) ∨
  (spec.canCombine = true ∧ (spec = .verbatim spec.str ∨ spec = .stdlibFormat spec.str) ∧
    ∀ q, q < 4 → tzScan q spec.str = 0)

/-- The check of SpecGood on the appender of a directive character, by evaluation. -/
def specCheck (b : Nat) : Bool :=
  match lookupSpec b with
  | none => true
  | some (.verbatim s) =>
    canCombine s && tzScan 0 s == 0 && tzScan 1 s == 0 && tzScan 2 s == 0 && tzScan 3 s == 0
  | some (.stdlibFormat s) =>
    tzScan 0 s == 0 && tzScan 1 s == 0 && tzScan 2 s == 0 && tzScan 3 s == 0
  | some _ => true

/-! # Lemmas and theorems -/

/-! ## Lemmas: digits -/

theorem parseUintDigits_pad2 (n : Nat) (h : n < 100) :
    parseUintDigits (pad2 n) 0 = some (n : Int) := by
  simp only [pad2, parseUintDigits]
  have h1 : ¬ (48 + n / 10 < 48 ∨ 57 < 48 + n / 10) := by omega
  have h2 : ¬ (48 + n % 10 < 48 ∨ 57 < 48 + n % 10) := by omega
  simp only [h1, h2, if_false]
  congr 1
  push_cast
  omega

theorem parseUint_pad2 (n : Nat) (lo hi : Int) (h1 : lo ≤ n) (h2 : (n : Int) ≤ hi)
    (h : n < 100) : parseUint (pad2 n) lo hi = ((n : Int), true) := by
  simp only [parseUint, parseUintDigits_pad2 n h]
  have : ¬ ((n : Int) < lo ∨ hi < n) := by omega
  simp [this]

theorem parseUint_pad4 (n : Nat) (h : n ≤ 9999) :
    parseUint (pad4 n) 0 9999 = ((n : Int), true) := by
  have h1 : ¬ (48 + n / 1000 < 48 ∨ 57 < 48 + n / 1000) := by omega
  have h2 : ¬ (48 + n / 100 % 10 < 48 ∨ 57 < 48 + n / 100 % 10) := by omega
  have h3 : ¬ (48 + n / 10 % 10 < 48 ∨ 57 < 48 + n / 10 % 10) := by omega
  have h4 : ¬ (48 + n % 10 < 48 ∨ 57 < 48 + n % 10) := by omega
  have e : parseUintDigits (pad4 n) 0 = some (n : Int) := by
    simp only [pad4, parseUintDigits, h1, h2, h3, h4, if_false]
    congr 1
    push_cast
    omega
  simp only [parseUint, e]
  have : ¬ ((n : Int) < 0 ∨ (9999 : Int) < n) := by omega
  simp [this, h]

/-- The digits of a fractional second as bytes. -/
theorem digitRun_digits (ds : List Nat) (hd : ∀ d ∈ ds, d ≤ 9) (z : Bytes)
    (hz : digitRun z = 0) : digitRun (ds.map (48 + ·) ++ z) = ds.length := by
  induction ds with
  | nil => simpa using hz
  | cons d ds ih =>
    have hd0 : d ≤ 9 := hd d (List.mem_cons_self _ _)
    have ih2 := ih (fun x hx => hd x (List.mem_cons_of_mem _ hx))
    simp only [List.map_cons, List.cons_append, digitRun, List.length_cons]
    rw [if_pos (by omega)]
    exact congrArg (· + 1) ih2

theorem leadingInt_digits (ds : List Nat) (hd : ∀ d ∈ ds, d ≤ 9) :
    ∀ (k x : Nat), ds.length + k ≤ 9 → x < 10 ^ k →
      leadingInt (ds.map (48 + ·)) x = (ds.foldl (fun acc d => acc * 10 + d) x, [], false) := by
  induction ds with
  | nil => intro k x _ _; simp [leadingInt]
  | cons d ds ih =>
    intro k x hk hx
    have hd0 : d ≤ 9 := hd d (List.mem_cons_self _ _)
    have hk9 : k ≤ 8 := by simp only [List.length_cons] at hk; omega
    have hx9 : x < 10 ^ 8 := lt_of_lt_of_le hx (Nat.pow_le_pow_right (by norm_num) hk9)
    have hx2 : x * 10 + d < 10 ^ (k + 1) := by
      rw [pow_succ]; omega
    have hx3 : x * 10 + d < 10 ^ 9 :=
      lt_of_lt_of_le hx2 (Nat.pow_le_pow_right (by norm_num) (by omega))
    simp only [List.map_cons, leadingInt, List.foldl_cons]
    rw [if_neg (by omega), if_neg (by norm_num at hx9 ⊢; omega)]
    have e : x * 10 + (48 + d) - 48 = x * 10 + d := by omega
    simp only [e]
    rw [if_neg (by norm_num at hx3 ⊢; omega)]
    exact ih (fun y hy => hd y (List.mem_cons_of_mem _ hy)) (k + 1) _
      (by simp only [List.length_cons] at hk; omega) hx2

/-! ## Lemmas: the calendar -/

theorem norm_id (hi lo base : Int) (h0 : 0 ≤ lo) (h1 : lo < base) : norm hi lo base = (hi, lo) := by
  simp [norm, not_lt.mpr h0, h1]

theorem isLeap_eq (y : Nat) : isLeap (y : Int) = isLeapYear y := by
  simp only [isLeap, isLeapYear]
  by_cases h4 : y % 4 = 0 <;> by_cases h100 : y % 100 = 0 <;> by_cases h400 : y % 400 = 0 <;>
    simp [h4, h100, h400] <;> omega

theorem yearLength_eq (y : Nat) :
    yearLength y = if y % 4 = 0 ∧ (y % 100 ≠ 0 ∨ y % 400 = 0) then 366 else 365 := by
  simp [yearLength, isLeapYear]

theorem daysSinceEpoch_succ (y : Nat) :
    daysSinceEpoch ((y + 1 : Nat) : Int) = daysSinceEpoch (y : Int) + yearLength y := by
  have e1 : (((y + 1 : Nat) : Int) - absoluteZeroYear).toNat = y + 292277022400 := by
    simp only [absoluteZeroYear]; omega
  have e0 : ((y : Int) - absoluteZeroYear).toNat = y + 292277022399 := by
    simp only [absoluteZeroYear]; omega
  simp only [daysSinceEpoch, e1, e0, daysPer400Years, daysPer100Years, daysPer4Years,
    yearLength_eq]
  split_ifs with h <;> omega

theorem daysSinceEpoch_eq (y : Nat) :
    daysSinceEpoch (y : Int) = daysBeforeYear y + 106751990353566 := by
  induction y with
  | zero => simp [daysBeforeYear]; decide
  | succ y ih => rw [daysSinceEpoch_succ, ih, daysBeforeYear]; omega

theorem unixToAbsolute_eq : unixToAbsolute = 9223372028715321600 := by decide

theorem daysBeforeMonth_eq (y m : Nat) (h1 : 1 ≤ m) (h2 : m ≤ 12) :
    (daysBeforeMonth y (m - 1) : Int) =
      daysBefore.getD (((m : Int) - 1).toNat) 0 +
        (if isLeap (y : Int) && decide ((m : Int) ≥ 3) then 1 else 0) := by
  rw [isLeap_eq]
  interval_cases m <;> cases h : isLeapYear y <;>
    simp [daysBeforeMonth, monthLength, daysBefore, h]

theorem Date_eq_civil (y m d H M S ns : Nat) (hm1 : 1 ≤ m) (hm2 : m ≤ 12)
    (hH : H ≤ 23) (hM : M ≤ 59) (hS : S ≤ 59) (hns : ns < 1000000000) :
    Date y m d H M S ns =
      (civilDays y m d * 86400 + (H : Int) * 3600 + (M : Int) * 60 + S, (ns : Int)) := by
  have n1 : norm (y : Int) ((m : Int) - 1) 12 = ((y : Int), (m : Int) - 1) :=
    norm_id _ _ _ (by omega) (by omega)
  have n2 : norm (S : Int) (ns : Int) 1000000000 = ((S : Int), (ns : Int)) :=
    norm_id _ _ _ (by omega) (by omega)
  have n3 : norm (M : Int) (S : Int) 60 = ((M : Int), (S : Int)) :=
    norm_id _ _ _ (by omega) (by omega)
  have n4 : norm (H : Int) (M : Int) 60 = ((H : Int), (M : Int)) :=
    norm_id _ _ _ (by omega) (by omega)
  have n5 : norm (d : Int) (H : Int) 24 = ((d : Int), (H : Int)) :=
    norm_id _ _ _ (by omega) (by omega)
  have hb := daysBeforeMonth_eq y m hm1 hm2
  have hy := daysSinceEpoch_eq y
  have e3 : ((m : Int) - 1 + 1 ≥ 3) = ((m : Int) ≥ 3) := by
    simp only [ge_iff_le, eq_iff_iff]; omega
  have e4 : ((m : Int) - 1 + 1 - 1) = (m : Int) - 1 := by omega
  have hu : unixToAbsolute = 9223372028715321600 := by decide
  unfold Date
  simp only [n1, n2, n3, n4, n5, e3, e4, hy, civilDays, secondsPerDay, secondsPerHour,
    secondsPerMinute, hu, Prod.mk.injEq, and_true]
  rw [hb]
  split_ifs <;> push_cast <;> ring

theorem absYday_core (q c100 c4 r4 yd s : Nat) (h1 : c100 ≤ 3) (h2 : c4 ≤ 24) (h3 : r4 ≤ 3)
    (h4 : yd ≤ 364 ∨ (yd = 365 ∧ r4 = 3 ∧ (c4 ≠ 24 ∨ c100 = 3))) (hs : s < 86400) :
    absYday ((146097 * q + 36524 * c100 + 1461 * c4 + 365 * r4 + yd) * 86400 + s) =
      (((400 * q + 100 * c100 + 4 * c4 + r4 : Nat) : Int) + absoluteZeroYear, (yd : Int)) := by
  have hd : ((146097 * q + 36524 * c100 + 1461 * c4 + 365 * r4 + yd) * 86400 + s) / 86400 =
      146097 * q + 36524 * c100 + 1461 * c4 + 365 * r4 + yd := by omega
  have hn : (146097 * q + 36524 * c100 + 1461 * c4 + 365 * r4 + yd) / 146097 = q := by omega
  have hd1 : 146097 * q + 36524 * c100 + 1461 * c4 + 365 * r4 + yd - 146097 * q =
      36524 * c100 + 1461 * c4 + 365 * r4 + yd := by omega
  have hn1 : (36524 * c100 + 1461 * c4 + 365 * r4 + yd) / 36524 -
      (36524 * c100 + 1461 * c4 + 365 * r4 + yd) / 36524 / 4 = c100 := by
    rcases h4 with h | ⟨h, h5, h6⟩ <;> interval_cases c100 <;> omega
  have hd2 : 36524 * c100 + 1461 * c4 + 365 * r4 + yd - 36524 * c100 =
      1461 * c4 + 365 * r4 + yd := by omega
  have hn2 : (1461 * c4 + 365 * r4 + yd) / 1461 = c4 := by omega
  have hd3 : 1461 * c4 + 365 * r4 + yd - 1461 * c4 = 365 * r4 + yd := by omega
  have hn3 : (365 * r4 + yd) / 365 - (365 * r4 + yd) / 365 / 4 = r4 := by
    rcases h4 with h | ⟨h, h5, h6⟩ <;> interval_cases r4 <;> omega
  have hd4 : 365 * r4 + yd - 365 * r4 = yd := by omega
  simp only [absYday, daysPer400Years, daysPer100Years, daysPer4Years, hd, hn, hd1, hn1, hd2,
    hn2, hd3, hn3, hd4]

theorem absYday_civil (y yd s : Nat) (hyd : yd < yearLength y) (hs : s < 86400) :
    absYday ((daysSinceEpoch (y : Int) + yd) * 86400 + s) = ((y : Int), (yd : Int)) := by
  have e0 : ((y : Int) - absoluteZeroYear).toNat = y + 292277022399 := by
    simp only [absoluteZeroYear]; omega
  rw [yearLength_eq] at hyd
  have key := absYday_core ((y + 292277022399) / 400) ((y + 292277022399) % 400 / 100)
    ((y + 292277022399) % 100 / 4) ((y + 292277022399) % 4) yd s (by omega) (by omega) (by omega)
    (by split_ifs at hyd <;> omega) hs
  have e1 : daysSinceEpoch (y : Int) = 146097 * ((y + 292277022399) / 400) +
      36524 * ((y + 292277022399) % 400 / 100) + 1461 * ((y + 292277022399) % 100 / 4) +
      365 * ((y + 292277022399) % 4) := by
    simp only [daysSinceEpoch, e0, daysPer400Years, daysPer100Years, daysPer4Years]
    omega
  rw [e1, key]
  simp only [absoluteZeroYear, Prod.mk.injEq, and_true]
  omega

theorem yday_lt (y m d : Nat) (hm1 : 1 ≤ m) (hm2 : m ≤ 12) (hd1 : 1 ≤ d)
    (hd2 : d ≤ monthLength y m) : daysBeforeMonth y (m - 1) + (d - 1) < yearLength y := by
  revert hd2
  interval_cases m <;> cases h : isLeapYear y <;>
    simp [daysBeforeMonth, monthLength, yearLength, h] <;> omega

/-- The month and day that absDate derives from the day of the year. -/
theorem monthDay_civil (b : Bool) (m d : Nat) (hm1 : 1 ≤ m) (hm2 : m ≤ 12) (hd1 : 1 ≤ d)
    (hd2 : d ≤ (if m = 2 then (if b then 29 else 28)
      else if m = 4 ∨ m = 6 ∨ m = 9 ∨ m = 11 then 30 else 31))
    (yd : Int)
    (hyd : yd = daysBefore.getD (m - 1) 0 + (if b && decide (m ≥ 3) then 1 else 0) + (d - 1)) :
    (if b && yd == 31 + 29 - 1 then ((2 : Int), (29 : Int))
     else
      if (if b && decide (yd > 31 + 29 - 1) then yd - 1 else yd) ≥
          daysBefore.getD ((if b && decide (yd > 31 + 29 - 1) then yd - 1 else yd) / 31 + 1).toNat 0
      then ((if b && decide (yd > 31 + 29 - 1) then yd - 1 else yd) / 31 + 1 + 1,
        (if b && decide (yd > 31 + 29 - 1) then yd - 1 else yd) -
          daysBefore.getD ((if b && decide (yd > 31 + 29 - 1) then yd - 1 else yd) / 31 + 1).toNat 0 + 1)
      else ((if b && decide (yd > 31 + 29 - 1) then yd - 1 else yd) / 31 + 1,
        (if b && decide (yd > 31 + 29 - 1) then yd - 1 else yd) -
          daysBefore.getD ((if b && decide (yd > 31 + 29 - 1) then yd - 1 else yd) / 31).toNat 0 + 1))
      = ((m : Int), (d : Int)) := by
  subst hyd
  have hd31 : d ≤ 31 := by
    split_ifs at hd2 <;> omega
  interval_cases m <;> cases b <;> interval_cases d <;> revert hd2 <;> decide

theorem daysIn_eq (y m : Nat) (hm1 : 1 ≤ m) (hm2 : m ≤ 12) :
    daysIn (m : Int) (y : Int) = monthLength y m := by
  unfold daysIn
  rw [isLeap_eq]
  interval_cases m <;> cases h : isLeapYear y <;> simp [monthLength, daysBefore, h]

theorem absClock_civil (D H M S : Nat) (hH : H ≤ 23) (hM : M ≤ 59) (hS : S ≤ 59) :
    absClock (D * 86400 + (H * 3600 + M * 60 + S)) = ((H : Int), (M : Int), (S : Int)) := by
  have h1 : (D * 86400 + (H * 3600 + M * 60 + S)) % 86400 = H * 3600 + M * 60 + S := by omega
  have h2 : (H * 3600 + M * 60 + S) / 3600 = H := by omega
  have h3 : (H * 3600 + M * 60 + S - H * 3600) / 60 = M := by omega
  have h4 : H * 3600 + M * 60 + S - H * 3600 - M * 60 = S := by omega
  simp only [absClock, h1, h2, h3, h4]

theorem absWeekday_days (D s : Nat) (hs : s < 86400) :
    absWeekday (D * 86400 + s) = (((D + 1) % 7 : Nat) : Int) := by
  have h : (D * 86400 + s + 1 * 86400) % 604800 / 86400 = (D + 1) % 7 := by omega
  simp only [absWeekday, h]

/-! ## Lemmas: the fast path on well-formed timestamps -/

theorem byteAt_zero (a : Nat) (l : Bytes) : byteAt (a :: l) 0 = a := rfl
theorem byteAt_succ (a : Nat) (l : Bytes) (n : Nat) : byteAt (a :: l) (n + 1) = byteAt l n := rfl
theorem byteAt_nil (n : Nat) : byteAt [] n = 0 := by simp [byteAt]

theorem atoi_digits (d : Nat) (ds : List Nat) (hd : ∀ x ∈ d :: ds, x ≤ 9)
    (hlen : (d :: ds).length ≤ 9) :
    atoi ((d :: ds).map (48 + ·)) = ((((d :: ds).foldl (fun acc x => acc * 10 + x) 0 : Nat) : Int), false) := by
  have hd0 : d ≤ 9 := hd d (List.mem_cons_self _ _)
  have hl := leadingInt_digits (d :: ds) hd 0 0 (by simpa using hlen) (by norm_num)
  have e1 : (byteAt (List.map (fun x => 48 + x) (d :: ds)) 0 == 45) = false := by
    simp only [List.map_cons, byteAt_zero, beq_eq_false_iff_ne]; omega
  have e2 : (byteAt (List.map (fun x => 48 + x) (d :: ds)) 0 == 43) = false := by
    simp only [List.map_cons, byteAt_zero, beq_eq_false_iff_ne]; omega
  unfold atoi
  simp only [e1, e2, Bool.and_false, Bool.or_false]
  simp only [List.map_cons] at hl ⊢
  simp [hl]

theorem take_digits (ds : List Nat) (z : Bytes) (n : Nat) (h : n ≤ ds.length) :
    List.take n (ds.map (48 + ·) ++ z) = (ds.take n).map (48 + ·) := by
  rw [List.take_append_of_le_length (by simpa using h), List.map_take]

theorem parseNanoseconds_digits (d : Nat) (ds : List Nat) (hd : ∀ x ∈ d :: ds, x ≤ 9) (z : Bytes) :
    parseNanoseconds (46 :: ((d :: ds).map (48 + ·) ++ z)) (2 + ds.length) =
      ((fracNanos (d :: ds) : Int), [], false) := by
  unfold parseNanoseconds
  simp only [byteAt_zero, commaOrPeriod]
  by_cases hlen : 2 + ds.length > 10
  · have ht : List.take 9 (d :: ds) = d :: List.take 8 ds := rfl
    have hlen8 : 8 ≤ ds.length := by omega
    have hs : slice (List.take 10 (46 :: ((d :: ds).map (48 + ·) ++ z))) 1 10 =
        (d :: List.take 8 ds).map (48 + ·) := by
      have h9 := take_digits (d :: ds) z 9 (by simp; omega)
      simp only [slice, List.take_succ_cons, List.drop_succ_cons, List.drop_zero, List.take_take]
      rw [← ht, ← h9]
      simp
    have ha := atoi_digits d (List.take 8 ds)
      (by rw [← ht]; intro x hx; exact hd x (List.mem_of_mem_take hx))
      (by simp)
    simp only [hlen, if_true, hs, ha, fracNanos, ht]
    have e : 8 - ds.length = 0 := by omega
    simp [e]
  · have hs : slice (46 :: ((d :: ds).map (48 + ·) ++ z)) 1 (2 + ds.length) =
        (d :: ds).map (48 + ·) := by
      simp only [slice, List.drop_succ_cons, List.drop_zero]
      have e : 2 + ds.length - 1 = (d :: ds).length := by simp; omega
      rw [e, take_digits _ _ _ (le_refl _), List.take_length]
    have ha := atoi_digits d ds hd (by simp; omega)
    have ht : List.take 9 (d :: ds) = d :: ds := List.take_of_length_le (by simp; omega)
    simp only [hlen, if_false, hs, ha, fracNanos, ht]
    have e : 10 - (2 + ds.length) = 8 - ds.length := by omega
    simp [e]

theorem zone_text_head (z : Zone) : ∃ c rest, z.text = c :: rest ∧ (c = 90 ∨ c = 45 ∨ c = 43) := by
  cases z with
  | utc => exact ⟨90, [], rfl, Or.inl rfl⟩
  | offset neg hh mm =>
    cases neg
    · exact ⟨43, _, rfl, Or.inr (Or.inr rfl)⟩
    · exact ⟨45, _, rfl, Or.inr (Or.inl rfl)⟩

theorem frac_step (frac : List Nat) (hf : ∀ d ∈ frac, d ≤ 9) (z : Zone) :
    (if (decide ((fracText frac ++ z.text).length ≥ 2) && byteAt (fracText frac ++ z.text) 0 == 46 &&
          isDigit (fracText frac ++ z.text) 1) = true then
        ((parseNanoseconds (fracText frac ++ z.text) (fracEnd (fracText frac ++ z.text))).1,
          (fracText frac ++ z.text).drop (fracEnd (fracText frac ++ z.text)))
      else (0, fracText frac ++ z.text)) = ((fracNanos frac : Int), z.text) := by
  obtain ⟨c, rest, hz, hc⟩ := zone_text_head z
  cases frac with
  | nil =>
    have e : (byteAt (c :: rest) 0 == 46) = false := by
      simp only [byteAt_zero, beq_eq_false_iff_ne]; omega
    simp [fracText, hz, e, fracNanos]
  | cons d ds =>
    have hd0 : d ≤ 9 := hf d (List.mem_cons_self _ _)
    have hrun : digitRun (ds.map (48 + ·) ++ z.text) = ds.length :=
      digitRun_digits ds (fun x hx => hf x (List.mem_cons_of_mem _ hx)) _ (by
        rw [hz]; simp only [digitRun]; rw [if_neg (by omega)])
    have hdig : isDigit (46 :: (48 + d) :: (ds.map (48 + ·) ++ z.text)) 1 = true := by
      simp [isDigit, byteAt]; omega
    have hfe : fracEnd (46 :: (48 + d) :: (ds.map (48 + ·) ++ z.text)) = 2 + ds.length := by
      simp only [fracEnd, List.drop_succ_cons, List.drop_zero, hrun]
    have hpn := parseNanoseconds_digits d ds hf z.text
    simp only [List.map_cons, List.cons_append] at hpn
    have hdrop : List.drop (2 + ds.length) (46 :: (48 + d) :: (ds.map (48 + ·) ++ z.text)) = z.text := by
      rw [Nat.add_comm]
      simp only [List.drop_succ_cons]
      rw [List.drop_append_of_le_length (by simp), List.drop_of_length_le (by simp)]
      rfl
    have htext : fracText (d :: ds) ++ z.text = 46 :: (48 + d) :: (ds.map (48 + ·) ++ z.text) := by
      simp [fracText]
    rw [htext, hfe, hpn, hdrop, hdig]
    simp [byteAt]

theorem text_cons (st : Stamp) : st.text =
    (48 + st.year / 1000) :: (48 + st.year / 100 % 10) :: (48 + st.year / 10 % 10) ::
    (48 + st.year % 10) :: 45 :: (48 + st.month / 10) :: (48 + st.month % 10) :: 45 ::
    (48 + st.day / 10) :: (48 + st.day % 10) :: 84 :: (48 + st.hour / 10) ::
    (48 + st.hour % 10) :: 58 :: (48 + st.minute / 10) :: (48 + st.minute % 10) :: 58 ::
    (48 + st.second / 10) :: (48 + st.second % 10) :: (fracText st.frac ++ st.zone.text) := by
  simp only [Stamp.text, pad4, pad2, List.cons_append, List.nil_append]

theorem foldl_digits_lt (ds : List Nat) (hd : ∀ d ∈ ds, d ≤ 9) :
    ∀ x : Nat, ds.foldl (fun acc d => acc * 10 + d) x + 1 ≤ (x + 1) * 10 ^ ds.length := by
  induction ds with
  | nil => intro x; simp
  | cons d ds ih =>
    intro x
    have hd0 : d ≤ 9 := hd d (List.mem_cons_self _ _)
    have h := ih (fun y hy => hd y (List.mem_cons_of_mem _ hy)) (x * 10 + d)
    simp only [List.foldl_cons, List.length_cons, pow_succ]
    calc List.foldl (fun acc d => acc * 10 + d) (x * 10 + d) ds + 1
        ≤ (x * 10 + d + 1) * 10 ^ ds.length := h
      _ ≤ ((x + 1) * 10) * 10 ^ ds.length := Nat.mul_le_mul_right _ (by omega)
      _ = (x + 1) * (10 ^ ds.length * 10) := by ring

theorem fracNanos_lt (ds : List Nat) (hd : ∀ d ∈ ds, d ≤ 9) : fracNanos ds < 1000000000 := by
  have h := foldl_digits_lt (ds.take 9) (fun x hx => hd x (List.mem_of_mem_take hx)) 0
  have hp : 0 < 10 ^ (9 - ds.length) := Nat.pos_pow_of_pos _ (by norm_num)
  have h2 : (ds.take 9).length + (9 - ds.length) = 9 := by
    simp only [List.length_take]; omega
  have h3 : 10 ^ (ds.take 9).length * 10 ^ (9 - ds.length) = 1000000000 := by
    rw [← pow_add, h2]; norm_num
  unfold fracNanos
  have h4 : (List.foldl (fun acc d => acc * 10 + d) 0 (List.take 9 ds) + 1) * 10 ^ (9 - ds.length)
      ≤ 1000000000 := by
    rw [← h3]
    exact Nat.mul_le_mul_right _ (by simpa using h)
  nlinarith

theorem parseRFC3339_text (env : Env) (st : Stamp) (hv : st.Valid) :
    parseRFC3339 env st.text = some (st.time env) := by
  obtain ⟨hy, hm1, hm2, hd1, hd2, hH, hM, hS, hf, hz⟩ := hv
  have p1 := parseUint_pad4 st.year hy
  have p2 := parseUint_pad2 st.month 1 12 (by omega) (by omega) (by omega)
  have p3 := parseUint_pad2 st.day 1 (daysIn st.month st.year) (by omega)
    (by rw [daysIn_eq _ _ hm1 hm2]; exact_mod_cast hd2)
    (by have : monthLength st.year st.month ≤ 31 := by
          unfold monthLength; split_ifs <;> omega
        omega)
  have p4 := parseUint_pad2 st.hour 0 23 (by omega) (by omega) (by omega)
  have p5 := parseUint_pad2 st.minute 0 59 (by omega) (by omega) (by omega)
  have p6 := parseUint_pad2 st.second 0 59 (by omega) (by omega) (by omega)
  simp only [pad2, pad4] at p1 p2 p3 p4 p5 p6
  have hfs := frac_step st.frac hf st.zone
  have hdate := Date_eq_civil st.year st.month st.day st.hour st.minute st.second
    (fracNanos st.frac) hm1 hm2 hH hM hS (fracNanos_lt _ hf)
  rw [text_cons]
  unfold parseRFC3339
  simp only [slice, byteAt_succ, byteAt_zero, List.drop_succ_cons, List.drop_zero,
    List.take_succ_cons, List.take_zero, List.length_cons, p1, p2, p3, p4, p5, p6, hfs, hdate]
  cases hzone : st.zone with
  | utc =>
    simp [Zone.text, byteAt, Stamp.time, hzone, Stamp.epochSeconds, Zone.seconds]
  | offset neg hh mm =>
    rw [hzone] at hz
    obtain ⟨hh23, mm59⟩ := hz
    have q1 := parseUint_pad2 hh 0 23 (by omega) (by omega) (by omega)
    have q2 := parseUint_pad2 mm 0 59 (by omega) (by omega) (by omega)
    simp only [pad2] at q1 q2
    cases neg <;>
      simp [Zone.text, pad2, byteAt, Stamp.time, hzone, Stamp.epochSeconds, Zone.seconds, q1, q2] <;>
      ring_nf <;> simp

theorem Parse_text (env : Env) (st : Stamp) (hv : st.Valid) :
    Parse env st.text = .ok (st.time env) := by
  simp only [Parse, parseRFC3339_text env st hv]

theorem time_offset (env : Env) (st : Stamp) : (st.time env).loc.offset = st.zone.seconds := by
  unfold Stamp.time
  cases st.zone with
  | utc => rfl
  | offset neg hh mm =>
    simp only [locate]
    split_ifs <;> simp [FixedZone]

theorem time_abs (env : Env) (st : Stamp) (hv : st.Valid) :
    (st.time env).abs =
      (daysSinceEpoch (st.year : Int) + (daysBeforeMonth st.year (st.month - 1) + (st.day - 1))) *
        86400 + (st.hour * 3600 + st.minute * 60 + st.second) := by
  obtain ⟨hy, hm1, hm2, hd1, hd2, hH, hM, hS, hf, hz⟩ := hv
  have ho := time_offset env st
  have hs : (st.time env).sec = st.epochSeconds := rfl
  have hy := daysSinceEpoch_eq st.year
  unfold Time.abs
  rw [ho, hs, unixToAbsolute_eq, hy]
  simp only [Stamp.epochSeconds, civilDays]
  omega

theorem time_fields (env : Env) (st : Stamp) (hv : st.Valid) :
    (st.time env).Year = st.year ∧ (st.time env).Month = st.month ∧
    (st.time env).Day = st.day ∧ (st.time env).Hour = st.hour ∧
    (st.time env).Minute = st.minute ∧ (st.time env).Second = st.second ∧
    (st.time env).Weekday = st.weekday ∧ (st.time env).Unix = st.epochSeconds ∧
    (st.time env).YearDay = daysBeforeMonth st.year (st.month - 1) + st.day := by
  have habs := time_abs env st hv
  obtain ⟨hy, hm1, hm2, hd1, hd2, hH, hM, hS, hf, hz⟩ := hv
  have hyd := yday_lt st.year st.month st.day hm1 hm2 hd1 hd2
  have hs : st.hour * 3600 + st.minute * 60 + st.second < 86400 := by omega
  have h1 := absYday_civil st.year _ _ hyd hs
  have h2 := absClock_civil (daysSinceEpoch (st.year : Int) +
    (daysBeforeMonth st.year (st.month - 1) + (st.day - 1))) st.hour st.minute st.second hH hM hS
  have h3 := absWeekday_days (daysSinceEpoch (st.year : Int) +
    (daysBeforeMonth st.year (st.month - 1) + (st.day - 1))) _ hs
  have hbm := daysBeforeMonth_eq st.year st.month hm1 hm2
  have hmd := monthDay_civil (isLeap st.year) st.month st.day hm1 hm2 hd1
    (by rw [isLeap_eq]; simpa [monthLength] using hd2)
    ((daysBeforeMonth st.year (st.month - 1) + (st.day - 1) : Nat) : Int)
    (by
      have e : (((st.month : Int) - 1).toNat) = st.month - 1 := by omega
      rw [e] at hbm
      have e2 : (decide ((st.month : Int) ≥ 3)) = decide (st.month ≥ 3) := by
        simp
      rw [e2] at hbm
      push_cast
      rw [hbm]
      omega)
  have hdate : absDate (st.time env).abs = ((st.year : Int), (st.month : Int), (st.day : Int),
      ((daysBeforeMonth st.year (st.month - 1) + (st.day - 1) : Nat) : Int)) := by
    rw [habs]
    unfold absDate
    rw [h1]
    simp only []
    split_ifs at hmd ⊢ <;> simp only [Prod.mk.injEq] at hmd ⊢ <;>
      simp only [hmd.1, hmd.2, and_self]
  refine ⟨?_, ?_, ?_, ?_, ?_, ?_, ?_, rfl, ?_⟩
  · simp only [Time.Year, hdate]
  · simp only [Time.Month, hdate]
  · simp only [Time.Day, hdate]
  · simp only [Time.Hour, habs, h2]
  · simp only [Time.Minute, habs, h2]
  · simp only [Time.Second, habs, h2]
  · rw [Time.Weekday, habs, h3, daysSinceEpoch_eq]
    simp only [Stamp.weekday, civilDays]
    omega
  · simp only [Time.YearDay, hdate]
    push_cast
    omega

/-! ## Lemmas: binary64 rounding -/

theorem bitLenAux_spec : ∀ (fuel n : Nat), n ≤ fuel →
    n < 2 ^ bitLenAux fuel n ∧ (0 < n → 2 ^ (bitLenAux fuel n - 1) ≤ n) := by
  intro fuel
  induction fuel with
  | zero => intro n h; have : n = 0 := by omega
            subst this; simp [bitLenAux]
  | succ fuel ih =>
    intro n h
    unfold bitLenAux
    by_cases hn : n = 0
    · subst hn; simp
    · rw [if_neg hn]
      obtain ⟨h1, h2⟩ := ih (n / 2) (by omega)
      constructor
      · rw [pow_succ]; omega
      · intro _
        simp only [Nat.add_sub_cancel]
        by_cases h0 : n / 2 = 0
        · rw [h0]; cases fuel <;> simp [bitLenAux] <;> omega
        · have h3 := h2 (by omega)
          have h4 : 0 < bitLenAux fuel (n / 2) := by
            by_contra hc
            have : bitLenAux fuel (n / 2) = 0 := by omega
            rw [this] at h1; simp at h1; omega
          have e : bitLenAux fuel (n / 2) = (bitLenAux fuel (n / 2) - 1) + 1 := by omega
          rw [e, pow_succ]; omega

theorem bitLen_spec (n : Nat) (hn : 0 < n) : 2 ^ (bitLen n - 1) ≤ n ∧ n < 2 ^ bitLen n ∧ 0 < bitLen n := by
  obtain ⟨h1, h2⟩ := bitLenAux_spec n n (le_refl _)
  refine ⟨h2 hn, h1, ?_⟩
  by_contra hc
  have : bitLenAux n n = 0 := by unfold bitLen at hc; omega
  rw [this] at h1; simp at h1; omega

theorem divRoundEven_spec (n d : Nat) (hd : 0 < d) :
    2 * (divRoundEven n d * d) ≤ 2 * n + d ∧ 2 * n ≤ 2 * (divRoundEven n d * d) + d := by
  have h1 := Nat.div_add_mod n d
  have h2 := Nat.mod_lt n hd
  have h3 : d * (n / d) = n / d * d := Nat.mul_comm _ _
  unfold divRoundEven
  simp only []
  split_ifs with h
  · constructor <;> [skip; skip] <;> rcases h with h | ⟨h, _⟩ <;> omega
  · have : ¬ 2 * (n % d) < d := fun hc => h (Or.inl hc)
    rw [Nat.add_mul]
    constructor <;> omega

theorem divRoundEven_exact (n d : Nat) (hd : 0 < d) (h : d ∣ n) : divRoundEven n d * d = n := by
  have hm : n % d = 0 := Nat.mod_eq_zero_of_dvd h
  unfold divRoundEven
  simp only [hm, Nat.mul_zero]
  rw [if_pos (Or.inl hd)]
  exact Nat.div_mul_cancel h

theorem two_zpow_split (s : Int) :
    (2 : ℚ) ^ s = ((2 ^ s.toNat : Nat) : ℚ) / ((2 ^ (-s).toNat : Nat) : ℚ) := by
  rcases le_total 0 s with h | h
  · have e1 : (-s).toNat = 0 := by omega
    have e2 : ((s.toNat : Nat) : Int) = s := Int.toNat_of_nonneg h
    rw [e1]
    push_cast
    rw [div_one, ← zpow_natCast, e2]
  · have e1 : s.toNat = 0 := by omega
    have e2 : (((-s).toNat : Nat) : Int) = -s := Int.toNat_of_nonneg (by omega)
    rw [e1]
    push_cast
    rw [one_div, ← zpow_natCast, e2, zpow_neg, inv_inv]

theorem scaled_eq (n d : Nat) (hd : 0 < d) (s : Int) :
    ((n * 2 ^ s.toNat : Nat) : ℚ) / ((d * 2 ^ (-s).toNat : Nat) : ℚ) = (n : ℚ) / d * (2 : ℚ) ^ s := by
  rw [two_zpow_split s]
  have h1 : ((2 ^ (-s).toNat : Nat) : ℚ) ≠ 0 := by positivity
  have h2 : (d : ℚ) ≠ 0 := by positivity
  push_cast
  field_simp

theorem bitLen_bounds (n : Nat) (hn : 0 < n) :
    (2 : ℚ) ^ ((bitLen n : Int) - 1) ≤ n ∧ (n : ℚ) < (2 : ℚ) ^ (bitLen n : Int) := by
  obtain ⟨h1, h2, h3⟩ := bitLen_spec n hn
  constructor
  · have e : ((bitLen n : Int) - 1) = ((bitLen n - 1 : Nat) : Int) := by omega
    rw [e, zpow_natCast]
    exact_mod_cast h1
  · rw [zpow_natCast]
    exact_mod_cast h2

theorem roundMag_test (n d : Nat) (hd : 0 < d) (s0 : Int) :
    (n * 2 ^ s0.toNat ≥ d * 2 ^ (53 + (-s0).toNat)) ↔ (2 : ℚ) ^ (53 : Int) ≤ (n : ℚ) / d * (2 : ℚ) ^ s0 := by
  rw [← scaled_eq n d hd s0]
  have hD : (0 : ℚ) < ((d * 2 ^ (-s0).toNat : Nat) : ℚ) := by positivity
  rw [le_div_iff₀ hD]
  have e : (2 : ℚ) ^ (53 : Int) * ((d * 2 ^ (-s0).toNat : Nat) : ℚ) =
      ((d * 2 ^ (53 + (-s0).toNat) : Nat) : ℚ) := by
    push_cast
    rw [pow_add]
    norm_num
    ring
  rw [e, ge_iff_le, Nat.cast_le]

theorem roundMag_bounds (n d : Nat) (hn : 0 < n) (hd : 0 < d) :
    ∃ s : Int, roundMag n d = (divRoundEven (n * 2 ^ s.toNat) (d * 2 ^ (-s).toNat), -s) ∧
      (2 : ℚ) ^ (52 : Int) ≤ (n : ℚ) / d * (2 : ℚ) ^ s ∧
      (n : ℚ) / d * (2 : ℚ) ^ s < (2 : ℚ) ^ (53 : Int) := by
  obtain ⟨hn1, hn2⟩ := bitLen_bounds n hn
  obtain ⟨hd1, hd2⟩ := bitLen_bounds d hd
  have hdq : (0 : ℚ) < d := by exact_mod_cast hd
  have hnq : (0 : ℚ) < n := by exact_mod_cast hn
  have h2 : (2 : ℚ) ≠ 0 := by norm_num
  -- bounds on the quotient
  have hq1 : (2 : ℚ) ^ ((bitLen n : Int) - 1 - bitLen d) < (n : ℚ) / d := by
    rw [zpow_sub₀ h2, div_lt_div_iff₀ (zpow_pos (by norm_num) _) hdq]
    calc (2 : ℚ) ^ ((bitLen n : Int) - 1) * d < (2 : ℚ) ^ ((bitLen n : Int) - 1) * (2 : ℚ) ^ (bitLen d : Int) :=
          mul_lt_mul_of_pos_left hd2 (zpow_pos (by norm_num) _)
      _ ≤ n * (2 : ℚ) ^ (bitLen d : Int) := mul_le_mul_of_nonneg_right hn1 (le_of_lt (zpow_pos (by norm_num) _))
  have hq2 : (n : ℚ) / d < (2 : ℚ) ^ ((bitLen n : Int) - ((bitLen d : Int) - 1)) := by
    rw [zpow_sub₀ h2, div_lt_div_iff₀ hdq (zpow_pos (by norm_num) _)]
    calc (n : ℚ) * (2 : ℚ) ^ ((bitLen d : Int) - 1) < (2 : ℚ) ^ (bitLen n : Int) * (2 : ℚ) ^ ((bitLen d : Int) - 1) :=
          mul_lt_mul_of_pos_right hn2 (zpow_pos (by norm_num) _)
      _ ≤ (2 : ℚ) ^ (bitLen n : Int) * d := mul_le_mul_of_nonneg_left hd1 (le_of_lt (zpow_pos (by norm_num) _))
  have hlo : ∀ s : Int, (2 : ℚ) ^ ((bitLen n : Int) - 1 - bitLen d + s) < (n : ℚ) / d * (2 : ℚ) ^ s := by
    intro s
    rw [zpow_add₀ h2]
    exact mul_lt_mul_of_pos_right hq1 (zpow_pos (by norm_num) _)
  have hhi : ∀ s : Int, (n : ℚ) / d * (2 : ℚ) ^ s < (2 : ℚ) ^ ((bitLen n : Int) - ((bitLen d : Int) - 1) + s) := by
    intro s
    rw [zpow_add₀ h2]
    exact mul_lt_mul_of_pos_right hq2 (zpow_pos (by norm_num) _)
  by_cases ht : n * 2 ^ (53 + (bitLen d : Int) - (bitLen n : Int)).toNat ≥
      d * 2 ^ (53 + (-(53 + (bitLen d : Int) - (bitLen n : Int))).toNat)
  · refine ⟨53 + (bitLen d : Int) - (bitLen n : Int) - 1, ?_, ?_, ?_⟩
    · unfold roundMag
      simp only [ht, if_true]
    · have h := (roundMag_test n d hd _).mp ht
      have e : (53 + (bitLen d : Int) - (bitLen n : Int) - 1) =
          (53 + (bitLen d : Int) - (bitLen n : Int)) + (-1) := by ring
      rw [e, zpow_add₀ h2, ← mul_assoc]
      have e2 : (2 : ℚ) ^ (52 : Int) = (2 : ℚ) ^ (53 : Int) * (2 : ℚ) ^ (-1 : Int) := by
        rw [← zpow_add₀ h2]; norm_num
      rw [e2]
      exact mul_le_mul_of_nonneg_right h (le_of_lt (zpow_pos (by norm_num) _))
    · have h := hhi (53 + (bitLen d : Int) - (bitLen n : Int) - 1)
      have e : (bitLen n : Int) - ((bitLen d : Int) - 1) + (53 + (bitLen d : Int) - (bitLen n : Int) - 1) = 53 := by
        ring
      rwa [e] at h
  · refine ⟨53 + (bitLen d : Int) - (bitLen n : Int), ?_, ?_, ?_⟩
    · unfold roundMag
      simp only [ht, if_false]
    · have h := hlo (53 + (bitLen d : Int) - (bitLen n : Int))
      have e : (bitLen n : Int) - 1 - (bitLen d : Int) + (53 + (bitLen d : Int) - (bitLen n : Int)) = 52 := by
        ring
      rw [e] at h
      exact le_of_lt h
    · have h := (roundMag_test n d hd _).not.mp ht
      exact lt_of_not_le h

theorem roundMag_err (n d : Nat) (hn : 0 < n) (hd : 0 < d) :
    |((roundMag n d).1 : ℚ) * (2 : ℚ) ^ (roundMag n d).2 - (n : ℚ) / d| ≤ (n : ℚ) / d / 2 ^ 53 := by
  obtain ⟨s, hr, hlo, hhi⟩ := roundMag_bounds n d hn hd
  have hD : 0 < d * 2 ^ (-s).toNat := by positivity
  obtain ⟨h1, h2⟩ := divRoundEven_spec (n * 2 ^ s.toNat) (d * 2 ^ (-s).toNat) hD
  have hsc := scaled_eq n d hd s
  rw [hr]
  simp only []
  set m := divRoundEven (n * 2 ^ s.toNat) (d * 2 ^ (-s).toNat) with hm
  set N := n * 2 ^ s.toNat with hN
  set D := d * 2 ^ (-s).toNat with hDdef
  have hDq : (0 : ℚ) < (D : ℚ) := by exact_mod_cast hD
  have h1q : 2 * ((m : ℚ) * D) ≤ 2 * N + D := by exact_mod_cast h1
  have h2q : 2 * (N : ℚ) ≤ 2 * ((m : ℚ) * D) + D := by exact_mod_cast h2
  have hp : (0 : ℚ) < (2 : ℚ) ^ (-s) := zpow_pos (by norm_num) _
  have hps : (2 : ℚ) ^ s * (2 : ℚ) ^ (-s) = 1 := by
    rw [← zpow_add₀ (by norm_num : (2 : ℚ) ≠ 0)]; simp
  -- the quotient in terms of the scaled value
  have hx : (n : ℚ) / d = (N : ℚ) / D * (2 : ℚ) ^ (-s) := by
    rw [hsc, mul_assoc, hps, mul_one]
  have hmid : |(m : ℚ) - (N : ℚ) / D| ≤ 1 / 2 := by
    have hq : (N : ℚ) / D * D = N := div_mul_cancel₀ _ (ne_of_gt hDq)
    rw [abs_le]
    constructor
    · by_contra hc
      push_neg at hc
      nlinarith
    · by_contra hc
      push_neg at hc
      nlinarith
  have hlo2 : (2 : ℚ) ^ (52 : Int) ≤ (N : ℚ) / D := by rw [hsc]; exact hlo
  have e : (m : ℚ) * (2 : ℚ) ^ (-s) - (n : ℚ) / d = ((m : ℚ) - (N : ℚ) / D) * (2 : ℚ) ^ (-s) := by
    rw [hx]; ring
  rw [e, abs_mul, abs_of_pos hp, hx]
  have h52 : (2 : ℚ) ^ (52 : Int) = 2 ^ 53 / 2 := by norm_num
  rw [h52] at hlo2
  have : |(m : ℚ) - (N : ℚ) / D| ≤ (N : ℚ) / D / 2 ^ 53 := by
    refine le_trans hmid ?_
    rw [le_div_iff₀ (by norm_num)]
    linarith
  calc |(m : ℚ) - (N : ℚ) / D| * (2 : ℚ) ^ (-s) ≤ (N : ℚ) / D / 2 ^ 53 * (2 : ℚ) ^ (-s) :=
        mul_le_mul_of_nonneg_right this (le_of_lt hp)
    _ = (N : ℚ) / D * (2 : ℚ) ^ (-s) / 2 ^ 53 := by ring

theorem roundMag_exact (n d : Nat) (hn : 0 < n) (hd : 0 < d) (M : Nat) (E : Int)
    (hx : (n : ℚ) / d = M * (2 : ℚ) ^ E) (hM : M < 2 ^ 53) :
    ((roundMag n d).1 : ℚ) * (2 : ℚ) ^ (roundMag n d).2 = (n : ℚ) / d := by
  obtain ⟨s, hr, hlo, hhi⟩ := roundMag_bounds n d hn hd
  have hD : 0 < d * 2 ^ (-s).toNat := by positivity
  have hsc := scaled_eq n d hd s
  have h2 : (2 : ℚ) ≠ 0 := by norm_num
  have hMq : (M : ℚ) < 2 ^ 53 := by exact_mod_cast hM
  have hM0 : (0 : ℚ) ≤ M := Nat.cast_nonneg _
  -- the scaled value is M * 2 ^ (E + s)
  have hsv : (n : ℚ) / d * (2 : ℚ) ^ s = M * (2 : ℚ) ^ (E + s) := by
    rw [hx, zpow_add₀ h2, mul_assoc]
  have ht : 0 ≤ E + s := by
    by_contra hc
    have hle : (2 : ℚ) ^ (E + s) ≤ (2 : ℚ) ^ (-1 : Int) :=
      zpow_le_zpow_right₀ (by norm_num) (by omega)
    have : (M : ℚ) * (2 : ℚ) ^ (E + s) ≤ M * (2 : ℚ) ^ (-1 : Int) :=
      mul_le_mul_of_nonneg_left hle hM0
    rw [hsv] at hlo
    norm_num at hlo this
    linarith
  have hnat : (n * 2 ^ s.toNat : Nat) = M * 2 ^ (E + s).toNat * (d * 2 ^ (-s).toNat) := by
    have e1 : ((n * 2 ^ s.toNat : Nat) : ℚ) / ((d * 2 ^ (-s).toNat : Nat) : ℚ) =
        ((M * 2 ^ (E + s).toNat : Nat) : ℚ) := by
      rw [hsc, hsv]
      push_cast
      rw [← zpow_natCast, Int.toNat_of_nonneg ht]
    have hDq : ((d * 2 ^ (-s).toNat : Nat) : ℚ) ≠ 0 := by
      have : (0 : ℚ) < ((d * 2 ^ (-s).toNat : Nat) : ℚ) := by exact_mod_cast hD
      exact ne_of_gt this
    rw [div_eq_iff hDq] at e1
    exact_mod_cast e1
  have hdvd : d * 2 ^ (-s).toNat ∣ n * 2 ^ s.toNat := ⟨M * 2 ^ (E + s).toNat, by rw [hnat]; ring⟩
  have hm := divRoundEven_exact _ _ hD hdvd
  rw [hr]
  simp only []
  have hmq : ((divRoundEven (n * 2 ^ s.toNat) (d * 2 ^ (-s).toNat) : Nat) : ℚ) =
      (n : ℚ) / d * (2 : ℚ) ^ s := by
    rw [← hsc, eq_div_iff (by exact_mod_cast (ne_of_gt hD))]
    exact_mod_cast hm
  rw [hmq, mul_assoc, ← zpow_add₀ h2]
  simp

theorem round_rounds (num : Int) (den : Nat) (e : Int) (hden : 0 < den) :
    Rounds ((num : ℚ) / den * (2 : ℚ) ^ e) (F64.round num den e).val := by
  have h2 : (2 : ℚ) ≠ 0 := by norm_num
  have hp : (0 : ℚ) < (2 : ℚ) ^ e := zpow_pos (by norm_num) _
  have hdq : (0 : ℚ) < den := by exact_mod_cast hden
  by_cases h0 : num = 0
  · subst h0
    simp [Rounds, F64.round, F64.val]
  · have hn : 0 < num.natAbs := Int.natAbs_pos.mpr h0
    have herr := roundMag_err num.natAbs den hn hden
    have hex := roundMag_exact num.natAbs den hn hden
    set y : ℚ := ((roundMag num.natAbs den).1 : ℚ) * (2 : ℚ) ^ (roundMag num.natAbs den).2 with hy
    have hq0 : (0 : ℚ) ≤ (num.natAbs : ℚ) / den := by positivity
    rcases lt_or_gt_of_ne h0 with hneg | hpos
    · -- negative numerator
      have hnum : (num : ℚ) = -((num.natAbs : Nat) : ℚ) := by
        have : (num : Int) = -((num.natAbs : Nat) : Int) := by omega
        exact_mod_cast this
      have hval : (F64.round num den e).val = -(y * (2 : ℚ) ^ e) := by
        simp only [F64.round, h0, if_false, hneg, if_true, F64.val]
        rw [zpow_add₀ h2, hy]
        push_cast
        ring
      have hx : (num : ℚ) / den * (2 : ℚ) ^ e = -((num.natAbs : ℚ) / den * (2 : ℚ) ^ e) := by
        rw [hnum]; ring
      rw [hval, hx]
      constructor
      · have e1 : -(y * (2 : ℚ) ^ e) - -((num.natAbs : ℚ) / den * (2 : ℚ) ^ e) =
            -((y - (num.natAbs : ℚ) / den) * (2 : ℚ) ^ e) := by ring
        rw [e1, abs_neg, abs_neg, abs_mul, abs_mul, abs_of_pos hp, abs_of_nonneg hq0]
        calc |y - (num.natAbs : ℚ) / den| * (2 : ℚ) ^ e
            ≤ (num.natAbs : ℚ) / den / 2 ^ 53 * (2 : ℚ) ^ e :=
              mul_le_mul_of_nonneg_right herr (le_of_lt hp)
          _ = (num.natAbs : ℚ) / den * (2 : ℚ) ^ e / 2 ^ 53 := by ring
      · intro M E hME hM
        have hq : (num.natAbs : ℚ) / den = ((-M).natAbs : Nat) * (2 : ℚ) ^ (E - e) := by
          have hMnonneg : 0 ≤ -M := by
            by_contra hc
            have hMpos : (0 : ℚ) < M := by
              have : 0 < M := by omega
              exact_mod_cast this
            have : (0 : ℚ) < M * (2 : ℚ) ^ E := mul_pos hMpos (zpow_pos (by norm_num) _)
            have hq1 : (0 : ℚ) ≤ (num.natAbs : ℚ) / den * (2 : ℚ) ^ e := by positivity
            linarith
          have hcast : (((-M).natAbs : Nat) : ℚ) = -(M : ℚ) := by
            rw [Nat.cast_natAbs, abs_of_nonneg hMnonneg]
            push_cast
            rfl
          rw [hcast, zpow_sub₀ h2, mul_div_assoc', eq_div_iff (ne_of_gt hp)]
          linarith
        have := hex _ _ hq (by
          have : (((-M).natAbs : Nat) : Int) < 2 ^ 53 := by
            rw [Int.natCast_natAbs, abs_neg]; exact hM
          exact_mod_cast this)
        rw [this]
    · have hnum : (num : ℚ) = ((num.natAbs : Nat) : ℚ) := by
        rw [Nat.cast_natAbs, abs_of_pos hpos]
      have hval : (F64.round num den e).val = y * (2 : ℚ) ^ e := by
        have hnl : ¬ num < 0 := by omega
        simp only [F64.round, h0, if_false, hnl, F64.val]
        rw [zpow_add₀ h2, hy]
        push_cast
        ring
      rw [hval, hnum]
      constructor
      · have e1 : y * (2 : ℚ) ^ e - (num.natAbs : ℚ) / den * (2 : ℚ) ^ e =
            (y - (num.natAbs : ℚ) / den) * (2 : ℚ) ^ e := by ring
        rw [e1, abs_mul, abs_mul, abs_of_pos hp, abs_of_nonneg hq0]
        calc |y - (num.natAbs : ℚ) / den| * (2 : ℚ) ^ e
            ≤ (num.natAbs : ℚ) / den / 2 ^ 53 * (2 : ℚ) ^ e :=
              mul_le_mul_of_nonneg_right herr (le_of_lt hp)
          _ = (num.natAbs : ℚ) / den * (2 : ℚ) ^ e / 2 ^ 53 := by ring
      · intro M E hME hM
        have hq : (num.natAbs : ℚ) / den = ((M).natAbs : Nat) * (2 : ℚ) ^ (E - e) := by
          have hMnonneg : 0 ≤ M := by
            by_contra hc
            have hMneg : (M : ℚ) < 0 := by
              have : M < 0 := by omega
              exact_mod_cast this
            have : M * (2 : ℚ) ^ E < 0 := mul_neg_of_neg_of_pos hMneg (zpow_pos (by norm_num) _)
            have hq1 : (0 : ℚ) ≤ (num.natAbs : ℚ) / den * (2 : ℚ) ^ e := by positivity
            linarith
          have hcast : (((M).natAbs : Nat) : ℚ) = (M : ℚ) := by
            rw [Nat.cast_natAbs, abs_of_nonneg hMnonneg]
          rw [hcast, zpow_sub₀ h2, mul_div_assoc', eq_div_iff (ne_of_gt hp)]
          linarith
        have := hex _ _ hq (by
          have : (((M).natAbs : Nat) : Int) < 2 ^ 53 := by
            rw [Int.natCast_natAbs]; exact hM
          exact_mod_cast this)
        rw [this]

theorem ofInt_rounds (i : Int) : Rounds (i : ℚ) (F64.ofInt i).val := by
  have h := round_rounds i 1 0 (by norm_num)
  simpa [F64.ofInt] using h

theorem ofInt_exact (i : Int) (h : |i| < 2 ^ 53) : (F64.ofInt i).val = i :=
  (ofInt_rounds i).2 i 0 (by simp) h

theorem add_rounds (a b : F64) : Rounds (a.val + b.val) (F64.add a b).val := by
  have h2 : (2 : ℚ) ≠ 0 := by norm_num
  have h := round_rounds (a.m * 2 ^ (a.e - min a.e b.e).toNat + b.m * 2 ^ (b.e - min a.e b.e).toNat)
    1 (min a.e b.e) (by norm_num)
  have ea : (((a.e - min a.e b.e).toNat : Nat) : Int) = a.e - min a.e b.e :=
    Int.toNat_of_nonneg (by have := min_le_left a.e b.e; omega)
  have eb : (((b.e - min a.e b.e).toNat : Nat) : Int) = b.e - min a.e b.e :=
    Int.toNat_of_nonneg (by have := min_le_right a.e b.e; omega)
  have e : ((a.m * 2 ^ (a.e - min a.e b.e).toNat + b.m * 2 ^ (b.e - min a.e b.e).toNat : Int) : ℚ) /
      ((1 : Nat) : ℚ) * (2 : ℚ) ^ (min a.e b.e) = a.val + b.val := by
    push_cast
    rw [← zpow_natCast, ← zpow_natCast, ea, eb, div_one, add_mul, mul_assoc, mul_assoc,
      ← zpow_add₀ h2, ← zpow_add₀ h2]
    simp [F64.val]
  rw [e] at h
  exact h

theorem div_rounds (a b : F64) (hb : b.m ≠ 0) : Rounds (a.val / b.val) (F64.div a b).val := by
  have h2 : (2 : ℚ) ≠ 0 := by norm_num
  have h := round_rounds (if b.m < 0 then -a.m else a.m) b.m.natAbs (a.e - b.e)
    (Int.natAbs_pos.mpr hb)
  have hbq : (b.m : ℚ) ≠ 0 := by exact_mod_cast hb
  have hpb : (2 : ℚ) ^ b.e ≠ 0 := ne_of_gt (zpow_pos (by norm_num) _)
  have e : (((if b.m < 0 then -a.m else a.m : Int)) : ℚ) / ((b.m.natAbs : Nat) : ℚ) *
      (2 : ℚ) ^ (a.e - b.e) = a.val / b.val := by
    rw [Nat.cast_natAbs, zpow_sub₀ h2]
    simp only [F64.val]
    split_ifs with hneg
    · rw [abs_of_neg hneg]
      push_cast
      field_simp
    · rw [abs_of_nonneg (by omega)]
      field_simp
  rw [e] at h
  exact h

theorem toInt_floor (a : F64) (h : 0 ≤ a.val) : F64.toInt a = ⌊a.val⌋ := by
  have hp : (0 : ℚ) < (2 : ℚ) ^ a.e := zpow_pos (by norm_num) _
  have hm : 0 ≤ a.m := by
    by_contra hc
    have : (a.m : ℚ) < 0 := by
      have : a.m < 0 := by omega
      exact_mod_cast this
    have : a.val < 0 := mul_neg_of_neg_of_pos this hp
    linarith
  unfold F64.toInt
  split_ifs with he
  · have e : a.val = ((a.m * 2 ^ a.e.toNat : Int) : ℚ) := by
      simp only [F64.val]
      push_cast
      rw [← zpow_natCast, Int.toNat_of_nonneg he]
    rw [e, Int.floor_intCast]
  · have hk : (((-a.e).toNat : Nat) : Int) = -a.e := Int.toNat_of_nonneg (by omega)
    have e : a.val = (a.m : ℚ) / ((2 ^ (-a.e).toNat : Int) : ℚ) := by
      simp only [F64.val]
      push_cast
      rw [← zpow_natCast, hk, zpow_neg, div_eq_mul_inv, inv_inv]
    have hpos : (0 : Int) < 2 ^ (-a.e).toNat := by positivity
    rw [e, Int.tdiv_eq_ediv hm (le_of_lt hpos)]
    symm
    rw [Int.floor_eq_iff]
    have hq : (0 : ℚ) < ((2 ^ (-a.e).toNat : Int) : ℚ) := by exact_mod_cast hpos
    constructor
    · rw [le_div_iff₀ hq]
      have := Int.ediv_mul_le a.m (ne_of_gt hpos)
      exact_mod_cast this
    · rw [div_lt_iff₀ hq]
      have := Int.lt_ediv_add_one_mul_self a.m hpos
      exact_mod_cast this

/-! ## Lemmas: whole days of a duration -/

theorem rounds_zero (y : ℚ) (h : Rounds 0 y) : y = 0 := by
  have := h.1
  simp at this
  exact this

theorem rounds_bounds (x y : ℚ) (h : Rounds x y) (hx : 0 ≤ x) :
    x - x / 2 ^ 53 ≤ y ∧ y ≤ x + x / 2 ^ 53 := by
  have h1 := h.1
  rw [abs_of_nonneg hx, abs_le] at h1
  constructor <;> linarith [h1.1, h1.2]

theorem val_ne_zero (a : F64) (h : a.val ≠ 0) : a.m ≠ 0 := by
  intro hc
  apply h
  simp [F64.val, hc]

theorem days_nonneg (D : Int) (h0 : 0 ≤ D) (hD : D < 2 ^ 63) (hs : D % 1000000000 = 0) :
    F64.toInt (F64.div (Hours D) (F64.ofInt 24)) = D / 86400000000000 := by
  have hH : Int.tdiv D Hour = D / 3600000000000 := by
    rw [Int.tdiv_eq_ediv h0 (by decide)]; rfl
  have hK : Int.tmod D Hour = D % 3600000000000 := by
    rw [Int.tmod_eq_emod h0 (by decide)]; rfl
  have hc : (60 * 60 * 1000000000 : Int) = 3600000000000 := by norm_num
  unfold Hours
  simp only [hH, hK, hc]
  set H : Int := D / 3600000000000 with hHdef
  set K : Int := D % 3600000000000 with hKdef
  set n : Int := D / 86400000000000 with hn
  have hH0 : 0 ≤ H := by omega
  have hH1 : H < 2562048 := by norm_num at hD; omega
  have hK0 : 0 ≤ K := by omega
  have hK1 : K < 3600000000000 := by omega
  have hDHK : D = 3600000000000 * H + K := by omega
  have hn0 : 0 ≤ n := by omega
  -- exact conversions
  have vH : (F64.ofInt H).val = H := ofInt_exact H (by rw [abs_of_nonneg hH0]; norm_num; omega)
  have vK : (F64.ofInt K).val = K := ofInt_exact K (by rw [abs_of_nonneg hK0]; norm_num; omega)
  have vc : (F64.ofInt 3600000000000).val = 3600000000000 := by
    have := ofInt_exact 3600000000000 (by norm_num)
    exact_mod_cast this
  have v24 : (F64.ofInt 24).val = 24 := by
    have := ofInt_exact 24 (by norm_num)
    exact_mod_cast this
  have mc : (F64.ofInt 3600000000000).m ≠ 0 := val_ne_zero _ (by rw [vc]; norm_num)
  have m24 : (F64.ofInt 24).m ≠ 0 := val_ne_zero _ (by rw [v24]; norm_num)
  have rq := div_rounds (F64.ofInt K) (F64.ofInt 3600000000000) mc
  rw [vK, vc] at rq
  set q := F64.div (F64.ofInt K) (F64.ofInt 3600000000000) with hq
  have rs := add_rounds (F64.ofInt H) q
  rw [vH] at rs
  set sm := F64.add (F64.ofInt H) q with hsm
  have rr := div_rounds sm (F64.ofInt 24) m24
  rw [v24] at rr
  set r := F64.div sm (F64.ofInt 24) with hr
  have hHq0 : (0 : ℚ) ≤ (H : ℚ) := by exact_mod_cast hH0
  have hHq1 : (H : ℚ) < 2562048 := by exact_mod_cast hH1
  have hKq0 : (0 : ℚ) ≤ (K : ℚ) := by exact_mod_cast hK0
  have hKq1 : (K : ℚ) < 3600000000000 := by exact_mod_cast hK1
  by_cases hex : D % 86400000000000 = 0
  · -- a whole number of days: every step is exact
    have hK00 : K = 0 := by omega
    have hH24 : H = 24 * n := by omega
    have q0 : q.val = 0 := by
      apply rounds_zero
      rw [hK00] at rq
      simpa using rq
    have s0 : sm.val = H := by
      rw [q0, add_zero] at rs
      exact rs.2 H 0 (by simp) (by rw [abs_of_nonneg hH0]; norm_num; omega)
    have r0 : r.val = n := by
      rw [s0] at rr
      have e : (H : ℚ) / 24 = (n : ℚ) := by
        rw [hH24]; push_cast; ring
      rw [e] at rr
      exact rr.2 n 0 (by simp) (by rw [abs_of_nonneg hn0]; norm_num; omega)
    rw [toInt_floor r (by rw [r0]; exact_mod_cast hn0), r0, Int.floor_intCast]
  · -- otherwise the quotient is at least one second away from a whole number
    have hrem1 : 1000000000 ≤ D % 86400000000000 := by omega
    have hrem2 : D % 86400000000000 ≤ 86399000000000 := by omega
    have hDn : D = 86400000000000 * n + D % 86400000000000 := by omega
    set ρ : Int := D % 86400000000000 with hρ
    have hρ1 : (1000000000 : ℚ) ≤ (ρ : ℚ) := by exact_mod_cast hrem1
    have hρ2 : (ρ : ℚ) ≤ 86399000000000 := by exact_mod_cast hrem2
    have hDq : (3600000000000 : ℚ) * H + K = 86400000000000 * n + ρ := by
      have : 3600000000000 * H + K = 86400000000000 * n + ρ := by omega
      exact_mod_cast this
    have hnq0 : (0 : ℚ) ≤ (n : ℚ) := by exact_mod_cast hn0
    have hxq0 : (0 : ℚ) ≤ (K : ℚ) / 3600000000000 := by positivity
    have hxq1 : (K : ℚ) / 3600000000000 < 1 := by
      rw [div_lt_iff₀ (by norm_num)]; linarith
    obtain ⟨q1, q2⟩ := rounds_bounds _ _ rq hxq0
    have hq0 : 0 ≤ q.val := by
      have : (K : ℚ) / 3600000000000 / 2 ^ 53 ≤ (K : ℚ) / 3600000000000 := by
        apply div_le_self hxq0; norm_num
      linarith
    have hs0 : (0 : ℚ) ≤ (H : ℚ) + q.val := by linarith
    obtain ⟨s1, s2⟩ := rounds_bounds _ _ rs hs0
    have hsm0 : 0 ≤ sm.val := by
      have : ((H : ℚ) + q.val) / 2 ^ 53 ≤ (H : ℚ) + q.val := by
        apply div_le_self hs0; norm_num
      linarith
    have hr0 : (0 : ℚ) ≤ sm.val / 24 := by positivity
    obtain ⟨r1, r2⟩ := rounds_bounds _ _ rr hr0
    have hrv0 : 0 ≤ r.val := by
      have : sm.val / 24 / 2 ^ 53 ≤ sm.val / 24 := by
        apply div_le_self hr0; norm_num
      linarith
    -- absolute error bounds
    have eq1 : (K : ℚ) / 3600000000000 / 2 ^ 53 ≤ 1 / 2 ^ 53 := by
      apply div_le_div_of_nonneg_right (le_of_lt hxq1); norm_num
    have hqv1 : q.val ≤ 2 := by
      have : (1 : ℚ) / 2 ^ 53 ≤ 1 := by norm_num
      linarith
    have es1 : ((H : ℚ) + q.val) / 2 ^ 53 ≤ 2562050 / 2 ^ 53 := by
      apply div_le_div_of_nonneg_right _ (by norm_num)
      linarith
    have hsv1 : sm.val ≤ 2562052 := by
      have : (2562050 : ℚ) / 2 ^ 53 ≤ 1 := by norm_num
      linarith
    have er1 : sm.val / 24 / 2 ^ 53 ≤ 2562052 / 24 / 2 ^ 53 := by
      apply div_le_div_of_nonneg_right _ (by norm_num)
      apply div_le_div_of_nonneg_right hsv1 (by norm_num)
    have hKdiv : (K : ℚ) / 3600000000000 = (86400000000000 * n + ρ - 3600000000000 * H) / 3600000000000 := by
      rw [← hDq]; ring
    rw [toInt_floor r hrv0, Int.floor_eq_iff]
    constructor
    · have : (n : ℚ) + 1000000000 / 86400000000000 - 1 / 2 ^ 30 ≤ r.val := by
        have e1 : sm.val / 24 ≥ ((H : ℚ) + (K : ℚ) / 3600000000000) / 24 - (1 / 2 ^ 53 + 2562050 / 2 ^ 53) / 24 := by
          linarith
        have e2 : ((H : ℚ) + (K : ℚ) / 3600000000000) / 24 = n + ρ / 86400000000000 := by
          rw [hKdiv]; ring
        have e3 : (ρ : ℚ) / 86400000000000 ≥ 1000000000 / 86400000000000 := by
          apply div_le_div_of_nonneg_right hρ1; norm_num
        have e4 : (1 / 2 ^ 53 + 2562050 / 2 ^ 53) / 24 + 2562052 / 24 / 2 ^ 53 ≤ (1 : ℚ) / 2 ^ 30 := by
          norm_num
        linarith
      have : (0 : ℚ) < 1000000000 / 86400000000000 - 1 / 2 ^ 30 := by norm_num
      linarith
    · have : r.val ≤ (n : ℚ) + 86399000000000 / 86400000000000 + 1 / 2 ^ 30 := by
        have e1 : sm.val / 24 ≤ ((H : ℚ) + (K : ℚ) / 3600000000000) / 24 + (1 / 2 ^ 53 + 2562050 / 2 ^ 53) / 24 := by
          linarith
        have e2 : ((H : ℚ) + (K : ℚ) / 3600000000000) / 24 = n + ρ / 86400000000000 := by
          rw [hKdiv]; ring
        have e3 : (ρ : ℚ) / 86400000000000 ≤ 86399000000000 / 86400000000000 := by
          apply div_le_div_of_nonneg_right hρ2; norm_num
        have e4 : (1 / 2 ^ 53 + 2562050 / 2 ^ 53) / 24 + 2562052 / 24 / 2 ^ 53 ≤ (1 : ℚ) / 2 ^ 30 := by
          norm_num
        linarith
      have : (86399000000000 : ℚ) / 86400000000000 + 1 / 2 ^ 30 < 1 := by norm_num
      linarith

theorem round_neg (num : Int) (den : Nat) (e : Int) :
    F64.round (-num) den e = (F64.round num den e).neg := by
  unfold F64.round F64.neg
  by_cases h0 : num = 0
  · subst h0; simp
  · have h1 : -num ≠ 0 := by omega
    simp only [h0, h1, if_false, Int.natAbs_neg]
    rcases lt_or_gt_of_ne h0 with h | h
    · have h2 : ¬ -num < 0 := by omega
      simp [h, h2]
    · have h2 : -num < 0 := by omega
      have h3 : ¬ num < 0 := by omega
      simp [h2, h3]

theorem ofInt_neg (i : Int) : F64.ofInt (-i) = (F64.ofInt i).neg := round_neg i 1 0

theorem add_neg (a b : F64) : F64.add a.neg b.neg = (F64.add a b).neg := by
  unfold F64.add
  rw [← round_neg]
  simp only [F64.neg]
  congr 1
  ring

theorem div_neg (a b : F64) : F64.div a.neg b = (F64.div a b).neg := by
  unfold F64.div
  rw [← round_neg]
  simp only [F64.neg]
  congr 1
  split_ifs <;> ring

theorem toInt_neg (a : F64) : F64.toInt a.neg = -F64.toInt a := by
  unfold F64.toInt F64.neg
  simp only []
  split_ifs
  · ring
  · exact Int.neg_tdiv _ _

theorem neg_tmod (a b : Int) : (-a).tmod b = -(a.tmod b) := by
  rw [Int.tmod_def, Int.tmod_def, Int.neg_tdiv]
  ring

theorem Hours_neg (d : Int) : Hours (-d) = (Hours d).neg := by
  unfold Hours
  simp only [Int.neg_tdiv, neg_tmod, ofInt_neg, div_neg, add_neg]

theorem daysOf_neg (d : Int) : daysOf (-d) = -daysOf d := by
  unfold daysOf
  rw [Hours_neg, div_neg, toInt_neg]

theorem daysOf_whole_seconds (D : Int) (hD : |D| < 2 ^ 63) (hs : D % 1000000000 = 0) :
    daysOf D = Int.tdiv D 86400000000000 := by
  rcases le_total 0 D with h | h
  · rw [Int.tdiv_eq_ediv h (by norm_num)]
    exact days_nonneg D h (by rw [abs_of_nonneg h] at hD; exact hD) hs
  · have h1 : 0 ≤ -D := by omega
    have h2 := days_nonneg (-D) h1 (by rw [abs_of_nonpos h] at hD; exact hD) (by omega)
    have e : D = -(-D) := by ring
    rw [e, daysOf_neg, Int.neg_tdiv, Int.tdiv_eq_ediv h1 (by norm_num)]
    unfold daysOf
    rw [h2]

theorem tmod_abs_lt (a : Int) : -1000000000 < a.tmod 1000000000 ∧ a.tmod 1000000000 < 1000000000 := by
  constructor
  · have h := Int.tmod_lt_of_pos (-a) (by norm_num : (0 : Int) < 1000000000)
    rw [neg_tmod] at h
    omega
  · exact Int.tmod_lt_of_pos a (by norm_num)

theorem Sub_spec (t u : Time) (ht0 : 0 ≤ t.nsec) (ht1 : t.nsec < 1000000000)
    (hu0 : 0 ≤ u.nsec) (hu1 : u.nsec < 1000000000) :
    t.Sub u =
      if (t.sec - u.sec) * 1000000000 + (t.nsec - u.nsec) < -2 ^ 63 then minDuration
      else if (t.sec - u.sec) * 1000000000 + (t.nsec - u.nsec) > 2 ^ 63 - 1 then maxDuration
      else (t.sec - u.sec) * 1000000000 + (t.nsec - u.nsec) := by
  unfold Time.Sub
  simp only [Second]
  set D := (t.sec - u.sec) * 1000000000 + (t.nsec - u.nsec) with hD
  set d := wrap64 (wrap64 ((t.sec - u.sec) * 1000000000) + (t.nsec - u.nsec)) with hd
  have hdr : -9223372036854775808 ≤ d ∧ d < 9223372036854775808 ∧ (d - D) % 18446744073709551616 = 0 := by
    rw [hd, hD]
    unfold wrap64
    norm_num
    omega
  obtain ⟨hd1, hd2, hd3⟩ := hdr
  have hq := Int.tdiv_add_tmod d 1000000000
  obtain ⟨hr1, hr2⟩ := tmod_abs_lt d
  have heq : (u.Add d).Equal t = decide (d = D) := by
    unfold Time.Add Time.Equal
    simp only []
    split_ifs with h1 h2 <;> rw [Bool.eq_iff_iff] <;>
      simp only [beq_iff_eq, Bool.and_eq_true, decide_eq_true_eq] <;> constructor <;>
      intro h <;> omega
  have hbef : t.Before u = decide (D < 0) := by
    unfold Time.Before
    rw [Bool.eq_iff_iff]
    simp only [Bool.or_eq_true, Bool.and_eq_true, decide_eq_true_eq, beq_iff_eq]
    constructor
    · intro h; rcases h with h | ⟨h, h'⟩ <;> omega
    · intro h
      by_cases hs : t.sec < u.sec
      · exact Or.inl hs
      · right; constructor <;> omega
  rw [heq, hbef]
  simp only [decide_eq_true_eq, minDuration, maxDuration]
  norm_num
  split_ifs <;> omega

/-! ## Day counts, epoch seconds and the record of well-formed timestamps -/

theorem time_nsec (env : Env) (st : Stamp) (hv : st.Valid) :
    0 ≤ (st.time env).nsec ∧ (st.time env).nsec < 1000000000 := by
  have := fracNanos_lt st.frac hv.2.2.2.2.2.2.2.2.1
  simp only [Stamp.time]
  omega

theorem days_difference_text (env : Env) (a b : Stamp) (ha : a.Valid) (hb : b.Valid) :
    days_difference env a.text b.text =
      { Result := some (Itoa (daysOf ((b.time env).Sub (a.time env)))) } := by
  unfold days_difference
  rw [Parse_text env a ha, Parse_text env b hb]
  rfl

theorem tdiv_scale (x : Int) :
    Int.tdiv (x * 1000000000) 86400000000000 = Int.tdiv x 86400 := by
  rcases le_total 0 x with h | h
  · rw [Int.tdiv_eq_ediv (by omega) (by norm_num), Int.tdiv_eq_ediv h (by norm_num)]
    omega
  · have e1 : x * 1000000000 = -(-x * 1000000000) := by ring
    have e2 : x = -(-x) := by ring
    rw [e1, Int.neg_tdiv, Int.tdiv_eq_ediv (by omega) (by norm_num)]
    conv_rhs => rw [e2, Int.neg_tdiv, Int.tdiv_eq_ediv (by omega) (by norm_num)]
    omega

/-- C1: for valid RFC 3339 timestamps without fractional seconds that lie less than 2^63
nanoseconds apart, days_difference returns the decimal text of the elapsed seconds divided
by 86400 and truncated toward zero. -/
theorem days_difference_truncates (env : Env) (a b : Stamp) (ha : a.Valid) (hb : b.Valid)
    (hfa : a.frac = []) (hfb : b.frac = [])
    (hr : |(b.epochSeconds - a.epochSeconds) * 1000000000| < 2 ^ 63) :
    days_difference env a.text b.text =
      { Result := some (Itoa (Int.tdiv (b.epochSeconds - a.epochSeconds) 86400)) } := by
  rw [days_difference_text env a b ha hb]
  obtain ⟨ha0, ha1⟩ := time_nsec env a ha
  obtain ⟨hb0, hb1⟩ := time_nsec env b hb
  have hna : (a.time env).nsec = 0 := by simp [Stamp.time, hfa, fracNanos]
  have hnb : (b.time env).nsec = 0 := by simp [Stamp.time, hfb, fracNanos]
  have hsa : (a.time env).sec = a.epochSeconds := rfl
  have hsb : (b.time env).sec = b.epochSeconds := rfl
  rw [Sub_spec _ _ hb0 hb1 ha0 ha1, hna, hnb, hsa, hsb]
  simp only [sub_zero, add_zero]
  have h1 := abs_lt.mp hr
  rw [if_neg (by omega), if_neg (by omega),
    daysOf_whole_seconds _ hr (by omega)]
  rw [tdiv_scale]

theorem epochSeconds_eq (s : Stamp) :
    s.epochSeconds = ((daysSinceEpoch (s.year : Int) : Int) + daysBeforeMonth s.year (s.month - 1) +
      ((s.day : Int) - 1) - 106751991073094) * 86400 + s.hour * 3600 + s.minute * 60 + s.second -
      s.zone.seconds := by
  rw [daysSinceEpoch_eq]
  simp only [Stamp.epochSeconds, civilDays]
  push_cast
  ring

set_option maxRecDepth 100000 in
/-- Witness for C1: 23h59m gives 0, -23h59m gives 0, -25h gives -1, five days give 5. -/
theorem days_difference_truncates_witness :
    (Stamp.text ⟨2024, 1, 15, 0, 0, 0, [], .utc⟩ = str "2024-01-15T00:00:00Z" ∧
     Stamp.text ⟨2024, 1, 15, 23, 59, 0, [], .utc⟩ = str "2024-01-15T23:59:00Z" ∧
     days_difference envUTC (Stamp.text ⟨2024, 1, 15, 0, 0, 0, [], .utc⟩)
       (Stamp.text ⟨2024, 1, 15, 23, 59, 0, [], .utc⟩) = { Result := some (str "0") }) ∧
    days_difference envUTC (Stamp.text ⟨2024, 1, 15, 23, 59, 0, [], .utc⟩)
      (Stamp.text ⟨2024, 1, 15, 0, 0, 0, [], .utc⟩) = { Result := some (str "0") } ∧
    days_difference envUTC (Stamp.text ⟨2024, 1, 16, 1, 0, 0, [], .utc⟩)
      (Stamp.text ⟨2024, 1, 15, 0, 0, 0, [], .utc⟩) = { Result := some (str "-1") } ∧
    days_difference envUTC (Stamp.text ⟨2024, 1, 15, 10, 30, 0, [], .utc⟩)
      (Stamp.text ⟨2024, 1, 20, 10, 30, 0, [], .utc⟩) = { Result := some (str "5") } :=
  ⟨⟨by decide, by decide,
    (days_difference_truncates envUTC _ _ (by decide) (by decide) rfl rfl
      (by rw [epochSeconds_eq, epochSeconds_eq]; decide)).trans
      (by rw [epochSeconds_eq, epochSeconds_eq]; decide)⟩,
   (days_difference_truncates envUTC _ _ (by decide) (by decide) rfl rfl
      (by rw [epochSeconds_eq, epochSeconds_eq]; decide)).trans
      (by rw [epochSeconds_eq, epochSeconds_eq]; decide),
   (days_difference_truncates envUTC _ _ (by decide) (by decide) rfl rfl
      (by rw [epochSeconds_eq, epochSeconds_eq]; decide)).trans
      (by rw [epochSeconds_eq, epochSeconds_eq]; decide),
   (days_difference_truncates envUTC _ _ (by decide) (by decide) rfl rfl
      (by rw [epochSeconds_eq, epochSeconds_eq]; decide)).trans
      (by rw [epochSeconds_eq, epochSeconds_eq]; decide)⟩

theorem unix_timestamp_text (env : Env) (st : Stamp) (hv : st.Valid) :
    unix_timestamp env st.text = { Result := some (Itoa st.epochSeconds) } := by
  unfold unix_timestamp
  rw [Parse_text env st hv]
  rfl

theorem valid_with_zone (st : Stamp) (hv : st.Valid) (z : Zone) (hz : z.Valid) :
    ({ st with zone := z } : Stamp).Valid := by
  obtain ⟨h1, h2, h3, h4, h5, h6, h7, h8, h9, _⟩ := hv
  exact ⟨h1, h2, h3, h4, h5, h6, h7, h8, h9, hz⟩

theorem weekday_eq (s : Stamp) :
    s.weekday = ((daysSinceEpoch (s.year : Int) : Int) + daysBeforeMonth s.year (s.month - 1) +
      ((s.day : Int) - 1) - 106751991073094 + 4) % 7 := by
  rw [daysSinceEpoch_eq]
  simp only [Stamp.weekday, civilDays]
  push_cast
  ring_nf

/-- C2: for a valid calendar date-time and a numeric offset of sign s, hours HH ≤ 23 and
minutes MM ≤ 59, unix_timestamp of the date-time written with the offset is unix_timestamp of
the same date-time written with Z, minus s * (HH * 3600 + MM * 60). -/
theorem unix_timestamp_offset (env : Env) (st : Stamp) (hv : st.Valid) (neg : Bool) (hh mm : Nat)
    (hh23 : hh ≤ 23) (mm59 : mm ≤ 59) :
    unix_timestamp env ({ st with zone := .utc } : Stamp).text =
      { Result := some (Itoa ({ st with zone := .utc } : Stamp).epochSeconds) } ∧
    unix_timestamp env ({ st with zone := .offset neg hh mm } : Stamp).text =
      { Result := some (Itoa (({ st with zone := .utc } : Stamp).epochSeconds -
          (if neg then -1 else 1) * ((hh : Int) * 3600 + (mm : Int) * 60))) } := by
  constructor
  · exact unix_timestamp_text env _ (valid_with_zone st hv .utc trivial)
  · rw [unix_timestamp_text env _ (valid_with_zone st hv (.offset neg hh mm) ⟨hh23, mm59⟩)]
    simp only [Stamp.epochSeconds, Zone.seconds]
    cases neg <;> simp

set_option maxRecDepth 100000 in
/-- Witness for C2: 2024-01-15T10:30:00 with Z gives 1705314600, with -08:00 gives 1705343400. -/
theorem unix_timestamp_offset_witness :
    unix_timestamp envUTC (str "2024-01-15T10:30:00Z") = { Result := some (str "1705314600") } ∧
    unix_timestamp envUTC (str "2024-01-15T10:30:00-08:00") =
      { Result := some (str "1705343400") } := by
  have h := unix_timestamp_offset envUTC ⟨2024, 1, 15, 10, 30, 0, [], .utc⟩ (by decide) true 8 0
    (by decide) (by decide)
  have e1 : ({ (⟨2024, 1, 15, 10, 30, 0, [], .utc⟩ : Stamp) with zone := .utc } : Stamp).text =
      str "2024-01-15T10:30:00Z" := by decide
  have e2 : ({ (⟨2024, 1, 15, 10, 30, 0, [], .utc⟩ : Stamp) with zone := .offset true 8 0 } :
      Stamp).text = str "2024-01-15T10:30:00-08:00" := by decide
  have e3 : Itoa ({ (⟨2024, 1, 15, 10, 30, 0, [], .utc⟩ : Stamp) with zone := .utc } :
      Stamp).epochSeconds = str "1705314600" := by
    rw [epochSeconds_eq]; decide
  have e4 : Itoa (({ (⟨2024, 1, 15, 10, 30, 0, [], .utc⟩ : Stamp) with zone := .utc } :
      Stamp).epochSeconds - (if true = true then -1 else 1) * (((8 : Nat) : Int) * 3600 +
        ((0 : Nat) : Int) * 60)) = str "1705343400" := by
    rw [epochSeconds_eq]; decide
  rw [e1, e2, e3, e4] at h
  exact h

theorem parse_rfc3339_text (env : Env) (st : Stamp) (hv : st.Valid) :
    parse_rfc3339 env st.text =
      { Result := some (
        str "\x7b\"year\":\"" ++ Itoa (st.time env).Year ++
        str "\",\"month\":\"" ++ Itoa (st.time env).Month ++
        str "\",\"day\":\"" ++ Itoa (st.time env).Day ++
        str "\",\"hour\":\"" ++ Itoa (st.time env).Hour ++
        str "\",\"minute\":\"" ++ Itoa (st.time env).Minute ++
        str "\",\"second\":\"" ++ Itoa (st.time env).Second ++
        str "\",\"unix\":\"" ++ Itoa (st.time env).Unix ++
        str "\",\"weekday\":\"" ++ Itoa (st.time env).Weekday ++ str "\"\x7d") } := by
  unfold parse_rfc3339
  rw [Parse_text env st hv]

/-- C3: for a valid RFC 3339 timestamp, parse_rfc3339 returns the record with the eight
fields year, month, day, hour, minute, second, unix, weekday in this order: the calendar
fields are the unpadded decimal texts of the fields as written (at the offset of the
timestamp), unix is the epoch seconds of the instant, weekday the day of the week of the
written date with Sunday = 0. -/
theorem parse_rfc3339_record (env : Env) (st : Stamp) (hv : st.Valid) :
    parse_rfc3339 env st.text =
      { Result := some (
        str "\x7b\"year\":\"" ++ Itoa st.year ++
        str "\",\"month\":\"" ++ Itoa st.month ++
        str "\",\"day\":\"" ++ Itoa st.day ++
        str "\",\"hour\":\"" ++ Itoa st.hour ++
        str "\",\"minute\":\"" ++ Itoa st.minute ++
        str "\",\"second\":\"" ++ Itoa st.second ++
        str "\",\"unix\":\"" ++ Itoa st.epochSeconds ++
        str "\",\"weekday\":\"" ++ Itoa st.weekday ++ str "\"\x7d") } ∧
    1 ≤ st.month ∧ st.month ≤ 12 ∧ 1 ≤ st.day ∧ st.day ≤ 31 ∧ st.hour ≤ 23 ∧ st.minute ≤ 59 ∧
    st.second ≤ 59 ∧ 0 ≤ st.weekday ∧ st.weekday ≤ 6 := by
  obtain ⟨f1, f2, f3, f4, f5, f6, f7, f8, _⟩ := time_fields env st hv
  refine ⟨?_, hv.2.1, hv.2.2.1, hv.2.2.2.1, ?_, hv.2.2.2.2.2.1, hv.2.2.2.2.2.2.1,
    hv.2.2.2.2.2.2.2.1, ?_, ?_⟩
  · rw [parse_rfc3339_text env st hv, f1, f2, f3, f4, f5, f6, f7, f8]
  · have := hv.2.2.2.2.1
    have h31 : monthLength st.year st.month ≤ 31 := by
      unfold monthLength; split_ifs <;> omega
    omega
  · unfold Stamp.weekday; omega
  · unfold Stamp.weekday; omega

set_option maxRecDepth 100000 in
/-- Witness for C3: the record of 2024-01-15T10:30:45Z has weekday 1 and unix 1705314645. -/
theorem parse_rfc3339_record_witness :
    parse_rfc3339 envUTC (str "2024-01-15T10:30:45Z") = { Result := some (str
      "\x7b\"year\":\"2024\",\"month\":\"1\",\"day\":\"15\",\"hour\":\"10\",\"minute\":\"30\",\"second\":\"45\",\"unix\":\"1705314645\",\"weekday\":\"1\"\x7d") } := by
  have h := (parse_rfc3339_record envUTC ⟨2024, 1, 15, 10, 30, 45, [], .utc⟩ (by decide)).1
  have e1 : (⟨2024, 1, 15, 10, 30, 45, [], .utc⟩ : Stamp).text = str "2024-01-15T10:30:45Z" := by
    decide
  have e2 : Itoa (⟨2024, 1, 15, 10, 30, 45, [], .utc⟩ : Stamp).epochSeconds = str "1705314645" := by
    rw [epochSeconds_eq]; decide
  have e3 : Itoa (⟨2024, 1, 15, 10, 30, 45, [], .utc⟩ : Stamp).weekday = str "1" := by
    rw [weekday_eq]; decide
  rw [e1, e2, e3] at h
  rw [h]
  decide

/-! ## Lemmas: the generic parser -/

theorem parseChunks_cons_ok (L v : Bytes) (c : Chunk) (rest : List Chunk) (st st1 : ParseState)
    (h : parseChunks L v (c :: rest) st = .ok st1) :
    (skip c.lit.length st.value c.lit).2 = false ∧
    (parseStd c.std (rest.head?.map (·.std))
      { st with value := (skip c.lit.length st.value c.lit).1 }).rangeErrString = [] ∧
    (parseStd c.std (rest.head?.map (·.std))
      { st with value := (skip c.lit.length st.value c.lit).1 }).err = false ∧
    parseChunks L v rest (parseStd c.std (rest.head?.map (·.std))
      { st with value := (skip c.lit.length st.value c.lit).1 }).st = .ok st1 := by
  unfold parseChunks at h
  simp only [] at h
  split at h
  · exact absurd h (by simp)
  · split at h
    · exact absurd h (by simp)
    · split at h
      · exact absurd h (by simp)
      · rename_i h1 h2 h3
        refine ⟨by simpa using h1, by simpa using h2, by simpa using h3, h⟩

theorem parseChunks_nil_ok (L v : Bytes) (st st1 : ParseState)
    (h : parseChunks L v [] st = .ok st1) : st.value = [] ∧ st1 = st := by
  unfold parseChunks at h
  split at h
  · exact absurd h (by simp)
  · rename_i h1
    have : st.value.length = 0 := by simpa using h1
    refine ⟨List.length_eq_zero.mp this, ?_⟩
    injection h with h
    exact h.symm

theorem skip_zero (v lit : Bytes) : skip 0 v lit = (v, false) := rfl

theorem skip_single (v : Bytes) (p : Nat) (hp : p ≠ 32) :
    skip 1 v [p] = if v.length = 0 ∨ byteAt v 0 ≠ p then (v, true) else (v.drop 1, false) := by
  simp only [skip, hp, if_false]

theorem getnum_fixed_ok (v : Bytes) (h : (getnum v true).2.2 = false) :
    isDigit v 0 = true ∧ isDigit v 1 = true ∧
    getnum v true = (((byteAt v 0 : Int) - 48) * 10 + ((byteAt v 1 : Int) - 48), v.drop 2, false) := by
  unfold getnum at h ⊢
  by_cases h0 : isDigit v 0 = true
  · by_cases h1 : isDigit v 1 = true
    · simp [h0, h1]
    · simp [h0, h1] at h
  · simp [h0] at h

theorem getnum_free_ok (v : Bytes) (h : (getnum v false).2.2 = false) :
    isDigit v 0 = true ∧
    ((isDigit v 1 = true ∧ getnum v false =
        (((byteAt v 0 : Int) - 48) * 10 + ((byteAt v 1 : Int) - 48), v.drop 2, false)) ∨
     (isDigit v 1 = false ∧ getnum v false = ((byteAt v 0 : Int) - 48, v.drop 1, false))) := by
  unfold getnum at h ⊢
  by_cases h0 : isDigit v 0 = true
  · by_cases h1 : isDigit v 1 = true
    · simp [h0, h1]
    · simp [h0, h1]
  · simp [h0] at h

theorem byteAt_drop (s : Bytes) (n i : Nat) : byteAt (s.drop n) i = byteAt s (n + i) := by
  simp [byteAt, List.getD_eq_getElem?_getD, List.getElem?_drop]

theorem isDigit_drop (s : Bytes) (n i : Nat) : isDigit (s.drop n) i = isDigit s (n + i) := by
  unfold isDigit
  rw [byteAt_drop]
  simp only [List.length_drop]
  by_cases h : s.length ≤ n + i
  · have : s.length - n ≤ i := by omega
    simp [h, this]
  · have : ¬ s.length - n ≤ i := by omega
    simp [h, this]

theorem parseStd_year (next : Option Std) (st : ParseState)
    (h : (parseStd .stdLongYear next st).err = false) :
    4 ≤ st.value.length ∧ (atoi (slice st.value 0 4)).2 = false ∧
    (parseStd .stdLongYear next st).st =
      { st with value := st.value.drop 4, year := (atoi (slice st.value 0 4)).1 } := by
  unfold parseStd at h ⊢
  simp only [] at h ⊢
  split_ifs at h ⊢ with h1
  exact ⟨by simp at h1; omega, h, rfl⟩

theorem parseStd_month (next : Option Std) (st : ParseState)
    (h : (parseStd .stdZeroMonth next st).err = false)
    (hr : (parseStd .stdZeroMonth next st).rangeErrString = []) :
    (getnum st.value true).2.2 = false ∧
    1 ≤ (getnum st.value true).1 ∧ (getnum st.value true).1 ≤ 12 ∧
    (parseStd .stdZeroMonth next st).st =
      { st with value := (getnum st.value true).2.1, month := (getnum st.value true).1 } := by
  unfold parseStd at h hr ⊢
  simp only [] at h hr ⊢
  refine ⟨h, ?_, ?_, trivial⟩
  · by_contra hc
    rw [if_pos ⟨by simp [h], Or.inl (by omega)⟩] at hr
    exact absurd hr (by decide)
  · by_contra hc
    rw [if_pos ⟨by simp [h], Or.inr (by omega)⟩] at hr
    exact absurd hr (by decide)

theorem parseStd_day (next : Option Std) (st : ParseState)
    (h : (parseStd .stdZeroDay next st).err = false) :
    (getnum st.value true).2.2 = false ∧
    (parseStd .stdZeroDay next st).st =
      { st with value := (getnum st.value true).2.1, day := (getnum st.value true).1 } := by
  unfold parseStd at h ⊢
  exact ⟨h, rfl⟩

theorem parseStd_hour (next : Option Std) (st : ParseState)
    (h : (parseStd .stdHour next st).err = false)
    (hr : (parseStd .stdHour next st).rangeErrString = []) :
    (getnum st.value false).2.2 = false ∧ (getnum st.value false).1 < 24 ∧
    (parseStd .stdHour next st).st =
      { st with value := (getnum st.value false).2.1, hour := (getnum st.value false).1 } := by
  unfold parseStd at h hr ⊢
  simp only [] at h hr ⊢
  refine ⟨h, ?_, trivial⟩
  by_contra hc
  rw [if_pos (Or.inr (by omega))] at hr
  exact absurd hr (by decide)

theorem parseStd_minute (next : Option Std) (st : ParseState)
    (h : (parseStd .stdZeroMinute next st).err = false)
    (hr : (parseStd .stdZeroMinute next st).rangeErrString = []) :
    (getnum st.value true).2.2 = false ∧ (getnum st.value true).1 < 60 ∧
    (parseStd .stdZeroMinute next st).st =
      { st with value := (getnum st.value true).2.1, min := (getnum st.value true).1 } := by
  unfold parseStd at h hr ⊢
  simp only [] at h hr ⊢
  refine ⟨h, ?_, trivial⟩
  by_contra hc
  rw [if_pos (Or.inr (by omega))] at hr
  exact absurd hr (by decide)

theorem parseStd_second (next : Option Std) (st : ParseState)
    (h : (parseStd .stdZeroSecond next st).err = false)
    (hr : (parseStd .stdZeroSecond next st).rangeErrString = []) :
    (getnum st.value true).2.2 = false ∧ (getnum st.value true).1 < 60 ∧
    (parseStd .stdZeroSecond next st).st.sec = (getnum st.value true).1 ∧
    (parseStd .stdZeroSecond next st).st.year = st.year ∧
    (parseStd .stdZeroSecond next st).st.month = st.month ∧
    (parseStd .stdZeroSecond next st).st.day = st.day ∧
    (parseStd .stdZeroSecond next st).st.hour = st.hour ∧
    (parseStd .stdZeroSecond next st).st.min = st.min ∧
    ∃ k, (parseStd .stdZeroSecond next st).st.value = ((getnum st.value true).2.1).drop k := by
  unfold parseStd at h hr ⊢
  simp only [] at h hr ⊢
  split_ifs at h hr ⊢ with h1 h2 h3 h4
  all_goals first
    | exact absurd (show str "second" = [] from hr) (by decide)
    | exact ⟨by simpa using h1, by omega, rfl, rfl, rfl, rfl, rfl, rfl, 0, rfl⟩
    | exact ⟨by simpa using h1, by omega, rfl, rfl, rfl, rfl, rfl, rfl, _, rfl⟩

theorem six_bytes (v : Bytes) (h : v.length = 6) :
    v = [byteAt v 0, byteAt v 1, byteAt v 2, byteAt v 3, byteAt v 4, byteAt v 5] := by
  match v, h with
  | [a, b, c, d, e, f], _ => rfl

theorem parseStd_zone (next : Option Std) (st : ParseState)
    (h : (parseStd .stdISO8601ColonTZ next st).err = false)
    (hv : (parseStd .stdISO8601ColonTZ next st).st.value = []) :
    (parseStd .stdISO8601ColonTZ next st).st.year = st.year ∧
    (parseStd .stdISO8601ColonTZ next st).st.month = st.month ∧
    (parseStd .stdISO8601ColonTZ next st).st.day = st.day ∧
    (parseStd .stdISO8601ColonTZ next st).st.hour = st.hour ∧
    (parseStd .stdISO8601ColonTZ next st).st.min = st.min ∧
    (parseStd .stdISO8601ColonTZ next st).st.sec = st.sec ∧
    (st.value = [90] ∨ ∃ sg a b c d, (sg = 43 ∨ sg = 45) ∧ st.value = [sg, a, b, 58, c, d]) := by
  unfold parseStd at h hv ⊢
  by_cases h1 : (decide (st.value.length ≥ 1) && byteAt st.value 0 == 90) = true
  · simp only [h1, if_true] at h hv ⊢
    refine ⟨trivial, trivial, trivial, trivial, trivial, trivial, Or.inl ?_⟩
    simp only [Bool.and_eq_true, decide_eq_true_eq, beq_iff_eq] at h1
    have hl : st.value.length = 1 := by
      have := congrArg List.length hv
      simp at this
      omega
    match hval : st.value, hl with
    | [a], _ =>
      rw [hval] at h1
      simp [byteAt] at h1
      rw [h1]
  · by_cases h2 : st.value.length < 6
    · simp [h1, h2] at h
    · by_cases h3 : byteAt st.value 3 ≠ 58
      · simp [h1, h2, h3] at h
      · simp only [h1, h2, h3, if_false, Bool.false_eq_true] at h hv ⊢
        refine ⟨trivial, trivial, trivial, trivial, trivial, trivial, Or.inr ?_⟩
        have hl : st.value.length = 6 := by
          have := congrArg List.length hv
          simp at this
          omega
        have h58 : byteAt st.value 3 = 58 := by simpa using h3
        have hsg : byteAt st.value 0 = 43 ∨ byteAt st.value 0 = 45 := by
          by_contra hc
          push_neg at hc
          simp [hc.1, hc.2] at h
        refine ⟨byteAt st.value 0, byteAt st.value 1, byteAt st.value 2, byteAt st.value 4,
          byteAt st.value 5, hsg, ?_⟩
        have := six_bytes st.value hl
        rw [h58] at this
        exact this

theorem skip_single_ok (v : Bytes) (p : Nat) (hp : p ≠ 32) (h : (skip 1 v [p]).2 = false) :
    0 < v.length ∧ byteAt v 0 = p ∧ (skip 1 v [p]).1 = v.drop 1 := by
  rw [skip_single v p hp] at h ⊢
  split_ifs at h ⊢ with h1
  push_neg at h1
  exact ⟨by omega, h1.2, rfl⟩

theorem parse_ok_chunks (env : Env) (s : Bytes) (t : Time) (h : parse env s = .ok t) :
    ∃ st, parseChunks RFC3339 s rfc3339Chunks { value := s } = .ok st ∧
      1 ≤ st.day ∧ st.day ≤ daysIn st.month st.year := by
  unfold parse at h
  split at h
  · exact absurd h (by simp)
  · rename_i st hst
    refine ⟨st, hst, ?_⟩
    split at h
    · exact absurd h (by simp)
    · rename_i hd
      push_neg at hd
      exact hd

theorem step_ok (L v lit : Bytes) (std : Std) (ss : Bytes) (rest : List Chunk)
    (st st1 : ParseState)
    (h : parseChunks L v ({ lit := lit, std := std, stdstr := ss } :: rest) st = .ok st1) :
    (skip lit.length st.value lit).2 = false ∧
    (parseStd std (rest.head?.map (·.std))
      { st with value := (skip lit.length st.value lit).1 }).rangeErrString = [] ∧
    (parseStd std (rest.head?.map (·.std))
      { st with value := (skip lit.length st.value lit).1 }).err = false ∧
    parseChunks L v rest (parseStd std (rest.head?.map (·.std))
      { st with value := (skip lit.length st.value lit).1 }).st = .ok st1 :=
  parseChunks_cons_ok L v _ rest st st1 h

theorem str_dash : str "-" = [45] := by decide
theorem str_T : str "T" = [84] := by decide
theorem str_colon : str ":" = [58] := by decide

theorem getnum2 (v : Bytes) (h0 : isDigit v 0 = true) (h1 : isDigit v 1 = true) (fixed : Bool) :
    getnum v fixed = (num2 v 0, v.drop 2, false) := by
  unfold getnum
  simp [h0, h1, num2]

theorem num2_drop (s : Bytes) (n i : Nat) : num2 (s.drop n) i = num2 s (n + i) := by
  unfold num2
  rw [byteAt_drop, byteAt_drop]
  rfl

theorem tail_chain (L v : Bytes) (σ st : ParseState)
    (h : parseChunks L v
      [{ lit := [58], std := .stdZeroMinute, stdstr := str "04" },
       { lit := [58], std := .stdZeroSecond, stdstr := str "05" },
       { lit := [], std := .stdISO8601ColonTZ, stdstr := str "Z07:00" }] σ = .ok st) :
    st.year = σ.year ∧ st.month = σ.month ∧ st.day = σ.day ∧
    num2 σ.value 1 < 60 ∧ num2 σ.value 4 < 60 ∧
    ∃ k, (σ.value.drop k = [90] ∨
      ∃ sg a b c d, (sg = 43 ∨ sg = 45) ∧ σ.value.drop k = [sg, a, b, 58, c, d]) := by
  -- minute
  obtain ⟨k5, r5, e5, h⟩ := step_ok _ _ _ _ _ _ _ _ h
  dsimp only [List.length_singleton] at k5 r5 e5 h
  obtain ⟨-, b5, v5⟩ := skip_single_ok _ 58 (by decide) k5
  rw [v5] at r5 e5 h
  obtain ⟨g5, mm, s5⟩ := parseStd_minute _ _ e5 r5
  dsimp only at g5 mm s5
  obtain ⟨d50, d51, n5⟩ := getnum_fixed_ok _ g5
  have n5b := getnum2 _ d50 d51 true
  rw [s5, n5b] at h
  rw [n5b] at mm
  dsimp only at h mm
  rw [List.drop_drop] at h
  rw [num2_drop] at mm
  clear e5 r5 s5 k5 v5 g5 n5 n5b
  -- second
  obtain ⟨k6, r6, e6, h⟩ := step_ok _ _ _ _ _ _ _ _ h
  dsimp only [List.length_singleton] at k6 r6 e6 h
  obtain ⟨-, b6, v6⟩ := skip_single_ok _ 58 (by decide) k6
  rw [v6, List.drop_drop] at r6 e6 h
  obtain ⟨g6, ss, -, y6, mo6, dd6, -, -, k, hk⟩ := parseStd_second _ _ e6 r6
  dsimp only at g6 ss y6 mo6 dd6 hk
  obtain ⟨d60, d61, n6⟩ := getnum_fixed_ok _ g6
  have n6b := getnum2 _ d60 d61 true
  rw [n6b] at ss hk
  dsimp only at ss hk
  rw [num2_drop] at ss
  rw [List.drop_drop, List.drop_drop] at hk
  -- zone
  obtain ⟨_, _, e7, h⟩ := step_ok _ _ _ _ _ _ _ _ h
  dsimp only [skip_zero, List.length_nil] at e7 h
  obtain ⟨hv, hst⟩ := parseChunks_nil_ok _ _ _ _ h
  obtain ⟨y7, mo7, dd7, -, -, -, hz⟩ := parseStd_zone _ _ e7 hv
  dsimp only at y7 mo7 dd7 hz
  rw [hst]
  refine ⟨by rw [y7, y6], by rw [mo7, mo6], by rw [dd7, dd6], by simpa using mm,
    by simpa using ss, ?_⟩
  rw [hk] at hz
  exact ⟨_, hz⟩

theorem generic_shape (s : Bytes) (st : ParseState)
    (h : parseChunks RFC3339 s rfc3339Chunks { value := s } = .ok st) :
    byteAt s 10 = 84 ∧ HasZone s ∧
    st.year = (atoi (slice s 0 4)).1 ∧ st.month = num2 s 5 ∧ st.day = num2 s 8 ∧
    1 ≤ num2 s 5 ∧ num2 s 5 ≤ 12 ∧
    (isDigit s 12 = true → num2 s 11 < 24 ∧ num2 s 14 < 60 ∧ num2 s 17 < 60) := by
  unfold rfc3339Chunks at h
  rw [str_dash, str_T, str_colon] at h
  -- year
  obtain ⟨_, _, e1, h⟩ := step_ok _ _ _ _ _ _ _ _ h
  dsimp only [skip_zero, List.length_nil] at e1 h
  obtain ⟨l1, a1, s1⟩ := parseStd_year _ _ e1
  rw [s1] at h
  dsimp only at h l1
  clear e1 s1
  -- month
  obtain ⟨k2, r2, e2, h⟩ := step_ok _ _ _ _ _ _ _ _ h
  dsimp only [List.length_singleton] at k2 r2 e2 h
  obtain ⟨-, b2, v2⟩ := skip_single_ok _ 45 (by decide) k2
  rw [v2, List.drop_drop] at r2 e2 h
  obtain ⟨g2, m1, m2, s2⟩ := parseStd_month _ _ e2 r2
  dsimp only at g2 m1 m2 s2
  obtain ⟨d20, d21, n2⟩ := getnum_fixed_ok _ g2
  have n2b := getnum2 _ d20 d21 true
  rw [s2, n2b] at h
  rw [n2b] at m1 m2
  dsimp only at h m1 m2
  rw [List.drop_drop, num2_drop] at h
  rw [num2_drop] at m1 m2
  clear e2 r2 s2 k2 v2 g2 n2 n2b
  -- day
  obtain ⟨k3, r3, e3, h⟩ := step_ok _ _ _ _ _ _ _ _ h
  dsimp only [List.length_singleton] at k3 r3 e3 h
  obtain ⟨-, b3, v3⟩ := skip_single_ok _ 45 (by decide) k3
  rw [v3, List.drop_drop] at r3 e3 h
  obtain ⟨g3, s3⟩ := parseStd_day _ _ e3
  dsimp only at g3 s3
  obtain ⟨d30, d31, n3⟩ := getnum_fixed_ok _ g3
  have n3b := getnum2 _ d30 d31 true
  rw [s3, n3b] at h
  dsimp only at h
  rw [List.drop_drop, num2_drop] at h
  clear e3 r3 s3 k3 v3 g3 n3 n3b
  -- hour
  obtain ⟨k4, r4, e4, h⟩ := step_ok _ _ _ _ _ _ _ _ h
  dsimp only [List.length_singleton] at k4 r4 e4 h
  obtain ⟨-, b4, v4⟩ := skip_single_ok _ 84 (by decide) k4
  rw [byteAt_drop] at b4
  rw [v4, List.drop_drop] at r4 e4 h
  obtain ⟨g4, hh, s4⟩ := parseStd_hour _ _ e4 r4
  dsimp only at g4 hh s4
  rw [s4] at h
  obtain ⟨y8, mo8, dd8, mm, ss, k, hz⟩ := tail_chain _ _ _ _ h
  dsimp only at y8 mo8 dd8 mm ss hz
  refine ⟨by simpa using b4, ?_, y8, by simpa using mo8, by simpa using dd8, by simpa using m1,
    by simpa using m2, ?_⟩
  · -- zone designator
    obtain ⟨j, hj⟩ : ∃ j, (getnum (List.drop (4 + 1 + 2 + 1 + 2 + 1) s) false).2.1 = s.drop j := by
      obtain ⟨-, hc | hc⟩ := getnum_free_ok _ g4
      · rw [hc.2]; exact ⟨_, List.drop_drop _ _ _⟩
      · rw [hc.2]; exact ⟨_, List.drop_drop _ _ _⟩
    rw [hj, List.drop_drop] at hz
    have hsplit : s = s.take (j + k) ++ s.drop (j + k) := (List.take_append_drop _ _).symm
    refine ⟨s.take (j + k), ?_⟩
    rcases hz with hz | ⟨sg, a, b, c, d, hsg, hz⟩
    · left; rw [← hz]; exact hsplit
    · right; refine ⟨sg, a, b, c, d, hsg, ?_⟩; rw [← hz]; exact hsplit
  · intro h12
    have d40 : isDigit (List.drop (4 + 1 + 2 + 1 + 2 + 1) s) 0 = true := (getnum_free_ok _ g4).1
    have d41 : isDigit (List.drop (4 + 1 + 2 + 1 + 2 + 1) s) 1 = true := by
      rw [isDigit_drop]; exact h12
    have n4 := getnum2 _ d40 d41 false
    rw [n4] at hh mm ss
    dsimp only at hh mm ss
    rw [num2_drop] at hh
    rw [List.drop_drop, num2_drop] at mm ss
    exact ⟨by simpa using hh, by simpa using mm, by simpa using ss⟩

theorem fast_T (env : Env) (s : Bytes) (h10 : byteAt s 10 ≠ 84) : parseRFC3339 env s = none := by
  unfold parseRFC3339
  split_ifs with h1
  · rfl
  · have e : (byteAt s 10 == 84) = false := by simpa using h10
    simp [e]

theorem one_byte (v : Bytes) (h : v.length = 1) : v = [byteAt v 0] := by
  match v, h with
  | [a], _ => rfl

theorem fast_zone (env : Env) (s : Bytes) (t : Time) (h : parseRFC3339 env s = some t) :
    HasZone s := by
  unfold parseRFC3339 at h
  split at h
  · exact absurd h (by simp)
  simp only [] at h
  split at h
  · exact absurd h (by simp)
  have key : ∃ j, (if (decide ((List.drop 19 s).length ≥ 2) && byteAt (List.drop 19 s) 0 == 46 &&
        isDigit (List.drop 19 s) 1) = true then
      ((parseNanoseconds (List.drop 19 s) (fracEnd (List.drop 19 s))).1,
        List.drop (fracEnd (List.drop 19 s)) (List.drop 19 s))
      else (0, List.drop 19 s)).2 = s.drop j := by
    split_ifs
    · exact ⟨_, List.drop_drop _ _ _⟩
    · exact ⟨19, rfl⟩
  obtain ⟨j, hj⟩ := key
  generalize (if (decide ((List.drop 19 s).length ≥ 2) && byteAt (List.drop 19 s) 0 == 46 &&
        isDigit (List.drop 19 s) 1) = true then
      ((parseNanoseconds (List.drop 19 s) (fracEnd (List.drop 19 s))).1,
        List.drop (fracEnd (List.drop 19 s)) (List.drop 19 s))
      else (0, List.drop 19 s)) = p at h hj
  have hsplit : s = s.take j ++ s.drop j := (List.take_append_drop _ _).symm
  by_cases hz : p.2.length ≠ 1 ∨ byteAt p.2 0 ≠ 90
  · rw [if_pos hz] at h
    by_cases h6 : p.2.length ≠ 6
    · rw [if_pos h6] at h
      exact absurd h (by simp)
    · rw [if_neg h6] at h
      push_neg at h6
      split at h
      · exact absurd h (by simp)
      rename_i h7
      have hb : ((byteAt p.2 0 == 45 || byteAt p.2 0 == 43) && byteAt p.2 3 == 58) = true := by
        by_contra hc
        apply h7
        simp [hc]
      simp only [Bool.and_eq_true, Bool.or_eq_true, beq_iff_eq] at hb
      refine ⟨s.take j, Or.inr ⟨byteAt p.2 0, byteAt p.2 1, byteAt p.2 2, byteAt p.2 4,
        byteAt p.2 5, hb.1.symm, ?_⟩⟩
      have e := six_bytes p.2 h6
      rw [hb.2] at e
      rw [← e, hj]
      exact hsplit
  · push_neg at hz
    have e := one_byte p.2 hz.1
    rw [hz.2] at e
    refine ⟨s.take j, Or.inl ?_⟩
    rw [← e, hj]
    exact hsplit

theorem fieldsText_cons (y m d H M S : Nat) (rest : Bytes) : fieldsText y m d H M S rest =
    (48 + y / 1000) :: (48 + y / 100 % 10) :: (48 + y / 10 % 10) :: (48 + y % 10) :: 45 ::
    (48 + m / 10) :: (48 + m % 10) :: 45 :: (48 + d / 10) :: (48 + d % 10) :: 84 ::
    (48 + H / 10) :: (48 + H % 10) :: 58 :: (48 + M / 10) :: (48 + M % 10) :: 58 ::
    (48 + S / 10) :: (48 + S % 10) :: rest := by
  simp only [fieldsText, pad4, pad2, List.cons_append, List.nil_append]

theorem parseUint_pad2_flag (n : Nat) (lo hi : Int) (h : n < 100)
    (hf : (parseUint (pad2 n) lo hi).2 = true) :
    lo ≤ n ∧ (n : Int) ≤ hi ∧ (parseUint (pad2 n) lo hi).1 = n := by
  simp only [parseUint, parseUintDigits_pad2 n h] at hf ⊢
  split_ifs at hf ⊢ with h1
  push_neg at h1
  exact ⟨h1.1, h1.2, rfl⟩

theorem fast_range (env : Env) (y m d H M S : Nat) (rest : Bytes) (hy : y ≤ 9999)
    (hm : m < 100) (hd : d < 100) (hH : H < 100) (hM : M < 100) (hS : S < 100)
    (hbad : ¬ FieldsInRange y m d H M S) :
    parseRFC3339 env (fieldsText y m d H M S rest) = none := by
  rw [fieldsText_cons]
  unfold parseRFC3339
  split
  · rfl
  simp only [slice, byteAt_succ, byteAt_zero, List.drop_succ_cons, List.drop_zero,
    List.take_succ_cons, List.take_zero]
  split
  · rfl
  rename_i hc
  exfalso
  apply hbad
  have p1 := parseUint_pad4 y hy
  simp only [pad4] at p1
  simp only [p1, Bool.or_eq_true, Bool.not_eq_true', not_or, Bool.not_eq_false,
    Bool.and_eq_true, Bool.true_and] at hc
  obtain ⟨⟨⟨⟨⟨f2, f3⟩, f4⟩, f5⟩, f6⟩, -⟩ := hc
  obtain ⟨a2, b2, c2⟩ := parseUint_pad2_flag m 1 12 hm f2
  simp only [pad2] at c2
  rw [c2] at f3
  obtain ⟨a3, b3, -⟩ := parseUint_pad2_flag d 1 _ hd f3
  obtain ⟨-, b4, -⟩ := parseUint_pad2_flag H 0 23 hH f4
  obtain ⟨-, b5, -⟩ := parseUint_pad2_flag M 0 59 hM f5
  obtain ⟨-, b6, -⟩ := parseUint_pad2_flag S 0 59 hS f6
  rw [daysIn_eq y m (by omega) (by omega)] at b3
  exact ⟨by omega, by omega, by omega, by exact_mod_cast b3, by omega, by omega, by omega⟩

theorem num2_digits (a b : Nat) (n : Nat) (ha : a = 48 + n / 10) (hb : b = 48 + n % 10) :
    ((a : Int) - 48) * 10 + ((b : Int) - 48) = n := by
  subst ha hb
  push_cast
  omega

theorem atoi_pad4 (y : Nat) (hy : y ≤ 9999) : atoi (pad4 y) = ((y : Int), false) := by
  have h := atoi_digits (y / 1000) [y / 100 % 10, y / 10 % 10, y % 10]
    (by intro x hx; simp at hx; omega) (by simp)
  have e : pad4 y = List.map (fun x => 48 + x) [y / 1000, y / 100 % 10, y / 10 % 10, y % 10] := rfl
  rw [e, h]
  simp only [List.foldl_cons, List.foldl_nil, Prod.mk.injEq, and_true]
  congr 1
  omega

theorem generic_range (env : Env) (y m d H M S : Nat) (rest : Bytes) (hy : y ≤ 9999)
    (hm : m < 100) (hd : d < 100) (hH : H < 100) (hM : M < 100) (hS : S < 100)
    (hbad : ¬ FieldsInRange y m d H M S) (t : Time) :
    parse env (fieldsText y m d H M S rest) ≠ .ok t := by
  intro h
  obtain ⟨st, hst, hd1, hd2⟩ := parse_ok_chunks env _ t h
  obtain ⟨-, -, ey, em, ed, m1, m2, hrest⟩ := generic_shape _ st hst
  have hys : slice (fieldsText y m d H M S rest) 0 4 = pad4 y := by
    rw [fieldsText_cons]; rfl
  rw [hys, atoi_pad4 y hy] at ey
  have n5 : num2 (fieldsText y m d H M S rest) 5 = m := by
    rw [fieldsText_cons]; exact num2_digits _ _ m rfl rfl
  have n8 : num2 (fieldsText y m d H M S rest) 8 = d := by
    rw [fieldsText_cons]; exact num2_digits _ _ d rfl rfl
  have n11 : num2 (fieldsText y m d H M S rest) 11 = H := by
    rw [fieldsText_cons]; exact num2_digits _ _ H rfl rfl
  have n14 : num2 (fieldsText y m d H M S rest) 14 = M := by
    rw [fieldsText_cons]; exact num2_digits _ _ M rfl rfl
  have n17 : num2 (fieldsText y m d H M S rest) 17 = S := by
    rw [fieldsText_cons]; exact num2_digits _ _ S rfl rfl
  have h12 : isDigit (fieldsText y m d H M S rest) 12 = true := by
    rw [fieldsText_cons]
    simp [isDigit, byteAt]
    omega
  obtain ⟨r1, r2, r3⟩ := hrest h12
  rw [n5] at m1 m2 em
  rw [n8] at ed
  rw [n11] at r1
  rw [n14] at r2
  rw [n17] at r3
  rw [ed, em, ey] at hd2
  rw [ed] at hd1
  dsimp only at hd2
  rw [daysIn_eq y m (by omega) (by omega)] at hd2
  exact hbad ⟨by omega, by omega, by omega, by exact_mod_cast hd2, by omega, by omega, by omega⟩

theorem error_of_not_ok {ε α : Type} (r : Except ε α) (h : ∀ t, r ≠ .ok t) : ∃ e, r = .error e := by
  cases r with
  | error e => exact ⟨e, rfl⟩
  | ok t => exact absurd rfl (h t)

theorem Parse_malformed (env : Env) (s : Bytes) (h : Malformed s) :
    ∃ e, Parse env s = .error e := by
  apply error_of_not_ok
  intro t ht
  have hcases : parseRFC3339 env s = some t ∨ (parseRFC3339 env s = none ∧ parse env s = .ok t) := by
    unfold Parse at ht
    cases hp : parseRFC3339 env s with
    | none => rw [hp] at ht; exact Or.inr ⟨rfl, ht⟩
    | some u => rw [hp] at ht; injection ht with ht; left; rw [ht]
  have hzone : HasZone s := by
    rcases hcases with hf | ⟨-, hg⟩
    · exact fast_zone env s t hf
    · obtain ⟨st, hst, -, -⟩ := parse_ok_chunks env s t hg
      exact (generic_shape s st hst).2.1
  have hT : byteAt s 10 = 84 := by
    rcases hcases with hf | ⟨-, hg⟩
    · by_contra hc
      rw [fast_T env s hc] at hf
      exact absurd hf (by simp)
    · obtain ⟨st, hst, -, -⟩ := parse_ok_chunks env s t hg
      exact (generic_shape s st hst).1
  rcases h with h | h | h | ⟨y, m, d, H, M, S, rest, hy, hm, hd, hH, hM, hS, hbad, hs⟩
  · subst h
    exact absurd hT (by decide)
  · exact h hzone
  · exact h hT
  · subst hs
    rcases hcases with hf | ⟨-, hg⟩
    · rw [fast_range env y m d H M S rest hy hm hd hH hM hS hbad] at hf
      exact absurd hf (by simp)
    · exact generic_range env y m d H M S rest hy hm hd hH hM hS hbad t hg

theorem not_hasZone (s : Bytes) (h1 : s.getLast? ≠ some 90)
    (h2 : byteAt s (s.length - 6) ≠ 43 ∧ byteAt s (s.length - 6) ≠ 45) : ¬ HasZone s := by
  rintro ⟨pre, h | ⟨sg, a, b, c, d, hsg, h⟩⟩
  · apply h1
    rw [h]
    simp
  · have e : byteAt s (s.length - 6) = sg := by
      rw [h]
      simp only [byteAt, List.length_append, List.length_cons, List.length_nil,
        List.getD_eq_getElem?_getD]
      have e6 : pre.length + (0 + 1 + 1 + 1 + 1 + 1 + 1) - 6 = pre.length := by omega
      rw [e6, List.getElem?_append_right (le_refl _)]
      simp
    rw [e] at h2
    omega

/-- C4: for every malformed timestamp text (empty, without a zone designator, with a byte
other than T between date and time, or with a field out of range), each of
unix_timestamp, parse_rfc3339, strftime with any format, and days_difference with the
text in either position returns an error and sets no result. -/
theorem malformed_timestamp_rejected (env : Env) (s : Bytes) (h : Malformed s) :
    (∃ e, unix_timestamp env s = { Error := some e, Result := none }) ∧
    (∃ e, parse_rfc3339 env s = { Error := some e, Result := none }) ∧
    (∀ format, ∃ e, strftime env format s = { Error := some e, Result := none }) ∧
    (∀ other, ∃ e, days_difference env s other = { Error := some e, Result := none }) ∧
    (∀ other, ∃ e, days_difference env other s = { Error := some e, Result := none }) := by
  obtain ⟨err, herr⟩ := Parse_malformed env s h
  refine ⟨⟨_, by simp only [unix_timestamp, herr]; rfl⟩, ⟨_, by simp only [parse_rfc3339, herr]; rfl⟩,
    fun format => ⟨_, by simp only [strftime, herr]; rfl⟩,
    fun other => ⟨_, by simp only [days_difference, herr]; rfl⟩, fun other => ?_⟩
  cases ho : Parse env other with
  | error e => exact ⟨_, by simp only [days_difference, ho]; rfl⟩
  | ok t => exact ⟨_, by simp only [days_difference, ho, herr]; rfl⟩

set_option maxRecDepth 100000 in
/-- Witness for C4: the malformed texts of the tests are rejected by unix_timestamp. -/
theorem malformed_timestamp_rejected_witness :
    (∃ e, unix_timestamp envUTC (str "") = { Error := some e, Result := none }) ∧
    (∃ e, unix_timestamp envUTC (str "2024-01-15T10:30:00") = { Error := some e, Result := none }) ∧
    (∃ e, unix_timestamp envUTC (str "2024-01-15 10:30:00Z") = { Error := some e, Result := none }) ∧
    (∃ e, unix_timestamp envUTC (str "2024-13-45T25:70:80Z") = { Error := some e, Result := none }) ∧
    (∃ e, days_difference envUTC (str "2024-01-15T10:30:00Z") (str "2023-02-29T10:30:00Z") =
      { Error := some e, Result := none }) :=
  ⟨(malformed_timestamp_rejected envUTC (str "") (Or.inl (by decide))).1,
   (malformed_timestamp_rejected envUTC (str "2024-01-15T10:30:00")
      (Or.inr (Or.inl (not_hasZone _ (by decide) (by decide))))).1,
   (malformed_timestamp_rejected envUTC (str "2024-01-15 10:30:00Z")
      (Or.inr (Or.inr (Or.inl (by decide))))).1,
   (malformed_timestamp_rejected envUTC (str "2024-13-45T25:70:80Z")
      (Or.inr (Or.inr (Or.inr ⟨2024, 13, 45, 25, 70, 80, [90], by decide, by decide, by decide,
        by decide, by decide, by decide, by decide, by decide⟩)))).1,
   (malformed_timestamp_rejected envUTC (str "2023-02-29T10:30:00Z")
      (Or.inr (Or.inr (Or.inr ⟨2023, 2, 29, 10, 30, 0, [90], by decide, by decide, by decide,
        by decide, by decide, by decide, by decide, by decide⟩)))).2.2.2.2 _⟩

/-! ## Lemmas: strftime patterns -/

theorem FormatString_append (l1 l2 : List Appender) (t : Time) :
    FormatString (l1 ++ l2) t = FormatString l1 t ++ FormatString l2 t := by
  induction l1 with
  | nil => rfl
  | cons a l ih => simp [FormatString, ih]

theorem indexPercent_none (p : Bytes) (h : indexPercent p = none) : ∀ c ∈ p, c ≠ 37 := by
  induction p with
  | nil => simp
  | cons c rest ih =>
    unfold indexPercent at h
    split_ifs at h with hc
    simp only [Option.map_eq_none'] at h
    intro x hx
    rcases List.mem_cons.mp hx with hx | hx
    · rw [hx]; exact hc
    · exact ih h x hx

theorem indexPercent_some (p : Bytes) (i : Nat) (h : indexPercent p = some i) :
    ∃ pre tl, p = pre ++ 37 :: tl ∧ pre.length = i ∧ ∀ c ∈ pre, c ≠ 37 := by
  induction p generalizing i with
  | nil => simp [indexPercent] at h
  | cons c rest ih =>
    unfold indexPercent at h
    split_ifs at h with hc
    · injection h with h
      subst h
      exact ⟨[], rest, by simp [hc], rfl, by simp⟩
    · simp only [Option.map_eq_some'] at h
      obtain ⟨k, hk, rfl⟩ := h
      obtain ⟨pre, tl, h1, h2, h3⟩ := ih k hk
      refine ⟨c :: pre, tl, by simp [h1], by simp [h2], ?_⟩
      intro x hx
      rcases List.mem_cons.mp hx with hx | hx
      · rw [hx]; exact hc
      · exact h3 x hx

theorem formatBitsAux_digit (fuel u : Nat) (acc : Bytes) (h : u < 10) :
    formatBitsAux fuel u acc = (48 + u) :: acc := by
  cases fuel with
  | zero => simp [formatBitsAux, Nat.mod_eq_of_lt h]
  | succ n =>
    have : ¬ u ≥ 10 := by omega
    simp [formatBitsAux, this]

theorem formatBitsAux_step (fuel u : Nat) (acc : Bytes) (h : 10 ≤ u) :
    formatBitsAux (fuel + 1) u acc = formatBitsAux fuel (u / 10) ((48 + u % 10) :: acc) := by
  simp [formatBitsAux, h]

theorem formatUint_small (u : Nat) (h : u < 10000) :
    formatUint u =
      if u < 10 then [48 + u]
      else if u < 100 then [48 + u / 10, 48 + u % 10]
      else if u < 1000 then [48 + u / 100, 48 + u / 10 % 10, 48 + u % 10]
      else [48 + u / 1000, 48 + u / 100 % 10, 48 + u / 10 % 10, 48 + u % 10] := by
  unfold formatUint
  split_ifs with h1 h2 h3
  · exact formatBitsAux_digit _ _ _ h1
  · obtain ⟨k, rfl⟩ : ∃ k, u = k + 1 := ⟨u - 1, by omega⟩
    rw [formatBitsAux_step _ _ _ (by omega), formatBitsAux_digit _ _ _ (by omega)]
  · obtain ⟨k, rfl⟩ : ∃ k, u = k + 2 := ⟨u - 2, by omega⟩
    rw [formatBitsAux_step _ _ _ (by omega), formatBitsAux_step _ _ _ (by omega),
      formatBitsAux_digit _ _ _ (by omega), Nat.div_div_eq_div_mul]
  · obtain ⟨k, rfl⟩ : ∃ k, u = k + 3 := ⟨u - 3, by omega⟩
    rw [formatBitsAux_step _ _ _ (by omega), formatBitsAux_step _ _ _ (by omega),
      formatBitsAux_step _ _ _ (by omega), formatBitsAux_digit _ _ _ (by omega)]
    have e1 : (k + 3) / 10 / 10 / 10 = (k + 3) / 1000 := by omega
    have e2 : (k + 3) / 10 / 10 = (k + 3) / 100 := by omega
    rw [e1, e2]

theorem appendInt_pad2 (n : Nat) (h : n < 100) : appendInt (n : Int) 2 = pad2 n := by
  have hn : ¬ ((n : Int) < 0) := by omega
  simp only [appendInt, Int.natAbs_ofNat, hn, if_false, formatUint_small n (by omega), pad2]
  split_ifs with h1
  · have e1 : n / 10 = 0 := by omega
    have e2 : n % 10 = n := by omega
    simp [e1, e2]
  · simp

theorem appendInt_pad4 (n : Nat) (h : n < 10000) : appendInt (n : Int) 4 = pad4 n := by
  have hn : ¬ ((n : Int) < 0) := by omega
  simp only [appendInt, Int.natAbs_ofNat, hn, if_false, formatUint_small n h, pad4]
  split_ifs with h1 h2 h3
  · have e1 : n / 1000 = 0 := by omega
    have e2 : n / 100 % 10 = 0 := by omega
    have e3 : n / 10 % 10 = 0 := by omega
    have e4 : n % 10 = n := by omega
    simp [e1, e2, e3, e4, List.replicate]
  · have e1 : n / 1000 = 0 := by omega
    have e2 : n / 100 % 10 = 0 := by omega
    have e3 : n / 10 % 10 = n / 10 := by omega
    simp [e1, e2, e3, List.replicate]
  · have e1 : n / 1000 = 0 := by omega
    have e2 : n / 100 % 10 = n / 100 := by omega
    simp [e1, e2, List.replicate]
  · simp

theorem weekdayString_name (n : Nat) : weekdayString (n : Int) = weekdayName n := by
  unfold weekdayString
  rw [Int.toNat_ofNat]
  match n with
  | 0 | 1 | 2 | 3 | 4 | 5 | 6 => rfl
  | _ + 7 => rfl

theorem monthString_name (n : Nat) (h : 1 ≤ n) : monthString (n : Int) = monthName n := by
  unfold monthString
  have : ((n : Int) - 1).toNat = n - 1 := by omega
  rw [this]
  match n, h with
  | 1, _ | 2, _ | 3, _ | 4, _ | 5, _ | 6, _ | 7, _ | 8, _ | 9, _ | 10, _ | 11, _ | 12, _ => rfl
  | _ + 13, _ => rfl

theorem lookupSpec_none (b : Nat) (h : b ∉ directiveChars) : lookupSpec b = none := by
  simp only [directiveChars, List.mem_cons, List.mem_singleton, List.not_mem_nil, or_false,
    not_or] at h
  simp only [lookupSpec, h, if_false]

theorem lookupSpec_some (b : Nat) (h : b ∈ directiveChars) : ∃ spec, lookupSpec b = some spec := by
  simp only [directiveChars, List.mem_cons, List.mem_singleton, List.not_mem_nil, or_false] at h
  rcases h with h | h | h | h | h | h | h | h | h | h | h | h | h | h | h | h | h | h | h | h |
    h | h | h | h | h | h | h | h | h | h | h | h | h | h | h | h | h | h <;>
  exact ⟨_, by rw [h]; rfl⟩

theorem directivesOk_lit (c : Nat) (hc : c ≠ 37) (q : Bytes) :
    directivesOk (c :: q) = directivesOk q := by
  simp [directivesOk, directivesOkFrom, hc]

theorem directivesOk_stray : directivesOk [37] = false := rfl

theorem directivesOk_dir (b : Nat) (q : Bytes) :
    directivesOk (37 :: b :: q) = (decide (b ∈ directiveChars) && directivesOk q) := by
  simp [directivesOk, directivesOkFrom]

/-! ## Lemmas: reversed and equal arguments -/

set_option maxRecDepth 1000000 in
theorem daysOf_max : daysOf maxDuration = 106751 := by decide

set_option maxRecDepth 1000000 in
theorem daysOf_min : daysOf minDuration = -106751 := by decide

theorem days_subday (D : Int) (h0 : 0 ≤ D) (hD : D < 86400000000000) : daysOf D = 0 := by
  have hH : Int.tdiv D Hour = D / 3600000000000 := by
    rw [Int.tdiv_eq_ediv h0 (by decide)]; rfl
  have hK : Int.tmod D Hour = D % 3600000000000 := by
    rw [Int.tmod_eq_emod h0 (by decide)]; rfl
  have hc : (60 * 60 * 1000000000 : Int) = 3600000000000 := by norm_num
  unfold daysOf Hours
  simp only [hH, hK, hc]
  set H : Int := D / 3600000000000 with hHdef
  set K : Int := D % 3600000000000 with hKdef
  have hH0 : 0 ≤ H := by omega
  have hH1 : H < 24 := by omega
  have hK0 : 0 ≤ K := by omega
  have hK1 : K < 3600000000000 := by omega
  have hDHK : 3600000000000 * H + K ≤ 86399999999999 := by omega
  have vH : (F64.ofInt H).val = H := ofInt_exact H (by rw [abs_of_nonneg hH0]; norm_num; omega)
  have vK : (F64.ofInt K).val = K := ofInt_exact K (by rw [abs_of_nonneg hK0]; norm_num; omega)
  have vc : (F64.ofInt 3600000000000).val = 3600000000000 := by
    have := ofInt_exact 3600000000000 (by norm_num)
    exact_mod_cast this
  have v24 : (F64.ofInt 24).val = 24 := by
    have := ofInt_exact 24 (by norm_num)
    exact_mod_cast this
  have mc : (F64.ofInt 3600000000000).m ≠ 0 := val_ne_zero _ (by rw [vc]; norm_num)
  have m24 : (F64.ofInt 24).m ≠ 0 := val_ne_zero _ (by rw [v24]; norm_num)
  have rq := div_rounds (F64.ofInt K) (F64.ofInt 3600000000000) mc
  rw [vK, vc] at rq
  set q := F64.div (F64.ofInt K) (F64.ofInt 3600000000000) with hq
  have rs := add_rounds (F64.ofInt H) q
  rw [vH] at rs
  set sm := F64.add (F64.ofInt H) q with hsm
  have rr := div_rounds sm (F64.ofInt 24) m24
  rw [v24] at rr
  set r := F64.div sm (F64.ofInt 24) with hr
  have hHq0 : (0 : ℚ) ≤ (H : ℚ) := by exact_mod_cast hH0
  have hHq1 : (H : ℚ) < 24 := by exact_mod_cast hH1
  have hKq0 : (0 : ℚ) ≤ (K : ℚ) := by exact_mod_cast hK0
  have hKq1 : (K : ℚ) < 3600000000000 := by exact_mod_cast hK1
  have hDq : (3600000000000 : ℚ) * H + K ≤ 86399999999999 := by exact_mod_cast hDHK
  have hxq0 : (0 : ℚ) ≤ (K : ℚ) / 3600000000000 := by positivity
  have hxq1 : (K : ℚ) / 3600000000000 < 1 := by
    rw [div_lt_iff₀ (by norm_num)]; linarith
  obtain ⟨q1, q2⟩ := rounds_bounds _ _ rq hxq0
  have hq0 : 0 ≤ q.val := by
    have : (K : ℚ) / 3600000000000 / 2 ^ 53 ≤ (K : ℚ) / 3600000000000 := by
      apply div_le_self hxq0; norm_num
    linarith
  have hs0 : (0 : ℚ) ≤ (H : ℚ) + q.val := by linarith
  obtain ⟨s1, s2⟩ := rounds_bounds _ _ rs hs0
  have hsm0 : 0 ≤ sm.val := by
    have : ((H : ℚ) + q.val) / 2 ^ 53 ≤ (H : ℚ) + q.val := by
      apply div_le_self hs0; norm_num
    linarith
  have hr0 : (0 : ℚ) ≤ sm.val / 24 := by positivity
  obtain ⟨r1, r2⟩ := rounds_bounds _ _ rr hr0
  have hrv0 : 0 ≤ r.val := by
    have : sm.val / 24 / 2 ^ 53 ≤ sm.val / 24 := by
      apply div_le_self hr0; norm_num
    linarith
  have eq1 : (K : ℚ) / 3600000000000 / 2 ^ 53 ≤ 1 / 2 ^ 53 := by
    apply div_le_div_of_nonneg_right (le_of_lt hxq1); norm_num
  have hqv1 : q.val ≤ 2 := by
    have : (1 : ℚ) / 2 ^ 53 ≤ 1 := by norm_num
    linarith
  have es1 : ((H : ℚ) + q.val) / 2 ^ 53 ≤ 26 / 2 ^ 53 := by
    apply div_le_div_of_nonneg_right _ (by norm_num)
    linarith
  have hsv1 : sm.val ≤ 28 := by
    have : (26 : ℚ) / 2 ^ 53 ≤ 1 := by norm_num
    linarith
  have er1 : sm.val / 24 / 2 ^ 53 ≤ 28 / 24 / 2 ^ 53 := by
    apply div_le_div_of_nonneg_right _ (by norm_num)
    apply div_le_div_of_nonneg_right hsv1 (by norm_num)
  rw [toInt_floor r hrv0, Int.floor_eq_iff]
  constructor
  · exact_mod_cast hrv0
  · have e1 : sm.val / 24 ≤ ((H : ℚ) + (K : ℚ) / 3600000000000) / 24 +
        (1 / 2 ^ 53 + 26 / 2 ^ 53) / 24 := by
      linarith
    have e2 : ((H : ℚ) + (K : ℚ) / 3600000000000) / 24 =
        (3600000000000 * H + K) / 86400000000000 := by
      ring
    have e3 : ((3600000000000 : ℚ) * H + K) / 86400000000000 ≤
        86399999999999 / 86400000000000 := by
      apply div_le_div_of_nonneg_right hDq; norm_num
    have e4 : (86399999999999 : ℚ) / 86400000000000 + (1 / 2 ^ 53 + 26 / 2 ^ 53) / 24 +
        28 / 24 / 2 ^ 53 < 1 := by
      norm_num
    push_cast
    linarith

theorem daysOf_subday (D : Int) (h : |D| < 86400000000000) : daysOf D = 0 := by
  rcases le_total 0 D with h0 | h0
  · exact days_subday D h0 (by rw [abs_of_nonneg h0] at h; exact h)
  · have h1 := days_subday (-D) (by omega) (by rw [abs_of_nonpos h0] at h; exact h)
    rw [daysOf_neg] at h1
    omega

theorem daysOf_Sub_neg (t u : Time) (ht0 : 0 ≤ t.nsec) (ht1 : t.nsec < 1000000000)
    (hu0 : 0 ≤ u.nsec) (hu1 : u.nsec < 1000000000) :
    daysOf (u.Sub t) = -daysOf (t.Sub u) := by
  rw [Sub_spec t u ht0 ht1 hu0 hu1, Sub_spec u t hu0 hu1 ht0 ht1]
  have e : (u.sec - t.sec) * 1000000000 + (u.nsec - t.nsec) =
      -((t.sec - u.sec) * 1000000000 + (t.nsec - u.nsec)) := by ring
  rw [e]
  set D := (t.sec - u.sec) * 1000000000 + (t.nsec - u.nsec) with hD
  have hmin : minDuration = -9223372036854775808 := by decide
  have hmax : maxDuration = 9223372036854775807 := by decide
  have p63 : (2 : Int) ^ 63 = 9223372036854775808 := by norm_num
  by_cases h1 : D < -2 ^ 63
  · have h2 : ¬ -D < -2 ^ 63 := by omega
    have h3 : -D > 2 ^ 63 - 1 := by omega
    simp only [h1, h2, h3, if_true, if_false, daysOf_max, daysOf_min]
    norm_num
  · by_cases h2 : D > 2 ^ 63 - 1
    · by_cases h3 : -D < -2 ^ 63
      · simp only [h1, h2, h3, if_true, if_false, daysOf_max, daysOf_min]
      · have h4 : ¬ -D > 2 ^ 63 - 1 := by omega
        have h5 : -D = minDuration := by rw [hmin]; omega
        rw [if_neg h3, if_neg h4, if_neg h1, if_pos h2, h5, daysOf_max, daysOf_min]
    · have h3 : ¬ -D < -2 ^ 63 := by omega
      by_cases h4 : -D > 2 ^ 63 - 1
      · have h5 : D = minDuration := by rw [hmin]; omega
        rw [if_neg h3, if_pos h4, if_neg h1, if_neg h2, h5, daysOf_max, daysOf_min]
        norm_num
      · simp only [h1, h2, h3, h4, if_false, daysOf_neg]

/-- C7: for two valid RFC 3339 timestamps A and B, days_difference(A, B) and
days_difference(B, A) return the decimal texts of an integer and of its negation; the
integer is 0 when the instants are less than one day apart. -/
theorem days_difference_negates (env : Env) (a b : Stamp) (ha : a.Valid) (hb : b.Valid) :
    ∃ n : Int, days_difference env a.text b.text = { Result := some (Itoa n) } ∧
      days_difference env b.text a.text = { Result := some (Itoa (-n)) } ∧
      (|(b.epochSeconds - a.epochSeconds) * 1000000000 +
          ((fracNanos b.frac : Int) - fracNanos a.frac)| < 86400000000000 → n = 0) := by
  obtain ⟨a0, a1⟩ := time_nsec env a ha
  obtain ⟨b0, b1⟩ := time_nsec env b hb
  refine ⟨daysOf ((b.time env).Sub (a.time env)), days_difference_text env a b ha hb, ?_, ?_⟩
  · rw [days_difference_text env b a hb ha, daysOf_Sub_neg (b.time env) (a.time env) b0 b1 a0 a1]
  · intro h
    rw [Sub_spec (b.time env) (a.time env) b0 b1 a0 a1]
    have e : ((b.time env).sec - (a.time env).sec) * 1000000000 +
        ((b.time env).nsec - (a.time env).nsec) =
        (b.epochSeconds - a.epochSeconds) * 1000000000 +
          ((fracNanos b.frac : Int) - fracNanos a.frac) := rfl
    rw [e]
    have h' := abs_lt.mp h
    have h1 : ¬ (b.epochSeconds - a.epochSeconds) * 1000000000 +
          ((fracNanos b.frac : Int) - fracNanos a.frac) < -2 ^ 63 := by
      norm_num; omega
    have h2 : ¬ (b.epochSeconds - a.epochSeconds) * 1000000000 +
          ((fracNanos b.frac : Int) - fracNanos a.frac) > 2 ^ 63 - 1 := by
      norm_num; omega
    simp only [h1, h2, if_false]
    exact daysOf_subday _ h

set_option maxRecDepth 100000 in
/-- Witness for C7: from 2024-01-15T10:30:00Z to 2024-01-20T10:30:00Z the answer is 5, and
-5 in the reverse order. -/
theorem days_difference_negates_witness :
    (∃ n : Int,
      days_difference envUTC (str "2024-01-15T10:30:00Z") (str "2024-01-20T10:30:00Z") =
        { Result := some (Itoa n) } ∧
      days_difference envUTC (str "2024-01-20T10:30:00Z") (str "2024-01-15T10:30:00Z") =
        { Result := some (Itoa (-n)) }) ∧
    days_difference envUTC (str "2024-01-15T10:30:00Z") (str "2024-01-20T10:30:00Z") =
      { Result := some (str "5") } ∧
    days_difference envUTC (str "2024-01-20T10:30:00Z") (str "2024-01-15T10:30:00Z") =
      { Result := some (str "-5") } := by
  obtain ⟨n, h1, h2, -⟩ := days_difference_negates envUTC ⟨2024, 1, 15, 10, 30, 0, [], .utc⟩
    ⟨2024, 1, 20, 10, 30, 0, [], .utc⟩ (by decide) (by decide)
  have e1 : (⟨2024, 1, 15, 10, 30, 0, [], .utc⟩ : Stamp).text = str "2024-01-15T10:30:00Z" := by
    decide
  have e2 : (⟨2024, 1, 20, 10, 30, 0, [], .utc⟩ : Stamp).text = str "2024-01-20T10:30:00Z" := by
    decide
  rw [e1, e2] at h1 h2
  exact ⟨⟨n, h1, h2⟩, by decide, by decide⟩

/-- C8: for a valid RFC 3339 timestamp T, days_difference(T, T) returns the text 0 and no
error. -/
theorem days_difference_self (env : Env) (st : Stamp) (hv : st.Valid) :
    days_difference env st.text st.text = { Error := none, Result := some (str "0") } := by
  obtain ⟨h0, h1⟩ := time_nsec env st hv
  rw [days_difference_text env st st hv hv, Sub_spec _ _ h0 h1 h0 h1]
  have e : ((st.time env).sec - (st.time env).sec) * 1000000000 +
      ((st.time env).nsec - (st.time env).nsec) = 0 := by ring
  rw [e]
  have z : daysOf 0 = 0 := daysOf_subday 0 (by norm_num)
  norm_num [z]
  decide

set_option maxRecDepth 100000 in
/-- Witness for C8: a timestamp with a fractional second and an offset. -/
theorem days_difference_self_witness :
    days_difference envUTC (str "2024-02-29T23:59:59.123456789-08:00")
      (str "2024-02-29T23:59:59.123456789-08:00") = { Error := none, Result := some (str "0") } := by
  have h := days_difference_self envUTC
    ⟨2024, 2, 29, 23, 59, 59, [1, 2, 3, 4, 5, 6, 7, 8, 9], .offset true 8 0⟩ (by decide)
  have e : (⟨2024, 2, 29, 23, 59, 59, [1, 2, 3, 4, 5, 6, 7, 8, 9], .offset true 8 0⟩ : Stamp).text =
      str "2024-02-29T23:59:59.123456789-08:00" := by decide
  rw [e] at h
  exact h

/-- C9: days_difference reports which argument was bad. When the start text fails to parse
the message is Invalid start timestamp followed by the parse error, whatever the end text is;
when the start text parses and the end text fails, the message is Invalid end timestamp
followed by the parse error; no result is set in either case, and an error is returned in
these two cases only. -/
theorem days_difference_names_argument (env : Env) (s e : Bytes) :
    (∀ err, Parse env s = .error err →
      days_difference env s e =
        { Error := some (str "Invalid start timestamp: " ++ err.Error), Result := none }) ∧
    (∀ t err, Parse env s = .ok t → Parse env e = .error err →
      days_difference env s e =
        { Error := some (str "Invalid end timestamp: " ++ err.Error), Result := none }) ∧
    (∀ t u, Parse env s = .ok t → Parse env e = .ok u →
      ∃ r, days_difference env s e = { Error := none, Result := some r }) := by
  refine ⟨?_, ?_, ?_⟩
  · intro err h
    unfold days_difference
    rw [h]
  · intro t err h1 h2
    unfold days_difference
    rw [h1, h2]
  · intro t u h1 h2
    unfold days_difference
    rw [h1, h2]
    exact ⟨_, rfl⟩

set_option maxRecDepth 100000 in
/-- Witness for C9: the text invalid as start and as end argument. -/
theorem days_difference_names_argument_witness :
    (∃ msg, days_difference envUTC (str "invalid") (str "2024-01-15T10:30:00Z") =
      { Error := some (str "Invalid start timestamp: " ++ msg), Result := none }) ∧
    (∃ msg, days_difference envUTC (str "invalid") (str "also invalid") =
      { Error := some (str "Invalid start timestamp: " ++ msg), Result := none }) ∧
    (∃ msg, days_difference envUTC (str "2024-01-15T10:30:00Z") (str "invalid") =
      { Error := some (str "Invalid end timestamp: " ++ msg), Result := none }) ∧
    (∃ r, days_difference envUTC (str "2024-01-15T10:30:00Z") (str "2024-01-20T10:30:00Z") =
      { Error := none, Result := some r }) := by
  have bad : Malformed (str "invalid") := Or.inr (Or.inl (not_hasZone _ (by decide) (by decide)))
  obtain ⟨err, herr⟩ := Parse_malformed envUTC (str "invalid") bad
  have e1 : (⟨2024, 1, 15, 10, 30, 0, [], .utc⟩ : Stamp).text = str "2024-01-15T10:30:00Z" := by
    decide
  have e2 : (⟨2024, 1, 20, 10, 30, 0, [], .utc⟩ : Stamp).text = str "2024-01-20T10:30:00Z" := by
    decide
  have p1 := Parse_text envUTC ⟨2024, 1, 15, 10, 30, 0, [], .utc⟩ (by decide)
  have p2 := Parse_text envUTC ⟨2024, 1, 20, 10, 30, 0, [], .utc⟩ (by decide)
  rw [e1] at p1
  rw [e2] at p2
  exact ⟨⟨_, (days_difference_names_argument envUTC _ _).1 err herr⟩,
    ⟨_, (days_difference_names_argument envUTC _ _).1 err herr⟩,
    ⟨_, (days_difference_names_argument envUTC _ _).2.1 _ err p1 herr⟩,
    (days_difference_names_argument envUTC _ _).2.2 _ _ p1 p2⟩

/-! ## Lemmas: the environment -/

theorem forget_locate (env env' : Env) (sec nsec z : Int) :
    forget { sec := sec, nsec := nsec, loc := locate env sec z } =
      forget { sec := sec, nsec := nsec, loc := locate env' sec z } := by
  unfold forget locate FixedZone
  split_ifs <;> rfl

theorem parseRFC3339_env (env env' : Env) (s : Bytes) :
    (parseRFC3339 env s).map forget = (parseRFC3339 env' s).map forget := by
  unfold parseRFC3339
  simp only []
  split_ifs <;> simp only [Option.map_none', Option.map_some', forget_locate env env']

theorem parse_env (env env' : Env) (s : Bytes) :
    forgetResult (parse env s) = forgetResult (parse env' s) := by
  unfold parse
  cases parseChunks RFC3339 s rfc3339Chunks { value := s } with
  | error e => rfl
  | ok st =>
    simp only []
    split_ifs
    · rfl
    · cases st.z <;> simp only [forgetResult, forget_locate env env']
    · cases st.z <;> rfl

theorem Parse_env (env env' : Env) (s : Bytes) :
    forgetResult (Parse env s) = forgetResult (Parse env' s) := by
  have h1 := parseRFC3339_env env env' s
  have h2 := parse_env env env' s
  unfold Parse
  cases ha : parseRFC3339 env s with
  | none =>
    cases hb : parseRFC3339 env' s with
    | none => exact h2
    | some u => rw [ha, hb] at h1; simp at h1
  | some t =>
    cases hb : parseRFC3339 env' s with
    | none => rw [ha, hb] at h1; simp at h1
    | some u =>
      rw [ha, hb] at h1
      simp only [Option.map_some', Option.some.injEq] at h1
      simp only [forgetResult, h1]

theorem usesZoneName_lit (c : Nat) (hc : c ≠ 37) (q : Bytes) :
    usesZoneName (c :: q) = usesZoneName q := by
  simp [usesZoneName, usesZoneNameFrom, hc]

theorem usesZoneName_dir (b : Nat) (q : Bytes) :
    usesZoneName (37 :: b :: q) = (decide (b = 90) || usesZoneName q) := by
  simp [usesZoneName, usesZoneNameFrom]

theorem unix_timestamp_forget (env : Env) (ts : Bytes) :
    unix_timestamp env ts =
      match forgetResult (Parse env ts) with
      | .error err => { Error := some (str "Invalid RFC3339 timestamp: " ++ err.Error) }
      | .ok t => { Result := some (Itoa t.Unix) } := by
  unfold unix_timestamp
  cases Parse env ts <;> rfl

theorem parse_rfc3339_forget (env : Env) (ts : Bytes) :
    parse_rfc3339 env ts =
      match forgetResult (Parse env ts) with
      | .error err => { Error := some (str "Invalid RFC3339 timestamp: " ++ err.Error) }
      | .ok t =>
        { Result := some (
            str "\x7b\"year\":\"" ++ Itoa t.Year ++
            str "\",\"month\":\"" ++ Itoa t.Month ++
            str "\",\"day\":\"" ++ Itoa t.Day ++
            str "\",\"hour\":\"" ++ Itoa t.Hour ++
            str "\",\"minute\":\"" ++ Itoa t.Minute ++
            str "\",\"second\":\"" ++ Itoa t.Second ++
            str "\",\"unix\":\"" ++ Itoa t.Unix ++
            str "\",\"weekday\":\"" ++ Itoa t.Weekday ++ str "\"\x7d") } := by
  unfold parse_rfc3339
  cases Parse env ts <;> rfl

theorem days_difference_forget (env : Env) (s e : Bytes) :
    days_difference env s e =
      match forgetResult (Parse env s) with
      | .error err => { Error := some (str "Invalid start timestamp: " ++ err.Error) }
      | .ok startTime =>
        match forgetResult (Parse env e) with
        | .error err => { Error := some (str "Invalid end timestamp: " ++ err.Error) }
        | .ok endTime => { Result := some (Itoa (daysOf (endTime.Sub startTime))) } := by
  unfold days_difference
  cases Parse env s with
  | error err => rfl
  | ok t => cases Parse env e <;> rfl

/-! ## Lemmas: the shape of accepted timestamps -/

theorem isDigit_digitAt (s : Bytes) (i : Nat) : isDigit s i = digitAt s i := by
  unfold isDigit digitAt isDigitByte
  by_cases h : s.length ≤ i
  · have e : byteAt s i = 0 := by
      simp [byteAt, List.getD_eq_getElem?_getD, List.getElem?_eq_none h]
    simp [h, e]
  · simp [h]

theorem digitAt_drop (s : Bytes) (n i : Nat) : digitAt (s.drop n) i = digitAt s (n + i) := by
  unfold digitAt
  rw [byteAt_drop]

theorem dropWhile_digitRun (l : Bytes) : l.dropWhile isDigitByte = l.drop (digitRun l) := by
  induction l with
  | nil => rfl
  | cons c cs ih =>
    unfold digitRun
    by_cases h : 48 ≤ c ∧ c ≤ 57
    · have e : isDigitByte c = true := by simp [isDigitByte, h.1, h.2]
      simp only [List.dropWhile_cons, e, if_true, h, and_self, List.drop_succ_cons, ih]
    · have e : isDigitByte c = false := by
        simp only [isDigitByte, Bool.and_eq_false_iff, decide_eq_false_iff_not]
        by_contra hc
        push_neg at hc
        exact h ⟨by omega, by omega⟩
      simp [List.dropWhile_cons, e, h]

theorem drop_fracEnd (v : Bytes) : (v.drop 2).dropWhile isDigitByte = v.drop (fracEnd v) := by
  rw [dropWhile_digitRun, List.drop_drop]
  unfold fracEnd
  rw [Nat.add_comm]

theorem parseUintDigits_some (v : Bytes) : ∀ (x y : Int), parseUintDigits v x = some y →
    ∀ c ∈ v, isDigitByte c = true := by
  induction v with
  | nil => intro x y _ c hc; simp at hc
  | cons a rest ih =>
    intro x y h c hc
    unfold parseUintDigits at h
    split_ifs at h with h1
    rcases List.mem_cons.mp hc with e | e
    · rw [e]
      simp only [isDigitByte, Bool.and_eq_true, decide_eq_true_eq]
      omega
    · exact ih _ _ h c e

theorem parseUint_ok (v : Bytes) (lo hi : Int) (h : (parseUint v lo hi).2 = true) :
    ∀ c ∈ v, isDigitByte c = true := by
  unfold parseUint at h
  cases hp : parseUintDigits v 0 with
  | none => rw [hp] at h; simp at h
  | some y => exact parseUintDigits_some v 0 y hp

theorem byteAt_mem_slice (s : Bytes) (i j k : Nat) (hj : j ≤ s.length) (h1 : i ≤ k) (h2 : k < j) :
    byteAt s k ∈ slice s i j := by
  unfold slice byteAt
  rw [List.mem_iff_getElem]
  refine ⟨k - i, by simp; omega, ?_⟩
  have hk : k < s.length := by omega
  simp only [List.getElem_take, List.getElem_drop, List.getD_eq_getElem?_getD,
    List.getElem?_eq_getElem hk, Option.getD_some]
  congr 1
  omega

theorem slice_digitAt (s : Bytes) (i j : Nat) (hj : j ≤ s.length)
    (h : ∀ c ∈ slice s i j, isDigitByte c = true) (k : Nat) (h1 : i ≤ k) (h2 : k < j) :
    digitAt s k = true :=
  h _ (byteAt_mem_slice s i j k hj h1 h2)

theorem zoneShape_head (z : Bytes) (h : zoneShape z = true) :
    byteAt z 0 = 90 ∨ byteAt z 0 = 43 ∨ byteAt z 0 = 45 := by
  unfold zoneShape at h
  simp only [Bool.or_eq_true, Bool.and_eq_true, beq_iff_eq] at h
  rcases h with h | h
  · exact Or.inl h.2
  · rcases h.1.1.1.1.1.2 with e | e
    · exact Or.inr (Or.inl e)
    · exact Or.inr (Or.inr e)

theorem lenientFracZone_of_zone (v : Bytes) (h : zoneShape v = true) :
    lenientFracZone v = true := by
  unfold lenientFracZone
  split_ifs with hc
  · simp only [Bool.and_eq_true, Bool.or_eq_true, beq_iff_eq] at hc
    have := zoneShape_head v h
    omega
  · exact h

theorem fast_zone_shape {α : Type} (z : Bytes) (X Y : Option α) (t : α)
    (h : (if z.length ≠ 1 ∨ byteAt z 0 ≠ 90 then
        if z.length ≠ 6 then none
        else
          if (!((parseUint (slice z 1 3) 0 23).2 && (parseUint (slice z 4 6) 0 59).2) ||
              !((byteAt z 0 == 45 || byteAt z 0 == 43) && byteAt z 3 == 58)) = true then none
          else X
      else Y) = some t) : zoneShape z = true := by
  unfold zoneShape
  by_cases h1 : z.length ≠ 1 ∨ byteAt z 0 ≠ 90
  · rw [if_pos h1] at h
    by_cases h6 : z.length ≠ 6
    · rw [if_pos h6] at h
      exact absurd h (by simp)
    · rw [if_neg h6] at h
      push_neg at h6
      split at h
      · exact absurd h (by simp)
      · rename_i hc
        simp only [Bool.or_eq_true, Bool.not_eq_true', Bool.and_eq_false_iff, not_or,
          Bool.not_eq_false, Bool.and_eq_true, Bool.or_eq_true, beq_iff_eq] at hc
        obtain ⟨⟨o1, o2⟩, hsg, hcol⟩ := hc
        have d1 := parseUint_ok _ _ _ o1
        have d2 := parseUint_ok _ _ _ o2
        have a1 := slice_digitAt z 1 3 (by omega) d1 1 (by omega) (by omega)
        have a2 := slice_digitAt z 1 3 (by omega) d1 2 (by omega) (by omega)
        have a4 := slice_digitAt z 4 6 (by omega) d2 4 (by omega) (by omega)
        have a5 := slice_digitAt z 4 6 (by omega) d2 5 (by omega) (by omega)
        have hs : byteAt z 0 = 43 ∨ byteAt z 0 = 45 := by omega
        simp [h6, a1, a2, a4, a5, hcol, hs]
  · push_neg at h1
    simp [h1.1, h1.2]

theorem fast_lenient (env : Env) (s : Bytes) (t : Time) (h : parseRFC3339 env s = some t) :
    lenientShape s = true := by
  unfold parseRFC3339 at h
  split at h
  · exact absurd h (by simp)
  rename_i hlen
  simp only [] at h
  split at h
  · exact absurd h (by simp)
  rename_i hc
  simp only [Bool.or_eq_true, Bool.not_eq_true', Bool.and_eq_false_iff, not_or,
    Bool.not_eq_false, Bool.and_eq_true, beq_iff_eq] at hc
  obtain ⟨⟨⟨⟨⟨⟨o1, o2⟩, o3⟩, o4⟩, o5⟩, o6⟩, ⟨⟨⟨⟨c4, c7⟩, c10⟩, c13⟩, c16⟩⟩ := hc
  have d1 := parseUint_ok _ _ _ o1
  have d2 := parseUint_ok _ _ _ o2
  have d3 := parseUint_ok _ _ _ o3
  have d4 := parseUint_ok _ _ _ o4
  have d5 := parseUint_ok _ _ _ o5
  have d6 := parseUint_ok _ _ _ o6
  have a0 := slice_digitAt s 0 4 (by omega) d1 0 (by omega) (by omega)
  have a1 := slice_digitAt s 0 4 (by omega) d1 1 (by omega) (by omega)
  have a2 := slice_digitAt s 0 4 (by omega) d1 2 (by omega) (by omega)
  have a3 := slice_digitAt s 0 4 (by omega) d1 3 (by omega) (by omega)
  have a5 := slice_digitAt s 5 7 (by omega) d2 5 (by omega) (by omega)
  have a6 := slice_digitAt s 5 7 (by omega) d2 6 (by omega) (by omega)
  have a8 := slice_digitAt s 8 10 (by omega) d3 8 (by omega) (by omega)
  have a9 := slice_digitAt s 8 10 (by omega) d3 9 (by omega) (by omega)
  have a11 := slice_digitAt s 11 13 (by omega) d4 11 (by omega) (by omega)
  have a12 := slice_digitAt s 11 13 (by omega) d4 12 (by omega) (by omega)
  have a14 := slice_digitAt s 14 16 (by omega) d5 14 (by omega) (by omega)
  have a15 := slice_digitAt s 14 16 (by omega) d5 15 (by omega) (by omega)
  have a17 := slice_digitAt s 17 19 (by omega) d6 17 (by omega) (by omega)
  have a18 := slice_digitAt s 17 19 (by omega) d6 18 (by omega) (by omega)
  have hfz : lenientFracZone (s.drop 19) = true := by
    by_cases hf : (decide ((List.drop 19 s).length ≥ 2) && byteAt (List.drop 19 s) 0 == 46 &&
        isDigit (List.drop 19 s) 1) = true
    · simp only [hf, if_true] at h
      have hz := fast_zone_shape _ _ _ _ h
      simp only [Bool.and_eq_true, decide_eq_true_eq, beq_iff_eq] at hf
      unfold lenientFracZone
      rw [← isDigit_digitAt, hf.2, hf.1.2, drop_fracEnd]
      simpa using hz
    · simp only [hf, Bool.false_eq_true, if_false] at h
      exact lenientFracZone_of_zone _ (fast_zone_shape _ _ _ _ h)
  unfold lenientShape dateShape minSecShape
  simp only [a12, if_true, digitAt_drop, byteAt_drop, List.drop_drop]
  simp [a0, a1, a2, a3, a5, a6, a8, a9, a11, a14, a15, a17, a18, c4, c7, c10, c13, c16, hfz]

theorem leadingInt_all (v : Bytes) : ∀ (x : Nat), (leadingInt v x).2.1 = [] →
    (leadingInt v x).2.2 = false → ∀ c ∈ v, isDigitByte c = true := by
  induction v with
  | nil => intro x _ _ c hc; simp at hc
  | cons a rest ih =>
    intro x h1 h2 c hc
    unfold leadingInt at h1 h2
    simp only [] at h1 h2
    split_ifs at h1 h2 with g1 g2 g3
    rcases List.mem_cons.mp hc with e | e
    · rw [e]
      simp only [isDigitByte, Bool.and_eq_true, decide_eq_true_eq]
      omega
    · exact ih _ h1 h2 c e

theorem atoi_all (v : Bytes) (h0 : digitAt v 0 = true) (h : (atoi v).2 = false) :
    ∀ c ∈ v, isDigitByte c = true := by
  unfold atoi at h
  have hsign : (decide (0 < v.length) && (byteAt v 0 == 45 || byteAt v 0 == 43)) = false := by
    simp only [digitAt, isDigitByte, Bool.and_eq_true, decide_eq_true_eq] at h0
    have e1 : (byteAt v 0 == 45) = false := by simp; omega
    have e2 : (byteAt v 0 == 43) = false := by simp; omega
    simp [e1, e2]
  simp only [hsign, Bool.false_eq_true, if_false] at h
  have key : (leadingInt v 0).2.2 = false ∧ (leadingInt v 0).2.1 = [] := by
    by_contra hc
    rw [not_and_or] at hc
    rcases hc with hc | hc
    · have e : (leadingInt v 0).2.2 = true := by simpa using hc
      simp [e] at h
    · have e : 0 < (leadingInt v 0).2.1.length := List.length_pos.mpr hc
      simp [e] at h
  exact leadingInt_all v 0 key.2 key.1

theorem parseStd_year_digits (next : Option Std) (st : ParseState)
    (h : (parseStd .stdLongYear next st).err = false) :
    digitAt st.value 0 = true ∧ digitAt st.value 1 = true ∧ digitAt st.value 2 = true ∧
    digitAt st.value 3 = true := by
  obtain ⟨hl, ha, -⟩ := parseStd_year next st h
  have h0 : digitAt st.value 0 = true := by
    unfold parseStd at h
    simp only [] at h
    split_ifs at h with h1
    · have h1b : 4 ≤ List.length st.value ∧ isDigit st.value 0 = true := by simpa using h1
      rw [← isDigit_digitAt]
      exact h1b.2
  have hs0 : digitAt (slice st.value 0 4) 0 = true := by
    have : byteAt (slice st.value 0 4) 0 = byteAt st.value 0 := by
      unfold slice
      simp only [List.drop_zero, byteAt, List.getD_eq_getElem?_getD]
      rw [List.getElem?_take_of_lt (by omega)]
    unfold digitAt at h0 ⊢
    rw [this]; exact h0
  have hall := atoi_all _ hs0 ha
  exact ⟨h0, slice_digitAt _ 0 4 hl hall 1 (by omega) (by omega),
    slice_digitAt _ 0 4 hl hall 2 (by omega) (by omega),
    slice_digitAt _ 0 4 hl hall 3 (by omega) (by omega)⟩

theorem parseStd_second_value (st : ParseState)
    (h : (parseStd .stdZeroSecond (some .stdISO8601ColonTZ) st).err = false)
    (hr : (parseStd .stdZeroSecond (some .stdISO8601ColonTZ) st).rangeErrString = []) :
    (parseStd .stdZeroSecond (some .stdISO8601ColonTZ) st).st.value =
      if (decide ((getnum st.value true).2.1.length ≥ 2) &&
          commaOrPeriod (byteAt (getnum st.value true).2.1 0) &&
          isDigit (getnum st.value true).2.1 1) = true then
        (getnum st.value true).2.1.drop (fracEnd (getnum st.value true).2.1)
      else (getnum st.value true).2.1 := by
  have hn : ¬ ((some Std.stdISO8601ColonTZ : Option Std) = some .stdFracSecond0 ∨
      (some Std.stdISO8601ColonTZ : Option Std) = some .stdFracSecond9) := by decide
  unfold parseStd at h hr ⊢
  simp only [hn, if_false] at h hr ⊢
  split_ifs at h hr ⊢ with h1 h2 h3
  all_goals first
    | exact absurd (show str "second" = [] from hr) (by decide)
    | rfl

theorem getnum_slice_digits (v : Bytes) (i : Nat) (_hl : i + 2 ≤ v.length)
    (h : (getnum (slice v i (i + 2)) true).2.2 = false) :
    digitAt v i = true ∧ digitAt v (i + 1) = true := by
  obtain ⟨h0, h1, -⟩ := getnum_fixed_ok _ h
  rw [isDigit_digitAt] at h0 h1
  have e : slice v i (i + 2) = (v.drop i).take 2 := by
    unfold slice
    congr 1
    omega
  have b0 : byteAt (slice v i (i + 2)) 0 = byteAt v i := by
    rw [e]
    simp only [byteAt, List.getD_eq_getElem?_getD]
    rw [List.getElem?_take_of_lt (by omega), List.getElem?_drop]
    rfl
  have b1 : byteAt (slice v i (i + 2)) 1 = byteAt v (i + 1) := by
    rw [e]
    simp only [byteAt, List.getD_eq_getElem?_getD]
    rw [List.getElem?_take_of_lt (by omega), List.getElem?_drop]
  unfold digitAt at h0 h1 ⊢
  rw [b0] at h0
  rw [b1] at h1
  exact ⟨h0, h1⟩

theorem parseStd_zone_shape (next : Option Std) (st : ParseState)
    (h : (parseStd .stdISO8601ColonTZ next st).err = false)
    (hv : (parseStd .stdISO8601ColonTZ next st).st.value = []) :
    zoneShape st.value = true := by
  unfold zoneShape
  unfold parseStd at h hv
  by_cases h1 : (decide (st.value.length ≥ 1) && byteAt st.value 0 == 90) = true
  · simp only [h1, if_true] at h hv
    simp only [Bool.and_eq_true, decide_eq_true_eq, beq_iff_eq] at h1
    have hl : st.value.length = 1 := by
      have := congrArg List.length hv
      simp at this
      omega
    simp [hl, h1.2]
  · by_cases h2 : st.value.length < 6
    · simp [h1, h2] at h
    · by_cases h3 : byteAt st.value 3 ≠ 58
      · simp [h1, h2, h3] at h
      · simp only [h1, h2, h3, if_false, Bool.false_eq_true] at h hv
        have hl : st.value.length = 6 := by
          have := congrArg List.length hv
          simp at this
          omega
        have h58 : byteAt st.value 3 = 58 := by simpa using h3
        have hsg : byteAt st.value 0 = 43 ∨ byteAt st.value 0 = 45 := by
          by_contra hc
          push_neg at hc
          simp [hc.1, hc.2] at h
        have e1 : (getnum (slice st.value 1 3) true).2.2 = false := by
          by_contra hc
          have e : (getnum (slice st.value 1 3) true).2.2 = true := by simpa using hc
          rcases hsg with g | g <;> simp [e, g] at h
        have e2 : (getnum (slice st.value 4 6) true).2.2 = false := by
          by_contra hc
          have e : (getnum (slice st.value 4 6) true).2.2 = true := by simpa using hc
          rcases hsg with g | g <;> simp [e1, e, g] at h
        obtain ⟨a1, a2⟩ := getnum_slice_digits st.value 1 (by omega) e1
        obtain ⟨a4, a5⟩ := getnum_slice_digits st.value 4 (by omega) e2
        simp [hl, h58, hsg, a1, a2, a4, a5]

theorem lenientFracZone_of_code (w : Bytes)
    (hz : zoneShape (if (decide (w.length ≥ 2) && commaOrPeriod (byteAt w 0) && isDigit w 1) = true
      then w.drop (fracEnd w) else w) = true) : lenientFracZone w = true := by
  by_cases hc : (decide (w.length ≥ 2) && commaOrPeriod (byteAt w 0) && isDigit w 1) = true
  · rw [if_pos hc] at hz
    simp only [Bool.and_eq_true, decide_eq_true_eq, commaOrPeriod, Bool.or_eq_true,
      beq_iff_eq] at hc
    unfold lenientFracZone
    have e : ((byteAt w 0 == 46 || byteAt w 0 == 44) && digitAt w 1) = true := by
      rw [← isDigit_digitAt, hc.2]
      simp only [Bool.and_true, Bool.or_eq_true, beq_iff_eq]
      exact hc.1.2
    rw [if_pos e, drop_fracEnd]
    exact hz
  · rw [if_neg hc] at hz
    exact lenientFracZone_of_zone w hz

theorem tail_lenient (L v : Bytes) (σ st : ParseState)
    (h : parseChunks L v
      [{ lit := [58], std := .stdZeroMinute, stdstr := str "04" },
       { lit := [58], std := .stdZeroSecond, stdstr := str "05" },
       { lit := [], std := .stdISO8601ColonTZ, stdstr := str "Z07:00" }] σ = .ok st) :
    minSecShape lenientFracZone σ.value = true := by
  -- minute
  obtain ⟨k5, r5, e5, h⟩ := step_ok _ _ _ _ _ _ _ _ h
  dsimp only [List.length_singleton] at k5 r5 e5 h
  obtain ⟨-, b5, v5⟩ := skip_single_ok _ 58 (by decide) k5
  rw [v5] at r5 e5 h
  obtain ⟨g5, -, s5⟩ := parseStd_minute _ _ e5 r5
  dsimp only at g5 s5
  obtain ⟨d50, d51, n5⟩ := getnum_fixed_ok _ g5
  have n5b := getnum2 _ d50 d51 true
  rw [s5, n5b] at h
  dsimp only at h
  rw [List.drop_drop] at h
  clear e5 r5 s5 k5 v5 g5 n5 n5b
  -- second
  obtain ⟨k6, r6, e6, h⟩ := step_ok _ _ _ _ _ _ _ _ h
  dsimp only [List.length_singleton, List.head?, Option.map] at k6 r6 e6 h
  obtain ⟨-, b6, v6⟩ := skip_single_ok _ 58 (by decide) k6
  rw [v6, List.drop_drop] at r6 e6 h
  obtain ⟨g6, -⟩ := parseStd_second _ _ e6 r6
  dsimp only at g6
  obtain ⟨d60, d61, n6⟩ := getnum_fixed_ok _ g6
  have n6b := getnum2 _ d60 d61 true
  have hval := parseStd_second_value _ e6 r6
  dsimp only at hval
  rw [n6b] at hval
  dsimp only at hval
  -- zone
  obtain ⟨_, _, e7, h⟩ := step_ok _ _ _ _ _ _ _ _ h
  dsimp only [skip_zero, List.length_nil] at e7 h
  obtain ⟨hv, -⟩ := parseChunks_nil_ok _ _ _ _ h
  have hz := parseStd_zone_shape _ _ e7 hv
  rw [hval] at hz
  have hfz := lenientFracZone_of_code _ hz
  rw [List.drop_drop] at hfz
  rw [isDigit_drop, isDigit_digitAt] at d50 d51 d60 d61
  rw [byteAt_drop] at b6
  unfold minSecShape
  have e6 : (2 + (1 + (2 + 1)) : Nat) = 6 := rfl
  rw [e6] at hfz
  simp only [Bool.and_eq_true, beq_iff_eq]
  exact ⟨⟨⟨⟨⟨⟨b5, d50⟩, d51⟩, b6⟩, d60⟩, d61⟩, hfz⟩

theorem generic_lenient (s : Bytes) (st : ParseState)
    (h : parseChunks RFC3339 s rfc3339Chunks { value := s } = .ok st) :
    lenientShape s = true := by
  unfold rfc3339Chunks at h
  rw [str_dash, str_T, str_colon] at h
  -- year
  obtain ⟨_, _, e1, h⟩ := step_ok _ _ _ _ _ _ _ _ h
  dsimp only [skip_zero, List.length_nil] at e1 h
  obtain ⟨y0, y1, y2, y3⟩ := parseStd_year_digits _ _ e1
  obtain ⟨l1, a1, s1⟩ := parseStd_year _ _ e1
  rw [s1] at h
  dsimp only at h l1 y0 y1 y2 y3
  clear e1 s1
  -- month
  obtain ⟨k2, r2, e2, h⟩ := step_ok _ _ _ _ _ _ _ _ h
  dsimp only [List.length_singleton] at k2 r2 e2 h
  obtain ⟨-, b2, v2⟩ := skip_single_ok _ 45 (by decide) k2
  rw [v2, List.drop_drop] at r2 e2 h
  obtain ⟨g2, -, -, s2⟩ := parseStd_month _ _ e2 r2
  dsimp only at g2 s2
  obtain ⟨d20, d21, n2⟩ := getnum_fixed_ok _ g2
  have n2b := getnum2 _ d20 d21 true
  rw [s2, n2b] at h
  dsimp only at h
  rw [List.drop_drop] at h
  clear e2 r2 s2 k2 v2 g2 n2 n2b
  -- day
  obtain ⟨k3, r3, e3, h⟩ := step_ok _ _ _ _ _ _ _ _ h
  dsimp only [List.length_singleton] at k3 r3 e3 h
  obtain ⟨-, b3, v3⟩ := skip_single_ok _ 45 (by decide) k3
  rw [v3, List.drop_drop] at r3 e3 h
  obtain ⟨g3, s3⟩ := parseStd_day _ _ e3
  dsimp only at g3 s3
  obtain ⟨d30, d31, n3⟩ := getnum_fixed_ok _ g3
  have n3b := getnum2 _ d30 d31 true
  rw [s3, n3b] at h
  dsimp only at h
  rw [List.drop_drop] at h
  clear e3 r3 s3 k3 v3 g3 n3 n3b
  -- hour
  obtain ⟨k4, r4, e4, h⟩ := step_ok _ _ _ _ _ _ _ _ h
  dsimp only [List.length_singleton] at k4 r4 e4 h
  obtain ⟨-, b4, v4⟩ := skip_single_ok _ 84 (by decide) k4
  rw [v4, List.drop_drop] at r4 e4 h
  obtain ⟨g4, -, s4⟩ := parseStd_hour _ _ e4 r4
  dsimp only at g4 s4
  rw [s4] at h
  have ht := tail_lenient _ _ _ _ h
  dsimp only at ht
  obtain ⟨d40, hcase⟩ := getnum_free_ok _ g4
  rw [byteAt_drop] at b2 b3 b4
  rw [isDigit_drop, isDigit_digitAt] at d20 d21 d30 d31 d40
  have e11 : (1 + (2 + (1 + (2 + (1 + 4)))) : Nat) = 11 := rfl
  have e8 : (1 + (2 + (1 + 4)) : Nat) = 8 := rfl
  have e5 : (1 + 4 : Nat) = 5 := rfl
  have e7 : (2 + (1 + 4) : Nat) = 7 := rfl
  have e10 : (2 + (1 + (2 + (1 + 4))) : Nat) = 10 := rfl
  rw [e11] at d40 hcase ht
  rw [e8] at d30 d31
  rw [e5] at d20 d21
  rw [e7] at b3
  rw [e10] at b4
  have hrest : minSecShape lenientFracZone (s.drop (if digitAt s 12 then 13 else 12)) = true := by
    rcases hcase with ⟨c1, c2⟩ | ⟨c1, c2⟩
    · rw [isDigit_drop, isDigit_digitAt] at c1
      rw [c2] at ht
      dsimp only at ht
      rw [List.drop_drop] at ht
      rw [c1, if_pos rfl]
      exact ht
    · rw [isDigit_drop, isDigit_digitAt] at c1
      rw [c2] at ht
      dsimp only at ht
      rw [List.drop_drop] at ht
      rw [c1]
      exact ht
  unfold lenientShape dateShape
  simp only [Bool.and_eq_true, beq_iff_eq]
  exact ⟨⟨⟨⟨⟨⟨⟨⟨⟨⟨⟨⟨y0, y1⟩, y2⟩, y3⟩, b2⟩, d20⟩, d21⟩, b3⟩, d30⟩, d31⟩, b4⟩, d40⟩, hrest⟩

theorem Parse_ok_lenient (env : Env) (s : Bytes) (t : Time) (h : Parse env s = .ok t) :
    lenientShape s = true := by
  unfold Parse at h
  cases hp : parseRFC3339 env s with
  | some u => exact fast_lenient env s u hp
  | none =>
    rw [hp] at h
    obtain ⟨st, hst, -, -⟩ := parse_ok_chunks env s t h
    exact generic_lenient s st hst

theorem strictFracZone_lenient (v : Bytes) (h : strictFracZone v = true) :
    lenientFracZone v = true := by
  unfold strictFracZone at h
  split_ifs at h with hc
  · simp only [Bool.and_eq_true, beq_iff_eq] at hc
    unfold lenientFracZone
    have e : ((byteAt v 0 == 46 || byteAt v 0 == 44) && digitAt v 1) = true := by
      simp [hc.1, hc.2]
    rw [if_pos e]
    exact h
  · exact lenientFracZone_of_zone v h

theorem strictShape_lenient (s : Bytes) (h : strictShape s = true) : lenientShape s = true := by
  unfold strictShape at h
  simp only [Bool.and_eq_true] at h
  obtain ⟨⟨h1, h2⟩, h3⟩ := h
  unfold minSecShape at h3
  simp only [Bool.and_eq_true] at h3
  unfold lenientShape minSecShape
  rw [h2, if_pos rfl]
  simp only [Bool.and_eq_true]
  exact ⟨h1, h3.1, strictFracZone_lenient _ h3.2⟩

theorem reject_of_parse_error (env : Env) (s : Bytes) (err : ParseError)
    (herr : Parse env s = .error err) :
    (∃ e, unix_timestamp env s = { Error := some e, Result := none }) ∧
    (∃ e, parse_rfc3339 env s = { Error := some e, Result := none }) ∧
    (∀ format, ∃ e, strftime env format s = { Error := some e, Result := none }) ∧
    (∀ other, ∃ e, days_difference env s other = { Error := some e, Result := none }) ∧
    (∀ other, ∃ e, days_difference env other s = { Error := some e, Result := none }) := by
  refine ⟨⟨_, by simp only [unix_timestamp, herr]; rfl⟩, ⟨_, by simp only [parse_rfc3339, herr]; rfl⟩,
    fun format => ⟨_, by simp only [strftime, herr]; rfl⟩,
    fun other => ⟨_, by simp only [days_difference, herr]; rfl⟩, fun other => ?_⟩
  cases ho : Parse env other with
  | error e => exact ⟨_, by simp only [days_difference, ho]; rfl⟩
  | ok t => exact ⟨_, by simp only [days_difference, ho, herr]; rfl⟩

set_option maxRecDepth 100000 in
/-- C11, counterexample: the text 2024-01-15T1:30:00Z has a single-digit hour and the text
2024-01-15T10:30:00,5Z has a comma before the fraction; neither conforms to the profile, and
unix_timestamp returns a result for both. -/
theorem lenient_texts_accepted :
    strictShape (str "2024-01-15T1:30:00Z") = false ∧
    unix_timestamp envUTC (str "2024-01-15T1:30:00Z") = { Result := some (str "1705282200") } ∧
    strictShape (str "2024-01-15T10:30:00,5Z") = false ∧
    unix_timestamp envUTC (str "2024-01-15T10:30:00,5Z") =
      { Result := some (str "1705314600") } := by
  decide

/-- C11, amended: a text is accepted only if it has a 4-digit year, 2-digit month and day,
an hour of one or two digits, 2-digit minute and second, separated by hyphens, T and colons,
an optional fraction introduced by a period or a comma, and then Z or an offset +HH:MM or
-HH:MM, with nothing following; on every other text each of the four operations returns an
error and no result. -/
theorem lenient_profile_enforced (env : Env) (s : Bytes) (h : lenientShape s = false) :
    (∃ e, unix_timestamp env s = { Error := some e, Result := none }) ∧
    (∃ e, parse_rfc3339 env s = { Error := some e, Result := none }) ∧
    (∀ format, ∃ e, strftime env format s = { Error := some e, Result := none }) ∧
    (∀ other, ∃ e, days_difference env s other = { Error := some e, Result := none }) ∧
    (∀ other, ∃ e, days_difference env other s = { Error := some e, Result := none }) := by
  obtain ⟨err, herr⟩ := error_of_not_ok (Parse env s) (fun t ht => by
    rw [Parse_ok_lenient env s t ht] at h
    exact absurd h (by decide))
  exact reject_of_parse_error env s err herr

set_option maxRecDepth 100000 in
/-- Witness for C11: a text with trailing characters, a text with a space for T and a text
with a one-digit minute are rejected. -/
theorem lenient_profile_enforced_witness :
    (∃ e, unix_timestamp envUTC (str "2024-01-15T10:30:00Zx") =
      { Error := some e, Result := none }) ∧
    (∃ e, parse_rfc3339 envUTC (str "2024-01-15 10:30:00Z") =
      { Error := some e, Result := none }) ∧
    (∃ e, strftime envUTC (str "%Y") (str "2024-01-15T10:3:00Z") =
      { Error := some e, Result := none }) :=
  ⟨(lenient_profile_enforced envUTC (str "2024-01-15T10:30:00Zx") (by decide)).1,
   (lenient_profile_enforced envUTC (str "2024-01-15 10:30:00Z") (by decide)).2.1,
   (lenient_profile_enforced envUTC (str "2024-01-15T10:3:00Z") (by decide)).2.2.1 _⟩

/-! ## Epoch seconds with fractions, far-apart timestamps, and the two epoch outputs -/

/-- C12: for a valid RFC 3339 timestamp, unix_timestamp returns the decimal text of the
whole seconds from 1970-01-01T00:00:00Z to the instant, the sub-second part dropped (the
floor of the exact elapsed time); the timestamp without its fractional part gives the
same output; and before the epoch the text is a minus sign followed by the digits of the
magnitude. -/
theorem unix_timestamp_whole_seconds (env : Env) (st : Stamp) (hv : st.Valid) :
    unix_timestamp env st.text = { Result := some (Itoa st.epochSeconds) } ∧
    st.epochSeconds = (st.epochSeconds * 1000000000 + (fracNanos st.frac : Int)) / 1000000000 ∧
    unix_timestamp env ({ st with frac := [] } : Stamp).text = unix_timestamp env st.text ∧
    (st.epochSeconds < 0 →
      unix_timestamp env st.text =
        { Result := some (45 :: formatUint (-st.epochSeconds).toNat) }) := by
  have h1 := unix_timestamp_text env st hv
  have hv2 : ({ st with frac := [] } : Stamp).Valid := by
    obtain ⟨a1, a2, a3, a4, a5, a6, a7, a8, -, a10⟩ := hv
    exact ⟨a1, a2, a3, a4, a5, a6, a7, a8, by simp, a10⟩
  have h2 := unix_timestamp_text env _ hv2
  have hf := fracNanos_lt st.frac hv.2.2.2.2.2.2.2.2.1
  refine ⟨h1, ?_, ?_, ?_⟩
  · omega
  · rw [h1, h2]
    rfl
  · intro hneg
    rw [h1]
    simp only [Itoa, hneg, if_true]

set_option maxRecDepth 100000 in
/-- Witness for C12: 1969-12-31T23:59:59Z gives -1, with and without a fraction, and
2024-01-15T10:30:00.999Z gives 1705314600. -/
theorem unix_timestamp_whole_seconds_witness :
    unix_timestamp envUTC (str "1969-12-31T23:59:59Z") = { Result := some (str "-1") } ∧
    unix_timestamp envUTC (str "1969-12-31T23:59:59.5Z") = { Result := some (str "-1") } ∧
    unix_timestamp envUTC (str "2024-01-15T10:30:00.999Z") =
      { Result := some (str "1705314600") } := by
  have h1 := (unix_timestamp_whole_seconds envUTC ⟨1969, 12, 31, 23, 59, 59, [], .utc⟩
    (by decide)).1
  have h2 := (unix_timestamp_whole_seconds envUTC ⟨1969, 12, 31, 23, 59, 59, [5], .utc⟩
    (by decide)).1
  have h3 := (unix_timestamp_whole_seconds envUTC ⟨2024, 1, 15, 10, 30, 0, [9, 9, 9], .utc⟩
    (by decide)).1
  have e1 : (⟨1969, 12, 31, 23, 59, 59, [], .utc⟩ : Stamp).text = str "1969-12-31T23:59:59Z" := by
    decide
  have e2 : (⟨1969, 12, 31, 23, 59, 59, [5], .utc⟩ : Stamp).text =
      str "1969-12-31T23:59:59.5Z" := by decide
  have e3 : (⟨2024, 1, 15, 10, 30, 0, [9, 9, 9], .utc⟩ : Stamp).text =
      str "2024-01-15T10:30:00.999Z" := by decide
  have v1 : Itoa (⟨1969, 12, 31, 23, 59, 59, [], .utc⟩ : Stamp).epochSeconds = str "-1" := by
    rw [epochSeconds_eq]; decide
  have v2 : Itoa (⟨1969, 12, 31, 23, 59, 59, [5], .utc⟩ : Stamp).epochSeconds = str "-1" := by
    rw [epochSeconds_eq]; decide
  have v3 : Itoa (⟨2024, 1, 15, 10, 30, 0, [9, 9, 9], .utc⟩ : Stamp).epochSeconds =
      str "1705314600" := by
    rw [epochSeconds_eq]; decide
  rw [e1, v1] at h1
  rw [e2, v2] at h2
  rw [e3, v3] at h3
  exact ⟨h1, h2, h3⟩

set_option maxRecDepth 100000 in
/-- C13, failing inputs: from 0001-01-01T00:00:00Z to 2024-01-01T00:00:00Z the exact
elapsed time is 738885 days and days_difference returns 106751; from
2024-01-01T00:00:00.000000001Z to 2025-01-01T00:00:00Z the exact elapsed time is one
nanosecond short of 366 days, 365 complete days, and days_difference returns 366. -/
theorem days_difference_inexact :
    Stamp.text ⟨1, 1, 1, 0, 0, 0, [], .utc⟩ = str "0001-01-01T00:00:00Z" ∧
    Stamp.text ⟨2024, 1, 1, 0, 0, 0, [], .utc⟩ = str "2024-01-01T00:00:00Z" ∧
    Int.tdiv (Stamp.elapsedNanos ⟨1, 1, 1, 0, 0, 0, [], .utc⟩ ⟨2024, 1, 1, 0, 0, 0, [], .utc⟩)
      86400000000000 = 738885 ∧
    days_difference envUTC (str "0001-01-01T00:00:00Z") (str "2024-01-01T00:00:00Z") =
      { Result := some (str "106751") } ∧
    Stamp.text ⟨2024, 1, 1, 0, 0, 0, [0, 0, 0, 0, 0, 0, 0, 0, 1], .utc⟩ =
      str "2024-01-01T00:00:00.000000001Z" ∧
    Stamp.text ⟨2025, 1, 1, 0, 0, 0, [], .utc⟩ = str "2025-01-01T00:00:00Z" ∧
    Stamp.elapsedNanos ⟨2024, 1, 1, 0, 0, 0, [0, 0, 0, 0, 0, 0, 0, 0, 1], .utc⟩
      ⟨2025, 1, 1, 0, 0, 0, [], .utc⟩ = 366 * 86400000000000 - 1 ∧
    Int.tdiv (Stamp.elapsedNanos ⟨2024, 1, 1, 0, 0, 0, [0, 0, 0, 0, 0, 0, 0, 0, 1], .utc⟩
      ⟨2025, 1, 1, 0, 0, 0, [], .utc⟩) 86400000000000 = 365 ∧
    days_difference envUTC (str "2024-01-01T00:00:00.000000001Z") (str "2025-01-01T00:00:00Z") =
      { Result := some (str "366") } := by
  refine ⟨by decide, by decide, ?_, by decide, by decide, by decide, ?_, ?_, by decide⟩
  · unfold Stamp.elapsedNanos
    rw [epochSeconds_eq, epochSeconds_eq]
    decide
  · unfold Stamp.elapsedNanos
    rw [epochSeconds_eq, epochSeconds_eq]
    decide
  · unfold Stamp.elapsedNanos
    rw [epochSeconds_eq, epochSeconds_eq]
    decide

/-- C14: parse_rfc3339 and unix_timestamp agree on every text. One returns an error exactly
when the other does, and then with the same message; when they succeed, the unix field of
the record is the output of unix_timestamp. -/
theorem parse_rfc3339_unix_agree (env : Env) (T : Bytes) :
    ((parse_rfc3339 env T).Error ≠ none ↔ (unix_timestamp env T).Error ≠ none) ∧
    ((∃ e, parse_rfc3339 env T = { Error := some e, Result := none } ∧
        unix_timestamp env T = { Error := some e, Result := none }) ∨
     (∃ (u : Bytes) (Y M D h m s W : Int),
        unix_timestamp env T = { Error := none, Result := some u } ∧
        parse_rfc3339 env T = { Error := none, Result := some (
          str "\x7b\"year\":\"" ++ Itoa Y ++
          str "\",\"month\":\"" ++ Itoa M ++
          str "\",\"day\":\"" ++ Itoa D ++
          str "\",\"hour\":\"" ++ Itoa h ++
          str "\",\"minute\":\"" ++ Itoa m ++
          str "\",\"second\":\"" ++ Itoa s ++
          str "\",\"unix\":\"" ++ u ++
          str "\",\"weekday\":\"" ++ Itoa W ++ str "\"\x7d") })) := by
  unfold parse_rfc3339 unix_timestamp
  cases Parse env T with
  | error err =>
    exact ⟨by simp, Or.inl ⟨_, rfl, rfl⟩⟩
  | ok t =>
    exact ⟨by simp, Or.inr ⟨_, t.Year, t.Month, t.Day, t.Hour, t.Minute, t.Second, t.Weekday,
      rfl, rfl⟩⟩

/-! ## Lemmas: Time.Format and the combined appenders of strftime -/

theorem stdAt_elim (l : Bytes) (P : Option StdChunk → Prop) (hnone : P none)
    (hJ : byteAt l 0 = 74 → P (stdCaseJ l)) (hM : byteAt l 0 = 77 → P (stdCaseM l))
    (h0 : byteAt l 0 = 48 → P (stdCase0 l)) (h1 : byteAt l 0 = 49 → P (stdCase1 l))
    (h2 : byteAt l 0 = 50 → P (stdCase2 l)) (hU : byteAt l 0 = 95 → P (stdCaseUnder l))
    (h3 : byteAt l 0 = 51 → P (some { std := .stdHour12, len := 1 }))
    (h4 : byteAt l 0 = 52 → P (some { std := .stdMinute, len := 1 }))
    (h5 : byteAt l 0 = 53 → P (some { std := .stdSecond, len := 1 }))
    (hP : byteAt l 0 = 80 → P (stdCaseP l)) (hp : byteAt l 0 = 112 → P (stdCasep l))
    (hm : byteAt l 0 = 45 → P (stdCaseMinus l)) (hZ : byteAt l 0 = 90 → P (stdCaseZ l))
    (hF : byteAt l 0 = 46 ∨ byteAt l 0 = 44 → P (stdCaseFrac l)) : P (stdAt l) := by
  unfold stdAt
  dsimp only
  by_cases c0 : l.length = 0
  · rw [if_pos c0]; exact hnone
  rw [if_neg c0]
  by_cases c1 : byteAt l 0 = 74
  · rw [if_pos c1]; exact hJ c1
  rw [if_neg c1]
  by_cases c2 : byteAt l 0 = 77
  · rw [if_pos c2]; exact hM c2
  rw [if_neg c2]
  by_cases c3 : byteAt l 0 = 48
  · rw [if_pos c3]; exact h0 c3
  rw [if_neg c3]
  by_cases c4 : byteAt l 0 = 49
  · rw [if_pos c4]; exact h1 c4
  rw [if_neg c4]
  by_cases c5 : byteAt l 0 = 50
  · rw [if_pos c5]; exact h2 c5
  rw [if_neg c5]
  by_cases c6 : byteAt l 0 = 95
  · rw [if_pos c6]; exact hU c6
  rw [if_neg c6]
  by_cases c7 : byteAt l 0 = 51
  · rw [if_pos c7]; exact h3 c7
  rw [if_neg c7]
  by_cases c8 : byteAt l 0 = 52
  · rw [if_pos c8]; exact h4 c8
  rw [if_neg c8]
  by_cases c9 : byteAt l 0 = 53
  · rw [if_pos c9]; exact h5 c9
  rw [if_neg c9]
  by_cases c10 : byteAt l 0 = 80
  · rw [if_pos c10]; exact hP c10
  rw [if_neg c10]
  by_cases c11 : byteAt l 0 = 112
  · rw [if_pos c11]; exact hp c11
  rw [if_neg c11]
  by_cases c12 : byteAt l 0 = 45
  · rw [if_pos c12]; exact hm c12
  rw [if_neg c12]
  by_cases c13 : byteAt l 0 = 90
  · rw [if_pos c13]; exact hZ c13
  rw [if_neg c13]
  by_cases c14 : byteAt l 0 = 46 ∨ byteAt l 0 = 44
  · rw [if_pos c14]; exact hF c14
  rw [if_neg c14]; exact hnone

theorem stdAt_len (l : Bytes) (k : StdChunk) (h : stdAt l = some k) : 1 ≤ k.pre + k.len := by
  revert k
  refine stdAt_elim l (fun r => ∀ k, r = some k → 1 ≤ k.pre + k.len) ?_ ?_ ?_ ?_ ?_ ?_ ?_ ?_
    ?_ ?_ ?_ ?_ ?_ ?_ ?_
  all_goals intro hc
  · intro h; exact absurd h (by simp)
  · intro k h; unfold stdCaseJ at h
    split_ifs at h <;> (have e := Option.some.inj h; subst e; dsimp only; omega)
  · intro k h; unfold stdCaseM at h
    split_ifs at h <;> (have e := Option.some.inj h; subst e; dsimp only; omega)
  · intro k h; unfold stdCase0 at h
    split_ifs at h <;> (have e := Option.some.inj h; subst e; dsimp only; omega)
  · intro k h; unfold stdCase1 at h
    split_ifs at h <;> (have e := Option.some.inj h; subst e; dsimp only; omega)
  · intro k h; unfold stdCase2 at h
    split_ifs at h <;> (have e := Option.some.inj h; subst e; dsimp only; omega)
  · intro k h; unfold stdCaseUnder at h
    split_ifs at h <;> (have e := Option.some.inj h; subst e; dsimp only; omega)
  · intro k h; have e := Option.some.inj h; subst e; dsimp only; omega
  · intro k h; have e := Option.some.inj h; subst e; dsimp only; omega
  · intro k h; have e := Option.some.inj h; subst e; dsimp only; omega
  · intro k h; unfold stdCaseP at h
    split_ifs at h
    have e := Option.some.inj h; subst e; dsimp only; omega
  · intro k h; unfold stdCasep at h
    split_ifs at h
    have e := Option.some.inj h; subst e; dsimp only; omega
  · intro k h; unfold stdCaseMinus at h
    split_ifs at h <;> (have e := Option.some.inj h; subst e; dsimp only; omega)
  · intro k h; unfold stdCaseZ at h
    split_ifs at h <;> (have e := Option.some.inj h; subst e; dsimp only; omega)
  · intro k h; unfold stdCaseFrac at h; dsimp only at h
    split_ifs at h <;> (have e := Option.some.inj h; subst e; dsimp only; omega)

theorem nextStdChunk_cons_none (c : Nat) (rest : Bytes) (h : stdAt (c :: rest) = none) :
    nextStdChunk (c :: rest) =
      (c :: (nextStdChunk rest).1, (nextStdChunk rest).2.1, (nextStdChunk rest).2.2) := by
  rw [nextStdChunk]
  simp only [h]

theorem nextStdChunk_cons_some (c : Nat) (rest : Bytes) (k : StdChunk)
    (h : stdAt (c :: rest) = some k) :
    nextStdChunk (c :: rest) =
      ((c :: rest).take k.pre, some k, (c :: rest).drop (k.pre + k.len)) := by
  rw [nextStdChunk]
  simp only [h]

theorem nextStdChunk_suffix (l : Bytes) : ∀ k, (nextStdChunk l).2.1 = some k →
    (nextStdChunk l).2.2.length < l.length := by
  induction l with
  | nil => intro k h; simp [nextStdChunk] at h
  | cons c rest ih =>
    intro k h
    cases hs : stdAt (c :: rest) with
    | some k2 =>
      have := stdAt_len _ _ hs
      rw [nextStdChunk_cons_some c rest k2 hs]
      simp only [List.length_drop, List.length_cons]
      omega
    | none =>
      rw [nextStdChunk_cons_none c rest hs] at h ⊢
      have := ih k h
      simp only [List.length_cons]
      omega

theorem appendFormat_fuel (t : Time) : ∀ (n : Nat) (l : Bytes) (f g : Nat), l.length ≤ n →
    l.length ≤ f → l.length ≤ g → appendFormat t f l = appendFormat t g l := by
  intro n
  induction n using Nat.strong_induction_on with
  | _ n ih =>
    intro l f g hn hf hg
    cases l with
    | nil => cases f <;> cases g <;> rfl
    | cons c rest =>
      cases f with
      | zero => simp at hf
      | succ f =>
        cases g with
        | zero => simp at hg
        | succ g =>
          unfold appendFormat
          rw [if_neg (by simp), if_neg (by simp)]
          have hsuf := nextStdChunk_suffix (c :: rest)
          rcases hc : nextStdChunk (c :: rest) with ⟨pre, ok, suf⟩
          rw [hc] at hsuf
          cases ok with
          | none => rfl
          | some k =>
            have h1 := hsuf k rfl
            simp only [List.length_cons] at h1 hn hf hg
            simp only []
            rw [ih suf.length (by omega) suf f g (le_refl _) (by omega) (by omega)]

theorem Format_nil (t : Time) : t.Format [] = [] := rfl

theorem Format_eq (t : Time) (l : Bytes) :
    t.Format l =
      match nextStdChunk l with
      | (pre, none, _) => pre
      | (pre, some k, suf) => pre ++ formatStd t k ++ t.Format suf := by
  cases l with
  | nil => rfl
  | cons c rest =>
    have hsuf := nextStdChunk_suffix (c :: rest)
    unfold Time.Format
    show appendFormat t (rest.length + 1) (c :: rest) = _
    conv_lhs => unfold appendFormat
    rw [if_neg (by simp)]
    rcases hc : nextStdChunk (c :: rest) with ⟨pre, ok, suf⟩
    rw [hc] at hsuf
    cases ok with
    | none => rfl
    | some k =>
      have h1 := hsuf k rfl
      simp only [List.length_cons] at h1
      simp only []
      rw [appendFormat_fuel t rest.length suf rest.length suf.length (by omega) (by omega)
        (le_refl _)]

theorem Format_cons_none (t : Time) (c : Nat) (rest : Bytes) (h : stdAt (c :: rest) = none) :
    t.Format (c :: rest) = c :: t.Format rest := by
  rw [Format_eq t (c :: rest), Format_eq t rest, nextStdChunk_cons_none c rest h]
  rcases nextStdChunk rest with ⟨pre, ok, suf⟩
  cases ok <;> rfl

theorem Format_cons_some (t : Time) (c : Nat) (rest : Bytes) (k : StdChunk)
    (h : stdAt (c :: rest) = some k) :
    t.Format (c :: rest) =
      (c :: rest).take k.pre ++ formatStd t k ++ t.Format ((c :: rest).drop (k.pre + k.len)) := by
  rw [Format_eq t (c :: rest), nextStdChunk_cons_some c rest k h]

theorem lookupSpec_directive (d : Directive) :
    lookupSpec d.char = some (.stdlibFormat d.layout) := by
  cases d <;> rfl

theorem str_2006 : str "2006" = [50, 48, 48, 54] := by decide

theorem str_Jan : str "Jan" = [74, 97, 110] := by decide

theorem str_January : str "January" = [74, 97, 110, 117, 97, 114, 121] := by decide

theorem str_Mon : str "Mon" = [77, 111, 110] := by decide

theorem str_Monday : str "Monday" = [77, 111, 110, 100, 97, 121] := by decide

theorem str_MST : str "MST" = [77, 83, 84] := by decide

theorem str_PM : str "PM" = [80, 77] := by decide

theorem str_pm : str "pm" = [112, 109] := by decide

theorem stdAt_piece (d : Directive) (R : Bytes) : stdAt (d.layout ++ R) = some d.elem := by
  cases d
  · show stdAt (str "2006" ++ R) = _
    simp [stdAt, stdCase2, hasPrefix, str_2006, byteAt, Directive.elem]
  · show stdAt ([48, 49] ++ R) = _
    simp [stdAt, stdCase0, byteAt, std0x, Directive.elem]
  · show stdAt ([48, 50] ++ R) = _
    simp [stdAt, stdCase0, byteAt, std0x, Directive.elem]
  · show stdAt ([49, 53] ++ R) = _
    simp [stdAt, stdCase1, byteAt, Directive.elem]
  · show stdAt ([48, 52] ++ R) = _
    simp [stdAt, stdCase0, byteAt, std0x, Directive.elem]
  · show stdAt ([48, 53] ++ R) = _
    simp [stdAt, stdCase0, byteAt, std0x, Directive.elem]
  · show stdAt ([48, 51] ++ R) = _
    simp [stdAt, stdCase0, byteAt, std0x, Directive.elem]
  · show stdAt ([80, 77] ++ R) = _
    simp [stdAt, stdCaseP, byteAt, Directive.elem]
  · show stdAt ([77, 111, 110, 100, 97, 121] ++ R) = _
    simp [stdAt, stdCaseM, hasPrefix, str_Mon, str_Monday, byteAt, Directive.elem]
  · show stdAt ([74, 97, 110, 117, 97, 114, 121] ++ R) = _
    simp [stdAt, stdCaseJ, hasPrefix, str_Jan, str_January, byteAt, Directive.elem]

theorem drop_piece (d : Directive) (R : Bytes) : (d.layout ++ R).drop d.elem.len = R := by
  cases d <;> rfl

theorem Format_elem (t : Time) (l : Bytes) (k : StdChunk) (h : stdAt l = some k)
    (hp : k.pre = 0) : t.Format l = formatStd t k ++ t.Format (l.drop k.len) := by
  cases l with
  | nil => exact absurd h (by simp [stdAt])
  | cons c rest =>
    rw [Format_cons_some t c rest k h, hp]
    simp

theorem Format_piece (env : Env) (st : Stamp) (hv : st.Valid) (d : Directive) (R : Bytes) :
    (st.time env).Format (d.layout ++ R) = d.expand st ++ (st.time env).Format R := by
  obtain ⟨f1, f2, f3, f4, f5, f6, f7, -, -⟩ := time_fields env st hv
  obtain ⟨hy, hm1, hm2, hd1, hd2, hH, hM, hS, hf, hz⟩ := hv
  have hd3 : st.day ≤ 31 := by
    have : monthLength st.year st.month ≤ 31 := by
      unfold monthLength; split_ifs <;> omega
    omega
  cases d with
  | year =>
    rw [Format_elem _ _ _ (stdAt_piece .year R) rfl, drop_piece]
    simp only [formatStd, Directive.elem, f1, Directive.expand]
    rw [appendInt_pad4 _ (by omega)]
  | month =>
    rw [Format_elem _ _ _ (stdAt_piece .month R) rfl, drop_piece]
    simp only [formatStd, Directive.elem, f2, Directive.expand]
    rw [appendInt_pad2 _ (by omega)]
  | day =>
    rw [Format_elem _ _ _ (stdAt_piece .day R) rfl, drop_piece]
    simp only [formatStd, Directive.elem, f3, Directive.expand]
    rw [appendInt_pad2 _ (by omega)]
  | hour =>
    rw [Format_elem _ _ _ (stdAt_piece .hour R) rfl, drop_piece]
    simp only [formatStd, Directive.elem, f4, Directive.expand]
    rw [appendInt_pad2 _ (by omega)]
  | minute =>
    rw [Format_elem _ _ _ (stdAt_piece .minute R) rfl, drop_piece]
    simp only [formatStd, Directive.elem, f5, Directive.expand]
    rw [appendInt_pad2 _ (by omega)]
  | second =>
    rw [Format_elem _ _ _ (stdAt_piece .second R) rfl, drop_piece]
    simp only [formatStd, Directive.elem, f6, Directive.expand]
    rw [appendInt_pad2 _ (by omega)]
  | hour12 =>
    rw [Format_elem _ _ _ (stdAt_piece .hour12 R) rfl, drop_piece]
    simp only [formatStd, Directive.elem, f4, Directive.expand]
    have e : (if Int.tmod (st.hour : Int) 12 = 0 then (12 : Int) else Int.tmod (st.hour : Int) 12) =
        ((if st.hour = 0 ∨ st.hour = 12 then 12 else st.hour % 12 : Nat) : Int) := by
      have h1 : Int.tmod (st.hour : Int) 12 = ((st.hour % 12 : Nat) : Int) := by
        rw [Int.tmod_eq_emod (by omega) (by omega)]; rfl
      rw [h1]
      split_ifs <;> omega
    rw [e, appendInt_pad2 _ (by split_ifs <;> omega)]
  | ampm =>
    rw [Format_elem _ _ _ (stdAt_piece .ampm R) rfl, drop_piece]
    simp only [formatStd, Directive.elem, f4, Directive.expand]
    split_ifs <;> first | rfl | omega
  | weekdayFull =>
    rw [Format_elem _ _ _ (stdAt_piece .weekdayFull R) rfl, drop_piece]
    simp only [formatStd, Directive.elem, f7, Directive.expand]
    have hw : 0 ≤ st.weekday := by unfold Stamp.weekday; omega
    have := weekdayString_name st.weekday.toNat
    rw [Int.toNat_of_nonneg hw] at this
    rw [this]
  | monthFull =>
    rw [Format_elem _ _ _ (stdAt_piece .monthFull R) rfl, drop_piece]
    simp only [formatStd, Directive.elem, f2, Directive.expand]
    rw [monthString_name _ hm1]

theorem isPrefixOf_byteAt (w : Bytes) : ∀ (l : Bytes), w.isPrefixOf l = true →
    ∀ i, i < w.length → byteAt l i = byteAt w i := by
  induction w with
  | nil => intro l _ i hi; simp at hi
  | cons x w ih =>
    intro l h i hi
    cases l with
    | nil => simp [List.isPrefixOf] at h
    | cons y l =>
      simp only [List.isPrefixOf, Bool.and_eq_true, beq_iff_eq] at h
      cases i with
      | zero => simp [byteAt, h.1]
      | succ i =>
        rw [byteAt_succ, byteAt_succ]
        exact ih l h.2 i (by simpa using hi)

theorem hasPrefix_byteAt (l : Bytes) (s : String) (h : hasPrefix l s = true) (i : Nat)
    (hi : i < (str s).length) : byteAt l i = byteAt (str s) i :=
  isPrefixOf_byteAt (str s) l h i hi

theorem stdCaseJ_none (l : Bytes) (h : ¬(byteAt l 1 = 97 ∧ byteAt l 2 = 110)) :
    stdCaseJ l = none := by
  unfold stdCaseJ
  rw [if_neg]
  intro hp
  exact h ⟨hasPrefix_byteAt l "Jan" hp 1 (by decide), hasPrefix_byteAt l "Jan" hp 2 (by decide)⟩

theorem stdCaseM_none (l : Bytes) (h1 : ¬(byteAt l 1 = 111 ∧ byteAt l 2 = 110))
    (h2 : ¬(byteAt l 1 = 83 ∧ byteAt l 2 = 84)) : stdCaseM l = none := by
  unfold stdCaseM
  rw [if_neg, if_neg, if_neg]
  · intro hp
    exact h2 ⟨hasPrefix_byteAt l "MST" hp 1 (by decide), hasPrefix_byteAt l "MST" hp 2 (by decide)⟩
  · intro hp
    exact h1 ⟨hasPrefix_byteAt l "Mon" hp.1 1 (by decide),
      hasPrefix_byteAt l "Mon" hp.1 2 (by decide)⟩
  · intro hp
    exact h1 ⟨hasPrefix_byteAt l "Mon" hp.1 1 (by decide),
      hasPrefix_byteAt l "Mon" hp.1 2 (by decide)⟩

theorem stdCaseUnder_none (l : Bytes) (h1 : byteAt l 1 ≠ 50)
    (h2 : ¬(byteAt l 1 = 95 ∧ byteAt l 2 = 50)) : stdCaseUnder l = none := by
  unfold stdCaseUnder
  rw [if_neg, if_neg]
  · simp only [Bool.and_eq_true, beq_iff_eq, decide_eq_true_eq, not_and]
    intro h3 h4
    exact h2 ⟨h3.2, h4⟩
  · simp only [Bool.and_eq_true, beq_iff_eq, decide_eq_true_eq, not_and]
    intro _ h3
    exact h1 h3

theorem stdCaseP_none (l : Bytes) (h : byteAt l 1 ≠ 77) : stdCaseP l = none := by
  unfold stdCaseP
  rw [if_neg]
  simp only [Bool.and_eq_true, beq_iff_eq, decide_eq_true_eq, not_and]
  intro _ h3
  exact h h3

theorem stdCasep_none (l : Bytes) (h : byteAt l 1 ≠ 109) : stdCasep l = none := by
  unfold stdCasep
  rw [if_neg]
  simp only [Bool.and_eq_true, beq_iff_eq, decide_eq_true_eq, not_and]
  intro _ h3
  exact h h3

theorem stdCaseMinus_none (l : Bytes) (h : ¬(byteAt l 1 = 48 ∧ byteAt l 2 = 55)) :
    stdCaseMinus l = none := by
  unfold stdCaseMinus
  rw [if_neg, if_neg, if_neg, if_neg, if_neg]
  · intro hp
    exact h ⟨hasPrefix_byteAt l _ hp 1 (by decide), hasPrefix_byteAt l _ hp 2 (by decide)⟩
  · intro hp
    exact h ⟨hasPrefix_byteAt l _ hp 1 (by decide), hasPrefix_byteAt l _ hp 2 (by decide)⟩
  · intro hp
    exact h ⟨hasPrefix_byteAt l _ hp 1 (by decide), hasPrefix_byteAt l _ hp 2 (by decide)⟩
  · intro hp
    exact h ⟨hasPrefix_byteAt l _ hp 1 (by decide), hasPrefix_byteAt l _ hp 2 (by decide)⟩
  · intro hp
    exact h ⟨hasPrefix_byteAt l _ hp 1 (by decide), hasPrefix_byteAt l _ hp 2 (by decide)⟩

theorem stdCaseZ_none (l : Bytes) (h : ¬(byteAt l 1 = 48 ∧ byteAt l 2 = 55)) :
    stdCaseZ l = none := by
  unfold stdCaseZ
  rw [if_neg, if_neg, if_neg, if_neg, if_neg]
  · intro hp
    exact h ⟨hasPrefix_byteAt l _ hp 1 (by decide), hasPrefix_byteAt l _ hp 2 (by decide)⟩
  · intro hp
    exact h ⟨hasPrefix_byteAt l _ hp 1 (by decide), hasPrefix_byteAt l _ hp 2 (by decide)⟩
  · intro hp
    exact h ⟨hasPrefix_byteAt l _ hp 1 (by decide), hasPrefix_byteAt l _ hp 2 (by decide)⟩
  · intro hp
    exact h ⟨hasPrefix_byteAt l _ hp 1 (by decide), hasPrefix_byteAt l _ hp 2 (by decide)⟩
  · intro hp
    exact h ⟨hasPrefix_byteAt l _ hp 1 (by decide), hasPrefix_byteAt l _ hp 2 (by decide)⟩

theorem stdCaseFrac_none (l : Bytes)
    (h : (byteAt l 1 ≠ 48 ∧ byteAt l 1 ≠ 57) ∨
      (byteAt l 1 = 48 ∧ 49 ≤ byteAt l 2 ∧ byteAt l 2 ≤ 57)) : stdCaseFrac l = none := by
  unfold stdCaseFrac
  rcases h with ⟨h1, h2⟩ | ⟨h1, h2, h3⟩
  · rw [if_neg]
    simp only [Bool.and_eq_true, Bool.or_eq_true, beq_iff_eq, decide_eq_true_eq, not_and]
    intro _ h4
    rcases h4 with h4 | h4
    · exact h1 h4
    · exact h2 h4
  · rcases l with _ | ⟨c, _ | ⟨a, _ | ⟨b, w⟩⟩⟩
    · simp [byteAt] at h1
    · simp [byteAt] at h1
    · simp [byteAt] at h2
    · simp only [byteAt_succ, byteAt_zero] at h1 h2 h3
      subst h1
      have hb : b ≠ 48 := by omega
      simp [byteAt, sameRun, hb, isDigit, h3]
      omega

theorem stdAt_quiet (c : Nat) (w : Bytes) (hq : Quiet c (byteAt w 0) (byteAt w 1)) :
    stdAt (c :: w) = none := by
  have q0 : c < 48 ∨ 53 < c := hq.1
  have n0 : c ≠ 48 := by omega
  have n1 : c ≠ 49 := by omega
  have n2 : c ≠ 50 := by omega
  have n3 : c ≠ 51 := by omega
  have n4 : c ≠ 52 := by omega
  have n5 : c ≠ 53 := by omega
  obtain ⟨-, qJ, qM, qU, qP, qp, qZ, qF⟩ := hq
  refine stdAt_elim _ (fun r => r = none) rfl ?_ ?_ ?_ ?_ ?_ ?_ ?_ ?_ ?_ ?_ ?_ ?_ ?_ ?_
  · exact fun hc => stdCaseJ_none _ (qJ hc)
  · exact fun hc => stdCaseM_none _ (qM hc).1 (qM hc).2
  · exact fun hc => absurd hc n0
  · exact fun hc => absurd hc n1
  · exact fun hc => absurd hc n2
  · exact fun hc => stdCaseUnder_none _ (qU hc).1 (qU hc).2
  · exact fun hc => absurd hc n3
  · exact fun hc => absurd hc n4
  · exact fun hc => absurd hc n5
  · exact fun hc => stdCaseP_none _ (qP hc)
  · exact fun hc => stdCasep_none _ (qp hc)
  · exact fun hc => stdCaseMinus_none _ (qZ (Or.inl hc))
  · exact fun hc => stdCaseZ_none _ (qZ (Or.inr hc))
  · exact fun hc => stdCaseFrac_none _ (qF hc)

theorem canCombine_cons (c : Nat) (r : Bytes) (h : canCombine (c :: r) = true) :
    (c < 48 ∨ 57 < c) ∧ canCombine r = true ∧
      ∀ w ∈ combineExclusion, w.isPrefixOf (c :: r) = false := by
  unfold canCombine at h ⊢
  simp only [List.any_cons, Bool.not_or, Bool.and_eq_true, Bool.not_eq_true', List.all_eq_true,
    containsText, Bool.or_eq_false_iff, Bool.and_eq_false_iff, decide_eq_false_iff_not] at h ⊢
  obtain ⟨⟨h1, h2⟩, h3⟩ := h
  refine ⟨by omega, ⟨h2, fun w hw => (h3 w hw).2⟩, fun w hw => (h3 w hw).1⟩

theorem canCombine_nodigit (r : Bytes) (h : canCombine r = true) : ∀ c ∈ r, c < 48 ∨ 57 < c := by
  induction r with
  | nil => simp
  | cons x r ih =>
    obtain ⟨h1, h2, -⟩ := canCombine_cons x r h
    intro c hc
    rcases List.mem_cons.mp hc with rfl | hc
    · exact h1
    · exact ih h2 c hc

theorem canCombine_words (c : Nat) (r : Bytes) (h : canCombine (c :: r) = true) :
    List.isPrefixOf [77, 111, 110] (c :: r) = false ∧
    List.isPrefixOf [74, 97, 110] (c :: r) = false ∧
    List.isPrefixOf [77, 83, 84] (c :: r) = false ∧
    List.isPrefixOf [80, 77] (c :: r) = false ∧
    List.isPrefixOf [112, 109] (c :: r) = false := by
  obtain ⟨-, -, hex⟩ := canCombine_cons _ _ h
  have eMon := hex (str "Mon") (by decide)
  have eJan := hex (str "Jan") (by decide)
  have eMST := hex (str "MST") (by decide)
  have ePM := hex (str "PM") (by decide)
  have epm := hex (str "pm") (by decide)
  rw [str_Mon] at eMon
  rw [str_Jan] at eJan
  rw [str_MST] at eMST
  rw [str_PM] at ePM
  rw [str_pm] at epm
  exact ⟨eMon, eJan, eMST, ePM, epm⟩

theorem quiet_in (c a b : Nat) (rest : Bytes) (h : canCombine (c :: a :: b :: rest) = true) :
    Quiet c a b := by
  obtain ⟨hc, h2, -⟩ := canCombine_cons _ _ h
  obtain ⟨ha, h3, -⟩ := canCombine_cons _ _ h2
  obtain ⟨hb, -, -⟩ := canCombine_cons _ _ h3
  obtain ⟨eMon, eJan, eMST, ePM, epm⟩ := canCombine_words _ _ h
  have hMon : ¬(c = 77 ∧ a = 111 ∧ b = 110) := by
    rintro ⟨rfl, rfl, rfl⟩; simp [List.isPrefixOf] at eMon
  have hJan : ¬(c = 74 ∧ a = 97 ∧ b = 110) := by
    rintro ⟨rfl, rfl, rfl⟩; simp [List.isPrefixOf] at eJan
  have hMST : ¬(c = 77 ∧ a = 83 ∧ b = 84) := by
    rintro ⟨rfl, rfl, rfl⟩; simp [List.isPrefixOf] at eMST
  have hPM : ¬(c = 80 ∧ a = 77) := by
    rintro ⟨rfl, rfl⟩; simp [List.isPrefixOf] at ePM
  have hpm : ¬(c = 112 ∧ a = 109) := by
    rintro ⟨rfl, rfl⟩; simp [List.isPrefixOf] at epm
  clear eMon eJan eMST ePM epm h h2 h3
  refine ⟨by omega, ?_, ?_, ?_, ?_, ?_, ?_, ?_⟩
  · exact fun h1 h2 => hJan ⟨h1, h2.1, h2.2⟩
  · exact fun h1 => ⟨fun h2 => hMon ⟨h1, h2.1, h2.2⟩, fun h2 => hMST ⟨h1, h2.1, h2.2⟩⟩
  · exact fun _ => ⟨by omega, by omega⟩
  · exact fun h1 h2 => hPM ⟨h1, h2⟩
  · exact fun h1 h2 => hpm ⟨h1, h2⟩
  · exact fun _ => by omega
  · exact fun _ => Or.inl ⟨by omega, by omega⟩

theorem quiet_edge (c a x : Nat) (h : canCombine [c, a] = true) (hx1 : x ≠ 110)
    (hx2 : x ≠ 84) (hx3 : ¬(c = 95 ∧ a = 95 ∧ x = 50)) : Quiet c a x := by
  obtain ⟨hc, h2, -⟩ := canCombine_cons _ _ h
  obtain ⟨ha, -, -⟩ := canCombine_cons _ _ h2
  obtain ⟨-, -, -, ePM, epm⟩ := canCombine_words _ _ h
  have hPM : ¬(c = 80 ∧ a = 77) := by
    rintro ⟨rfl, rfl⟩; simp [List.isPrefixOf] at ePM
  have hpm : ¬(c = 112 ∧ a = 109) := by
    rintro ⟨rfl, rfl⟩; simp [List.isPrefixOf] at epm
  clear ePM epm h h2
  refine ⟨by omega, ?_, ?_, ?_, ?_, ?_, ?_, ?_⟩
  · exact fun _ h2 => hx1 h2.2
  · exact fun _ => ⟨fun h2 => hx1 h2.2, fun h2 => hx2 h2.2⟩
  · exact fun h1 => ⟨by omega, fun h2 => hx3 ⟨h1, h2.1, h2.2⟩⟩
  · exact fun h1 h2 => hPM ⟨h1, h2⟩
  · exact fun h1 h2 => hpm ⟨h1, h2⟩
  · exact fun _ => by omega
  · exact fun _ => Or.inl ⟨by omega, by omega⟩

theorem Format_run (t : Time) (X : Bytes) (hx1 : byteAt X 0 ≠ 110) (hx2 : byteAt X 0 ≠ 84) :
    ∀ r : Bytes, canCombine r = true → (byteAt X 0 = 50 → ¬ [95, 95] <:+ r) →
      (∀ c, r.getLast? = some c → Quiet c (byteAt X 0) (byteAt X 1)) →
      t.Format (r ++ X) = r ++ t.Format X := by
  intro r
  induction r with
  | nil => intro _ _ _; rfl
  | cons c r ih =>
    intro hcan h3 h4
    obtain ⟨hc, hcan2, -⟩ := canCombine_cons c r hcan
    have hq : Quiet c (byteAt (r ++ X) 0) (byteAt (r ++ X) 1) := by
      rcases r with _ | ⟨a, _ | ⟨b, r2⟩⟩
      · exact h4 c rfl
      · exact quiet_edge c a _ hcan hx1 hx2
          (fun h => h3 h.2.2 (by rw [h.1, h.2.1]))
      · exact quiet_in c a b r2 hcan
    rw [List.cons_append, Format_cons_none t c _ (stdAt_quiet c _ hq)]
    rw [ih hcan2 (fun h hs => h3 h (List.suffix_cons_iff.mpr (Or.inr hs)))
      (fun x hx => h4 x (by
        cases r with
        | nil => simp at hx
        | cons a r2 => rw [List.getLast?_cons_cons]; exact hx))]
    rfl

theorem layout_bytes (d : Directive) (R : Bytes) :
    (byteAt (d.layout ++ R) 0, byteAt (d.layout ++ R) 1) =
      match d with
      | .year => (50, 48)
      | .month => (48, 49)
      | .day => (48, 50)
      | .hour => (49, 53)
      | .minute => (48, 52)
      | .second => (48, 53)
      | .hour12 => (48, 51)
      | .ampm => (80, 77)
      | .weekdayFull => (77, 111)
      | .monthFull => (74, 97) := by
  cases d <;> rfl

theorem getLast_mem (r : Bytes) (c : Nat) (h : r.getLast? = some c) :
    c ∈ r ∧ [c] <:+ r ∧ ∃ r0, r = r0 ++ [c] := by
  have hne : r ≠ [] := by rintro rfl; simp at h
  have e := List.dropLast_append_getLast? c h
  exact ⟨by rw [← e]; simp, ⟨r.dropLast, e⟩, r.dropLast, e.symm⟩

theorem stdAt_under_year (R : Bytes) :
    stdAt (95 :: (str "2006" ++ R)) = some ⟨1, .stdLongYear, 4, 0, 0⟩ := by
  show stdAt (95 :: ([50, 48, 48, 54] ++ R)) = _
  simp [stdAt, stdCaseUnder, hasPrefix, str_2006, byteAt]

theorem canCombine_append_left (x y : Bytes) (h : canCombine (x ++ y) = true) :
    canCombine x = true := by
  induction x with
  | nil => rfl
  | cons c x ih =>
    obtain ⟨h1, h2, h3⟩ := canCombine_cons c (x ++ y) h
    have h4 := ih h2
    unfold canCombine at h4 ⊢
    simp only [List.any_cons, Bool.not_or, Bool.and_eq_true, Bool.not_eq_true', List.all_eq_true,
      containsText, Bool.or_eq_false_iff, decide_eq_false_iff_not] at h4 ⊢
    refine ⟨⟨by simp; omega, h4.1⟩, fun w hw => ⟨?_, h4.2 w hw⟩⟩
    have h5 := h3 w hw
    by_contra hc
    rw [Bool.not_eq_false] at hc
    have h6 : w <+: c :: x := List.isPrefixOf_iff_prefix.mp hc
    have h7 : w <+: c :: (x ++ y) := h6.trans (List.prefix_append (c :: x) y)
    rw [List.isPrefixOf_iff_prefix.mpr h7] at h5
    exact absurd h5 (by simp)

theorem run_piece (env : Env) (st : Stamp) (hv : st.Valid) (r : Bytes) (d : Directive)
    (hcan : canCombine r = true) (hsafe : misread r d = false) (R : Bytes) :
    (st.time env).Format (r ++ (d.layout ++ R)) =
      r ++ d.expand st ++ (st.time env).Format R := by
  have hb := layout_bytes d R
  have hP : ¬([80] <:+ r ∧ d = .weekdayFull) := by
    intro h; simp [misread, hcan, h.1, h.2] at hsafe
  have hU : ¬([95, 95] <:+ r ∧ d = .year) := by
    intro h; simp [misread, hcan, h.1, h.2] at hsafe
  by_cases hsp : r.getLast? = some 95 ∧ d = .year
  · obtain ⟨hl, rfl⟩ := hsp
    obtain ⟨-, -, r0, rfl⟩ := getLast_mem r 95 hl
    have hcan0 := canCombine_append_left r0 [95] hcan
    have hrun := Format_run (st.time env) (95 :: (str "2006" ++ R))
      (by rw [byteAt_zero]; decide) (by rw [byteAt_zero]; decide) r0
      hcan0 (fun h => absurd h (by rw [byteAt_zero]; decide)) (by
        intro c hc
        obtain ⟨hm, -, r1, rfl⟩ := getLast_mem r0 c hc
        have hnd := canCombine_nodigit _ hcan0 c hm
        have hc95 : c ≠ 95 := by
          rintro rfl
          exact hU ⟨⟨r1, by simp⟩, rfl⟩
        show Quiet c 95 50
        refine ⟨by omega, ?_, ?_, ?_, ?_, ?_, ?_, ?_⟩ <;> intro _ <;> omega)
    have e1 : r0 ++ [95] ++ (Directive.layout .year ++ R) = r0 ++ (95 :: (str "2006" ++ R)) := by
      simp [Directive.layout]
    rw [e1, hrun, Format_cons_some _ _ _ _ (stdAt_under_year R)]
    have e2 := Format_piece env st hv .year R
    rw [Format_elem _ _ _ (stdAt_piece .year R) rfl, drop_piece] at e2
    have e3 : formatStd (st.time env) ⟨1, .stdLongYear, 4, 0, 0⟩ =
        formatStd (st.time env) Directive.year.elem := rfl
    have e4 : List.drop (1 + 4) (95 :: (str "2006" ++ R)) = R := rfl
    have e5 : List.take 1 (95 :: (str "2006" ++ R)) = [95] := rfl
    simp only [e3, e4, e5]
    rw [List.append_assoc [95], e2]
    simp
  · have hq : ∀ c, r.getLast? = some c →
        Quiet c (byteAt (d.layout ++ R) 0) (byteAt (d.layout ++ R) 1) := by
      intro c hc
      obtain ⟨hm, hs, -⟩ := getLast_mem r c hc
      have hnd := canCombine_nodigit _ hcan c hm
      have h80 : ¬(c = 80 ∧ d = .weekdayFull) := by
        rintro ⟨rfl, rfl⟩; exact hP ⟨hs, rfl⟩
      have h95 : ¬(c = 95 ∧ d = .year) := by
        rintro ⟨rfl, rfl⟩; exact hsp ⟨hc, rfl⟩
      have e0 := congrArg Prod.fst hb
      have e1 := congrArg Prod.snd hb
      simp only at e0 e1
      rw [e0, e1]
      cases d <;> simp only [] <;>
        (refine ⟨by omega, ?_, ?_, ?_, ?_, ?_, ?_, ?_⟩ <;> intro _ <;> simp at h80 h95 ⊢ <;> omega)
    have hx0 : byteAt (d.layout ++ R) 0 ≠ 110 ∧ byteAt (d.layout ++ R) 0 ≠ 84 ∧
        (byteAt (d.layout ++ R) 0 = 50 → d = .year) := by
      have e0 := congrArg Prod.fst hb
      simp only at e0
      rw [e0]
      cases d <;> simp
    rw [Format_run (st.time env) (d.layout ++ R) hx0.1 hx0.2.1 r hcan
      (fun h hs => hU ⟨hs, hx0.2.2 h⟩) hq, Format_piece env st hv d R]
    simp

theorem indexPercent_pre (pre tl : Bytes) (h : ∀ c ∈ pre, c ≠ 37) :
    indexPercent (pre ++ 37 :: tl) = some pre.length := by
  induction pre with
  | nil => simp [indexPercent]
  | cons c pre ih =>
    have hc : c ≠ 37 := h c (by simp)
    have := ih (fun x hx => h x (by simp [hx]))
    simp [indexPercent, hc, this]

theorem indexPercent_literal (p : Bytes) (h : ∀ c ∈ p, c ≠ 37) : indexPercent p = none := by
  induction p with
  | nil => rfl
  | cons c p ih =>
    have hc : c ≠ 37 := h c (by simp)
    have := ih (fun x hx => h x (by simp [hx]))
    simp [indexPercent, hc, this]

theorem compile_nil (f : Nat) (h : CombiningAppend) : compile f [] h = .ok h := by
  cases f <;> rfl

theorem compile_literal (f : Nat) (p : Bytes) (hp : p ≠ []) (h37 : ∀ c ∈ p, c ≠ 37)
    (h : CombiningAppend) : compile (f + 1) p h = .ok (h.Append (.verbatim p)) := by
  have hl : p.length ≠ 0 := fun e => hp (List.length_eq_zero.mp e)
  unfold compile
  rw [if_neg hl, indexPercent_literal p h37]

theorem compile_stray (f : Nat) (pre : Bytes) (h37 : ∀ c ∈ pre, c ≠ 37) (h : CombiningAppend) :
    compile (f + 1) (pre ++ [37]) h = .error (str "stray % at the end of pattern") := by
  unfold compile
  rw [indexPercent_pre pre [] h37]
  simp

theorem compile_directive (f : Nat) (pre : Bytes) (h37 : ∀ c ∈ pre, c ≠ 37) (b : Nat)
    (rest : Bytes) (h : CombiningAppend) :
    compile (f + 1) (pre ++ 37 :: b :: rest) h =
      match lookupSpec b with
      | none =>
        .error (str "pattern compilation failed: lookup failed: \x27%" ++ utf8Char b ++
          str "\x27 was not found in specification set")
      | some spec => compile f rest ((afterText h pre).Append spec) := by
  have hd : List.drop pre.length (pre ++ 37 :: b :: rest) = 37 :: b :: rest := by simp
  have ht : List.take pre.length (pre ++ 37 :: b :: rest) = pre := by simp
  conv_lhs => unfold compile
  rw [indexPercent_pre pre _ h37]
  simp only [List.length_append, List.length_cons, hd, ht, byteAt_succ, byteAt_zero,
    List.drop_succ_cons, List.drop_zero]
  rw [if_neg (by omega), if_neg (by omega)]
  cases hl : lookupSpec b with
  | none => rfl
  | some spec =>
    simp only []
    congr 1
    unfold afterText
    cases pre with
    | nil => simp
    | cons c pre => simp

theorem directivesOk_pre (pre q : Bytes) (h37 : ∀ c ∈ pre, c ≠ 37) :
    directivesOk (pre ++ q) = directivesOk q := by
  induction pre with
  | nil => rfl
  | cons c pre ih =>
    have hc : c ≠ 37 := h37 c (by simp)
    rw [List.cons_append, directivesOk_lit c hc, ih (fun x hx => h37 x (by simp [hx]))]

theorem directivesOk_literal (p : Bytes) (h37 : ∀ c ∈ p, c ≠ 37) : directivesOk p = true := by
  have := directivesOk_pre p [] h37
  rw [List.append_nil] at this
  rw [this]; rfl

theorem compile_bad : ∀ (n : Nat) (p : Bytes) (f : Nat) (h : CombiningAppend), p.length ≤ n →
    p.length ≤ f → directivesOk p = false → ∃ e, compile f p h = .error e := by
  intro n
  induction n using Nat.strong_induction_on with
  | _ n ih =>
    intro p f h hn hf hbad
    cases hi : indexPercent p with
    | none =>
      rw [directivesOk_literal p (indexPercent_none p hi)] at hbad
      exact absurd hbad (by simp)
    | some i =>
      obtain ⟨pre, tl, hp, _, hpre⟩ := indexPercent_some _ _ hi
      subst hp
      cases f with
      | zero => simp at hf
      | succ f =>
        cases tl with
        | nil => exact ⟨_, compile_stray f pre hpre h⟩
        | cons b rest =>
          rw [compile_directive f pre hpre b rest h]
          rw [directivesOk_pre pre _ hpre, directivesOk_dir] at hbad
          simp only [List.length_append, List.length_cons] at hn hf
          by_cases hb : b ∈ directiveChars
          · obtain ⟨spec, hs⟩ := lookupSpec_some b hb
            rw [hs]
            simp only []
            have hbad2 : directivesOk rest = false := by simpa [hb] using hbad
            exact ih rest.length (by omega) rest f _ (le_refl _) (by omega) hbad2
          · rw [lookupSpec_none b hb]
            exact ⟨_, rfl⟩

/-- C6: read the format left to right, each percent sign taking the byte after it as its
directive character. If some percent sign so read is followed by a byte that is no directive
character of the library, or by nothing, strftime on a valid timestamp returns an error whose
message begins with Invalid strftime format and sets no result. -/
theorem bad_directive_rejected (env : Env) (st : Stamp) (hv : st.Valid) (format : Bytes)
    (h : directivesOk format = false) :
    ∃ e, strftime env format st.text =
      { Error := some (str "Invalid strftime format: " ++ e), Result := none } := by
  obtain ⟨e, he⟩ := compile_bad format.length format format.length {} (le_refl _) (le_refl _) h
  unfold strftime strftimeNew
  rw [Parse_text env st hv, he]
  exact ⟨_, rfl⟩

set_option maxRecDepth 100000 in
/-- Witness for C6: the formats %Q and %Y-% are rejected on 2024-01-15T10:30:00Z. -/
theorem bad_directive_rejected_witness :
    (∃ e, strftime envUTC (str "%Q") (str "2024-01-15T10:30:00Z") =
      { Error := some (str "Invalid strftime format: " ++ e), Result := none }) ∧
    (∃ e, strftime envUTC (str "%Y-%") (str "2024-01-15T10:30:00Z") =
      { Error := some (str "Invalid strftime format: " ++ e), Result := none }) :=
  ⟨bad_directive_rejected envUTC ⟨2024, 1, 15, 10, 30, 0, [], .utc⟩ (by decide)
      (str "%Q") (by decide),
   bad_directive_rejected envUTC ⟨2024, 1, 15, 10, 30, 0, [], .utc⟩ (by decide)
      (str "%Y-%") (by decide)⟩

/-! ## Formats of literal texts and directives -/

theorem Format_append_nil (t : Time) (L : Bytes) : t.Format (L ++ []) = t.Format L := by
  rw [List.append_nil]

theorem Closed_piece (env : Env) (st : Stamp) (hv : st.Valid) (d : Directive) :
    Closed (st.time env) d.layout ∧ (st.time env).Format d.layout = d.expand st := by
  have h0 := Format_piece env st hv d []
  rw [List.append_nil, Format_nil, List.append_nil] at h0
  refine ⟨fun R => ?_, h0⟩
  rw [Format_piece env st hv d R, h0]

theorem Closed_run_piece (env : Env) (st : Stamp) (hv : st.Valid) (r : Bytes) (d : Directive)
    (hcan : canCombine r = true) (hsafe : misread r d = false) :
    Closed (st.time env) (r ++ d.layout) ∧
      (st.time env).Format (r ++ d.layout) = r ++ d.expand st := by
  have h0 := run_piece env st hv r d hcan hsafe []
  rw [List.append_nil, Format_nil, List.append_nil] at h0
  refine ⟨fun R => ?_, h0⟩
  rw [List.append_assoc, run_piece env st hv r d hcan hsafe R, h0]

theorem Closed_append (t : Time) (L M : Bytes) (hL : Closed t L) (hM : Closed t M) :
    Closed t (L ++ M) ∧ t.Format (L ++ M) = t.Format L ++ t.Format M := by
  refine ⟨fun R => ?_, hL M⟩
  rw [List.append_assoc, hL (M ++ R), hM R, hL M, List.append_assoc]

theorem Format_literal (t : Time) (r : Bytes) (hcan : canCombine r = true) :
    t.Format r = r := by
  have h := Format_run t [] (by decide) (by decide) r hcan (fun h => absurd h (by decide)) (by
    intro c hc
    obtain ⟨hm, -, -⟩ := getLast_mem r c hc
    have hnd := canCombine_nodigit _ hcan c hm
    show Quiet c 0 0
    refine ⟨by omega, ?_, ?_, ?_, ?_, ?_, ?_, ?_⟩ <;> intro _ <;> omega)
  rw [List.append_nil, Format_nil, List.append_nil] at h
  exact h

theorem step_segment (env : Env) (st : Stamp) (hv : st.Valid) (h : CombiningAppend)
    (hext : Ext (st.time env) h) (r : Bytes) (d : Directive) (hsafe : misread r d = false) :
    Ext (st.time env) ((afterText h r).Append (.stdlibFormat d.layout)) ∧
    FormatString ((afterText h r).Append (.stdlibFormat d.layout)).list (st.time env) =
      FormatString h.list (st.time env) ++ (r ++ d.expand st) := by
  obtain ⟨cP, eP⟩ := Closed_piece env st hv d
  rcases h with ⟨done, prev, pc⟩
  by_cases hcan : canCombine r = true
  · obtain ⟨cR, eR⟩ := Closed_run_piece env st hv r d hcan hsafe
    cases pc with
    | true =>
      obtain ⟨L, hL, cL⟩ := hext rfl
      simp only at hL
      subst hL
      obtain ⟨cLR, eLR⟩ := Closed_append _ L (r ++ d.layout) cL cR
      have e : (afterText ⟨done, some (.stdlibFormat L), true⟩ r).Append
          (.stdlibFormat d.layout) = ⟨done, some (.stdlibFormat (L ++ (r ++ d.layout))), true⟩ := by
        by_cases hr : r = []
        · subst hr
          simp [afterText, CombiningAppend.Append, Appender.canCombine, Appender.combine,
            Appender.str]
        · simp [afterText, hr, CombiningAppend.Append, Appender.canCombine, Appender.combine,
            Appender.str, hcan]
      rw [e]
      refine ⟨fun _ => ⟨_, rfl, cLR⟩, ?_⟩
      simp [CombiningAppend.list, FormatString_append, FormatString, Appender.Append, eLR, eR]
    | false =>
      have e : (afterText ⟨done, prev, false⟩ r).Append (.stdlibFormat d.layout) =
          ⟨done ++ prev.toList, some (.stdlibFormat (r ++ d.layout)), true⟩ := by
        by_cases hr : r = []
        · subst hr
          cases prev <;>
            simp [afterText, CombiningAppend.Append, Appender.canCombine]
        · cases prev <;>
            simp [afterText, hr, CombiningAppend.Append, Appender.canCombine, Appender.combine,
              Appender.str, hcan]
      rw [e]
      refine ⟨fun _ => ⟨_, rfl, cR⟩, ?_⟩
      simp [CombiningAppend.list, FormatString_append, FormatString, Appender.Append, eR]
  · have hr : r ≠ [] := by rintro rfl; exact hcan rfl
    have hcan2 : canCombine r = false := by simpa using hcan
    have e : (afterText ⟨done, prev, pc⟩ r).Append (.stdlibFormat d.layout) =
        ⟨done ++ prev.toList ++ [.verbatim r], some (.stdlibFormat d.layout), true⟩ := by
      cases prev <;>
        simp [afterText, hr, CombiningAppend.Append, Appender.canCombine, hcan2]
    rw [e]
    refine ⟨fun _ => ⟨_, rfl, cP⟩, ?_⟩
    simp [CombiningAppend.list, FormatString_append, FormatString, Appender.Append, eP]

theorem step_tail (t : Time) (h : CombiningAppend) (hext : Ext t h) (tail : Bytes) :
    FormatString (h.Append (.verbatim tail)).list t = FormatString h.list t ++ tail := by
  rcases h with ⟨done, prev, pc⟩
  by_cases hcan : canCombine tail = true
  · cases pc with
    | true =>
      obtain ⟨L, hL, cL⟩ := hext rfl
      simp only at hL
      subst hL
      simp [CombiningAppend.Append, Appender.canCombine, Appender.combine, Appender.str, hcan,
        CombiningAppend.list, FormatString_append, FormatString, Appender.Append, cL tail,
        Format_literal t tail hcan]
    | false =>
      cases prev <;>
        simp [CombiningAppend.Append, Appender.canCombine, CombiningAppend.list,
          FormatString_append, FormatString, Appender.Append]
  · have hcan2 : canCombine tail = false := by simpa using hcan
    cases prev <;>
      simp [CombiningAppend.Append, Appender.canCombine, hcan2, CombiningAppend.list,
        FormatString_append, FormatString, Appender.Append]

theorem compile_segs (env : Env) (st : Stamp) (hv : st.Valid) (tail : Bytes)
    (htail : ∀ c ∈ tail, c ≠ 37) : ∀ (segs : List (Bytes × Directive)),
    (∀ s ∈ segs, (∀ c ∈ s.1, c ≠ 37) ∧ misread s.1 s.2 = false) →
    ∀ (f : Nat) (h : CombiningAppend), (formatOf segs tail).length ≤ f →
      Ext (st.time env) h →
      ∃ h2, compile f (formatOf segs tail) h = .ok h2 ∧
        FormatString h2.list (st.time env) =
          FormatString h.list (st.time env) ++ expandOf st segs tail := by
  intro segs
  induction segs with
  | nil =>
    intro _ f h hf hext
    by_cases ht : tail = []
    · subst ht
      exact ⟨h, compile_nil f h, by simp [expandOf]⟩
    · cases f with
      | zero =>
        have : tail = [] := List.length_eq_zero.mp (Nat.le_zero.mp hf)
        exact absurd this ht
      | succ f =>
        exact ⟨_, compile_literal f tail ht htail h, step_tail _ h hext tail⟩
  | cons s segs ih =>
    intro hs f h hf hext
    obtain ⟨r, d⟩ := s
    obtain ⟨h37, hsafe⟩ := hs (r, d) (List.mem_cons_self _ _)
    simp only at h37 hsafe
    have hlen : (formatOf ((r, d) :: segs) tail).length =
        r.length + 2 + (formatOf segs tail).length := by
      simp [formatOf]; omega
    cases f with
    | zero => omega
    | succ f =>
      obtain ⟨hext2, hfs⟩ := step_segment env st hv h hext r d hsafe
      obtain ⟨h2, hc, hout⟩ := ih (fun s hs2 => hs s (List.mem_cons_of_mem _ hs2)) f _
        (by omega) hext2
      refine ⟨h2, ?_, ?_⟩
      · show compile (f + 1) (r ++ 37 :: d.char :: formatOf segs tail) h = _
        rw [compile_directive f r h37, lookupSpec_directive]
        exact hc
      · rw [hout, hfs]
        simp [expandOf]

/-- C5, amended: for a valid RFC 3339 timestamp and a format made only of literal texts
without the percent sign and the directives %Y %m %d %H %M %S %I %p %A %B, in which no %A
directly follows a literal text that ends in P and no %Y directly follows a literal text that
ends in two underscores, such a text being one the library joins with the directive (it has
no decimal digit and none of the words Mon, Jan, MST, PM, pm), strftime returns the format
with each directive replaced by the field of the timestamp as written (4-digit year, 2-digit
month, day, hour, minute, second, 12-hour hour with 12 for hours 0 and 12, AM below hour 12
and PM otherwise, English weekday and month names) and the literal texts copied. -/
theorem strftime_directives (env : Env) (st : Stamp) (hv : st.Valid)
    (segs : List (Bytes × Directive)) (tail : Bytes)
    (hlit : ∀ s ∈ segs, 37 ∉ s.1) (htail : 37 ∉ tail)
    (hsafe : ∀ s ∈ segs, misread s.1 s.2 = false) :
    strftime env (formatOf segs tail) st.text = { Result := some (expandOf st segs tail) } := by
  obtain ⟨h2, hc, hout⟩ := compile_segs env st hv tail (fun c hc e => htail (e ▸ hc)) segs
    (fun s hs => ⟨fun c hc e => hlit s hs (e ▸ hc), hsafe s hs⟩) (formatOf segs tail).length {}
    (le_refl _) (fun h => absurd h (by decide))
  unfold strftime strftimeNew
  rw [Parse_text env st hv, hc]
  simp only []
  rw [hout]
  rfl

set_option maxRecDepth 100000 in
/-- Counterexample for C5: 2024-01-16T10:30:00Z is a valid timestamp, a Tuesday morning.  The
format P%A is the literal P and the directive %A, so that the claim gives PTuesday; the
library joins the literal with the layout Monday of %A into the layout PMonday, which
Time.Format reads as the element PM and the text onday, and strftime returns AMonday.  The
format __%Y is the literal of two underscores and the directive %Y, so that the claim gives
__2024; the joined layout __2006 is read as the day of the year padded with spaces, the
text 0 and the two-digit year, and strftime returns a space, 16, 0 and 24. -/
theorem literal_joins_directive :
    (⟨2024, 1, 16, 10, 30, 0, [], .utc⟩ : Stamp).Valid ∧
    (⟨2024, 1, 16, 10, 30, 0, [], .utc⟩ : Stamp).text = str "2024-01-16T10:30:00Z" ∧
    (formatOf [([80], .weekdayFull)] [] = str "P%A" ∧
      expandOf ⟨2024, 1, 16, 10, 30, 0, [], .utc⟩ [([80], .weekdayFull)] [] = str "PTuesday" ∧
      strftime envUTC (str "P%A") (str "2024-01-16T10:30:00Z") =
        { Result := some (str "AMonday") }) ∧
    (formatOf [([95, 95], .year)] [] = str "__%Y" ∧
      expandOf ⟨2024, 1, 16, 10, 30, 0, [], .utc⟩ [([95, 95], .year)] [] = str "__2024" ∧
      strftime envUTC (str "__%Y") (str "2024-01-16T10:30:00Z") =
        { Result := some (str " 16024") }) := by
  have w : (⟨2024, 1, 16, 10, 30, 0, [], .utc⟩ : Stamp).weekday = 2 := by
    rw [weekday_eq]; decide
  refine ⟨by decide, by decide, ⟨by decide, ?_, by decide⟩, ⟨by decide, by decide, by decide⟩⟩
  simp only [expandOf, Directive.expand, w]
  decide

set_option maxRecDepth 100000 in
/-- Witness for C5: the three examples of the specification. -/
theorem strftime_directives_witness :
    strftime envUTC (str "%Y-%m-%d") (str "2024-01-15T10:30:00Z") =
      { Result := some (str "2024-01-15") } ∧
    strftime envUTC (str "%I:%M %p") (str "2024-01-15T14:30:00Z") =
      { Result := some (str "02:30 PM") } ∧
    strftime envUTC (str "%A, %B %d, %Y") (str "2024-01-15T10:30:00Z") =
      { Result := some (str "Monday, January 15, 2024") } := by
  have h1 := strftime_directives envUTC ⟨2024, 1, 15, 10, 30, 0, [], .utc⟩ (by decide)
    [([], .year), ([45], .month), ([45], .day)] [] (by decide) (by decide) (by decide)
  have h2 := strftime_directives envUTC ⟨2024, 1, 15, 14, 30, 0, [], .utc⟩ (by decide)
    [([], .hour12), ([58], .minute), ([32], .ampm)] [] (by decide) (by decide) (by decide)
  have h3 := strftime_directives envUTC ⟨2024, 1, 15, 10, 30, 0, [], .utc⟩ (by decide)
    [([], .weekdayFull), ([44, 32], .monthFull), ([32], .day), ([44, 32], .year)] []
    (by decide) (by decide) (by decide)
  have w : (⟨2024, 1, 15, 10, 30, 0, [], .utc⟩ : Stamp).weekday = 1 := by
    rw [weekday_eq]; decide
  simp only [expandOf, Directive.expand, w] at h1 h2 h3
  refine ⟨?_, ?_, ?_⟩
  · rw [show str "%Y-%m-%d" = formatOf [([], .year), ([45], .month), ([45], .day)] [] by decide,
      show str "2024-01-15T10:30:00Z" = (⟨2024, 1, 15, 10, 30, 0, [], .utc⟩ : Stamp).text by decide,
      h1]
    decide
  · rw [show str "%I:%M %p" = formatOf [([], .hour12), ([58], .minute), ([32], .ampm)] [] by decide,
      show str "2024-01-15T14:30:00Z" = (⟨2024, 1, 15, 14, 30, 0, [], .utc⟩ : Stamp).text by decide,
      h2]
    decide
  · rw [show str "%A, %B %d, %Y" = formatOf [([], .weekdayFull), ([44, 32], .monthFull),
        ([32], .day), ([44, 32], .year)] [] by decide,
      show str "2024-01-15T10:30:00Z" = (⟨2024, 1, 15, 10, 30, 0, [], .utc⟩ : Stamp).text by decide,
      h3]
    decide

/-! ## Lemmas: formats without the zone abbreviation, and timestamps in UTC -/

/-- The time without the name of its zone prints the same for every layout element but the
zone abbreviation. -/
theorem formatStd_forget (t : Time) (k : StdChunk) (h : k.std ≠ .stdTZ) :
    formatStd t k = formatStd (forget t) k := by
  rcases k with ⟨pre, std, len, digits, sep⟩
  cases std <;> first | rfl | exact absurd rfl h

theorem stdAt_TZ (l : Bytes) (k : StdChunk) (h : stdAt l = some k) (hk : k.std = .stdTZ) :
    hasPrefix l "MST" = true := by
  revert k
  refine stdAt_elim l (fun r => ∀ k, r = some k → k.std = .stdTZ → hasPrefix l "MST" = true)
    ?_ ?_ ?_ ?_ ?_ ?_ ?_ ?_ ?_ ?_ ?_ ?_ ?_ ?_ ?_
  · intro k h; exact absurd h (by simp)
  · intro _ k h; unfold stdCaseJ at h
    split_ifs at h <;> (have e := Option.some.inj h; subst e; intro hk; exact absurd hk (by decide))
  · intro _ k h; unfold stdCaseM at h
    split_ifs at h with h1 h2 h3
    · have e := Option.some.inj h; subst e; intro hk; exact absurd hk (by decide)
    · have e := Option.some.inj h; subst e; intro hk; exact absurd hk (by decide)
    · intro _; exact h3
  · intro _ k h; unfold stdCase0 at h
    split_ifs at h
    · have e := Option.some.inj h; subst e; intro hk
      dsimp only at hk
      unfold std0x at hk
      split at hk <;> exact absurd hk (by decide)
    · have e := Option.some.inj h; subst e; intro hk; exact absurd hk (by decide)
  · intro _ k h; unfold stdCase1 at h
    split_ifs at h <;> (have e := Option.some.inj h; subst e; intro hk; exact absurd hk (by decide))
  · intro _ k h; unfold stdCase2 at h
    split_ifs at h <;> (have e := Option.some.inj h; subst e; intro hk; exact absurd hk (by decide))
  · intro _ k h; unfold stdCaseUnder at h
    split_ifs at h <;> (have e := Option.some.inj h; subst e; intro hk; exact absurd hk (by decide))
  · intro _ k h; have e := Option.some.inj h; subst e; intro hk; exact absurd hk (by decide)
  · intro _ k h; have e := Option.some.inj h; subst e; intro hk; exact absurd hk (by decide)
  · intro _ k h; have e := Option.some.inj h; subst e; intro hk; exact absurd hk (by decide)
  · intro _ k h; unfold stdCaseP at h
    split_ifs at h; have e := Option.some.inj h; subst e; intro hk; exact absurd hk (by decide)
  · intro _ k h; unfold stdCasep at h
    split_ifs at h; have e := Option.some.inj h; subst e; intro hk; exact absurd hk (by decide)
  · intro _ k h; unfold stdCaseMinus at h
    split_ifs at h <;> (have e := Option.some.inj h; subst e; intro hk; exact absurd hk (by decide))
  · intro _ k h; unfold stdCaseZ at h
    split_ifs at h <;> (have e := Option.some.inj h; subst e; intro hk; exact absurd hk (by decide))
  · intro _ k h; unfold stdCaseFrac at h; dsimp only at h
    split_ifs at h <;>
      (have e := Option.some.inj h; subst e; intro hk; dsimp only at hk)
    all_goals exact absurd hk (by decide)

theorem sameRun_last (c : Nat) : ∀ (v : Bytes), 1 ≤ sameRun c v →
    byteAt v (sameRun c v - 1) = c := by
  intro v
  induction v with
  | nil => intro h; simp [sameRun] at h
  | cons x v ih =>
    intro h
    unfold sameRun at h ⊢
    by_cases hx : x = c
    · simp only [hx, if_true] at h ⊢
      by_cases h0 : sameRun c v = 0
      · simp [h0, byteAt]
      · have := ih (by omega)
        have e : sameRun c v + 1 - 1 = (sameRun c v - 1) + 1 := by omega
        rw [e, byteAt_succ, this]
    · simp [hx] at h

theorem frac_last (l : Bytes) (h1 : 1 < l.length ∧ (byteAt l 1 = 48 ∨ byteAt l 1 = 57)) :
    byteAt l (0 + (1 + sameRun (byteAt l 1) (l.drop 1)) - 1) ≠ 80 := by
  have hn : 1 ≤ sameRun (byteAt l 1) (l.drop 1) := by
    rcases l with _ | ⟨c, _ | ⟨a, w⟩⟩
    · simp at h1
    · simp at h1
    · simp [byteAt, sameRun]
  have hl := sameRun_last (byteAt l 1) (l.drop 1) hn
  rw [byteAt_drop] at hl
  have e2 : 0 + (1 + sameRun (byteAt l 1) (l.drop 1)) - 1 =
      1 + (sameRun (byteAt l 1) (l.drop 1) - 1) := by omega
  rw [e2, hl]
  omega

theorem stdAt_last (l : Bytes) (k : StdChunk) (h : stdAt l = some k) :
    byteAt l (k.pre + k.len - 1) ≠ 80 := by
  revert k
  refine stdAt_elim l (fun r => ∀ k, r = some k → byteAt l (k.pre + k.len - 1) ≠ 80)
    ?_ ?_ ?_ ?_ ?_ ?_ ?_ ?_ ?_ ?_ ?_ ?_ ?_ ?_ ?_
  · intro k h; exact absurd h (by simp)
  · intro _ k h; unfold stdCaseJ at h
    split_ifs at h with h1 h2 h3
    · have e := Option.some.inj h; subst e
      rw [show (0 + 7 - 1 : Nat) = 6 from rfl, hasPrefix_byteAt l "January" h2 6 (by decide)]
      decide
    · have e := Option.some.inj h; subst e
      rw [show (0 + 3 - 1 : Nat) = 2 from rfl, hasPrefix_byteAt l "Jan" h1 2 (by decide)]
      decide
  · intro _ k h; unfold stdCaseM at h
    split_ifs at h with h1 h2 h3
    · have e := Option.some.inj h; subst e
      rw [show (0 + 6 - 1 : Nat) = 5 from rfl, hasPrefix_byteAt l "Monday" h1.2 5 (by decide)]
      decide
    · have e := Option.some.inj h; subst e
      rw [show (0 + 3 - 1 : Nat) = 2 from rfl, hasPrefix_byteAt l "Mon" h2.1 2 (by decide)]
      decide
    · have e := Option.some.inj h; subst e
      rw [show (0 + 3 - 1 : Nat) = 2 from rfl, hasPrefix_byteAt l "MST" h3 2 (by decide)]
      decide
  · intro _ k h; unfold stdCase0 at h
    split_ifs at h with h1 h2
    · have e := Option.some.inj h; subst e
      simp only [Bool.and_eq_true, decide_eq_true_eq] at h1
      show byteAt l 1 ≠ 80
      omega
    · have e := Option.some.inj h; subst e
      simp only [Bool.and_eq_true, decide_eq_true_eq, beq_iff_eq] at h2
      show byteAt l 2 ≠ 80
      omega
  · intro hc k h; unfold stdCase1 at h
    split_ifs at h with h1
    · have e := Option.some.inj h; subst e
      simp only [Bool.and_eq_true, decide_eq_true_eq, beq_iff_eq] at h1
      show byteAt l 1 ≠ 80
      omega
    · have e := Option.some.inj h; subst e
      show byteAt l 0 ≠ 80
      omega
  · intro hc k h; unfold stdCase2 at h
    split_ifs at h with h1
    · have e := Option.some.inj h; subst e
      rw [show (0 + 4 - 1 : Nat) = 3 from rfl, hasPrefix_byteAt l "2006" h1 3 (by decide)]
      decide
    · have e := Option.some.inj h; subst e
      show byteAt l 0 ≠ 80
      omega
  · intro hc k h; unfold stdCaseUnder at h
    split_ifs at h with h1 h2 h3
    · have e := Option.some.inj h; subst e
      have := hasPrefix_byteAt _ "2006" h2 3 (by decide)
      rw [byteAt_drop] at this
      rw [show (1 + 4 - 1 : Nat) = 1 + 3 from rfl, this]
      decide
    · have e := Option.some.inj h; subst e
      simp only [Bool.and_eq_true, decide_eq_true_eq, beq_iff_eq] at h1
      show byteAt l 1 ≠ 80
      omega
    · have e := Option.some.inj h; subst e
      simp only [Bool.and_eq_true, decide_eq_true_eq, beq_iff_eq] at h3
      show byteAt l 2 ≠ 80
      omega
  · intro hc k h; have e := Option.some.inj h; subst e
    show byteAt l 0 ≠ 80
    omega
  · intro hc k h; have e := Option.some.inj h; subst e
    show byteAt l 0 ≠ 80
    omega
  · intro hc k h; have e := Option.some.inj h; subst e
    show byteAt l 0 ≠ 80
    omega
  · intro _ k h; unfold stdCaseP at h
    split_ifs at h with h1
    have e := Option.some.inj h; subst e
    simp only [Bool.and_eq_true, decide_eq_true_eq, beq_iff_eq] at h1
    show byteAt l 1 ≠ 80
    omega
  · intro _ k h; unfold stdCasep at h
    split_ifs at h with h1
    have e := Option.some.inj h; subst e
    simp only [Bool.and_eq_true, decide_eq_true_eq, beq_iff_eq] at h1
    show byteAt l 1 ≠ 80
    omega
  · intro _ k h; unfold stdCaseMinus at h
    split_ifs at h with h1 h2 h3 h4 h5
    · have e := Option.some.inj h; subst e
      rw [show (0 + 7 - 1 : Nat) = 6 from rfl, hasPrefix_byteAt l _ h1 6 (by decide)]
      decide
    · have e := Option.some.inj h; subst e
      rw [show (0 + 9 - 1 : Nat) = 8 from rfl, hasPrefix_byteAt l _ h2 8 (by decide)]
      decide
    · have e := Option.some.inj h; subst e
      rw [show (0 + 5 - 1 : Nat) = 4 from rfl, hasPrefix_byteAt l _ h3 4 (by decide)]
      decide
    · have e := Option.some.inj h; subst e
      rw [show (0 + 6 - 1 : Nat) = 5 from rfl, hasPrefix_byteAt l _ h4 5 (by decide)]
      decide
    · have e := Option.some.inj h; subst e
      rw [show (0 + 3 - 1 : Nat) = 2 from rfl, hasPrefix_byteAt l _ h5 2 (by decide)]
      decide
  · intro _ k h; unfold stdCaseZ at h
    split_ifs at h with h1 h2 h3 h4 h5
    · have e := Option.some.inj h; subst e
      rw [show (0 + 7 - 1 : Nat) = 6 from rfl, hasPrefix_byteAt l _ h1 6 (by decide)]
      decide
    · have e := Option.some.inj h; subst e
      rw [show (0 + 9 - 1 : Nat) = 8 from rfl, hasPrefix_byteAt l _ h2 8 (by decide)]
      decide
    · have e := Option.some.inj h; subst e
      rw [show (0 + 5 - 1 : Nat) = 4 from rfl, hasPrefix_byteAt l _ h3 4 (by decide)]
      decide
    · have e := Option.some.inj h; subst e
      rw [show (0 + 6 - 1 : Nat) = 5 from rfl, hasPrefix_byteAt l _ h4 5 (by decide)]
      decide
    · have e := Option.some.inj h; subst e
      rw [show (0 + 3 - 1 : Nat) = 2 from rfl, hasPrefix_byteAt l _ h5 2 (by decide)]
      decide
  · intro _ k h; unfold stdCaseFrac at h; dsimp only at h
    split_ifs at h with h1 h2
    all_goals have e := Option.some.inj h
    all_goals subst e
    all_goals simp only [Bool.and_eq_true, decide_eq_true_eq, Bool.or_eq_true, beq_iff_eq] at h1
    all_goals dsimp only
    all_goals exact frac_last l h1

theorem stdAt_PM (w : Bytes) : stdAt (80 :: 77 :: w) ≠ none := by
  simp [stdAt, stdCaseP, byteAt]

theorem Format_forget (t : Time) : ∀ (n : Nat) (S : Bytes), S.length ≤ n → Guarded S →
    t.Format S = (forget t).Format S := by
  intro n
  induction n using Nat.strong_induction_on with
  | _ n ih =>
    intro S hn hG
    cases S with
    | nil => rfl
    | cons c rest =>
      simp only [List.length_cons] at hn
      cases hs : stdAt (c :: rest) with
      | none =>
        rw [Format_cons_none t c rest hs, Format_cons_none (forget t) c rest hs]
        rw [ih rest.length (by omega) rest (le_refl _) ?_]
        intro j hj
        obtain ⟨-, h2⟩ := hG (j + 1) hj
        cases j with
        | zero =>
          exfalso
          have hc : c = 80 := h2
          have h77 := hasPrefix_byteAt _ "MST" hj 0 (by decide)
          rw [List.drop_zero] at h77
          rcases rest with _ | ⟨a, w⟩
          · simp [byteAt] at h77
            exact absurd h77 (by decide)
          · have ha : a = 77 := h77
            rw [hc, ha] at hs
            exact stdAt_PM w hs
        | succ j => exact ⟨by omega, h2⟩
      | some k =>
        have hlen := stdAt_len _ _ hs
        have hk : k.std ≠ .stdTZ := by
          intro e
          have h1 := hG 0 (stdAt_TZ _ _ hs e)
          omega
        rw [Format_cons_some t c rest k hs, Format_cons_some (forget t) c rest k hs,
          formatStd_forget t k hk]
        rw [ih ((c :: rest).drop (k.pre + k.len)).length
          (by simp only [List.length_drop, List.length_cons]; omega) _ (le_refl _) ?_]
        intro j hj
        rw [List.drop_drop] at hj
        obtain ⟨-, h2⟩ := hG _ hj
        cases j with
        | zero => exact absurd h2 (stdAt_last _ _ hs)
        | succ j =>
          refine ⟨by omega, ?_⟩
          rw [byteAt_drop]
          have e2 : k.pre + k.len + (j + 1) - 1 = k.pre + k.len + (j + 1 - 1) := by omega
          rw [← e2]
          exact h2

theorem tzScan_append (q : Nat) (a b : Bytes) : tzScan q (a ++ b) = tzScan (tzScan q a) b := by
  unfold tzScan
  rw [List.foldl_append]

theorem tzScan_dead (s : Bytes) : tzScan 4 s = 4 := by
  induction s with
  | nil => rfl
  | cons c s ih => exact ih

theorem tzStep_one (q c : Nat) (h : tzStep q c = 1) : c = 80 := by
  unfold tzStep at h
  split_ifs at h <;> first | assumption | omega

theorem tzScan_one (q : Nat) (s : Bytes) (h : tzScan q s = 1) :
    (s = [] ∧ q = 1) ∨ s.getLast? = some 80 := by
  rcases List.eq_nil_or_concat s with rfl | ⟨s0, c, rfl⟩
  · exact Or.inl ⟨rfl, h⟩
  · right
    rw [List.concat_eq_append, tzScan_append] at h
    have : c = 80 := tzStep_one _ c h
    rw [this]
    simp

theorem tzScan_MST (q : Nat) (hq : q ≠ 1) (B : Bytes) : tzScan q (77 :: 83 :: 84 :: B) = 4 := by
  show tzScan (tzStep (tzStep (tzStep q 77) 83) 84) B = 4
  have : tzStep (tzStep (tzStep q 77) 83) 84 = 4 := by
    unfold tzStep
    by_cases h4 : q = 4
    · simp [h4]
    · simp [h4, hq]
  rw [this, tzScan_dead]

theorem byteAt_append_length (a : Bytes) (c : Nat) (b : Bytes) :
    byteAt (a ++ c :: b) a.length = c := by
  induction a with
  | nil => rfl
  | cons x a ih => exact ih

theorem tzScan_Guarded (S : Bytes) (h : tzScan 0 S ≠ 4) : Guarded S := by
  intro j hj
  obtain ⟨B, hB⟩ := List.isPrefixOf_iff_prefix.mp hj
  rw [str_MST] at hB
  have hS : S = S.take j ++ (77 :: 83 :: 84 :: B) := by
    have e := (List.take_append_drop j S).symm
    rw [← hB] at e
    exact e
  have hq : tzScan 0 (S.take j) = 1 := by
    by_contra hne
    apply h
    rw [hS, tzScan_append, tzScan_MST _ hne]
  rcases tzScan_one _ _ hq with ⟨-, h0⟩ | hl
  · exact absurd h0 (by decide)
  · obtain ⟨-, -, r0, hr0⟩ := getLast_mem _ _ hl
    have hjl : j < S.length := by
      by_contra hge
      have : S.drop j = [] := List.drop_eq_nil_of_le (by omega)
      rw [this] at hB
      exact absurd hB (by simp)
    have hlen : (S.take j).length = j := by
      rw [List.length_take]; omega
    have hr0l : r0.length + 1 = j := by
      rw [← hlen, hr0]; simp
    refine ⟨by omega, ?_⟩
    rw [hS, hr0]
    have e : j - 1 = r0.length := by omega
    rw [e, List.append_assoc]
    exact byteAt_append_length r0 80 _

theorem EnvFree_layout (s : Bytes) (h : tzScan 0 s ≠ 4) : EnvFree (.stdlibFormat s) :=
  fun t => Format_forget t s.length s (le_refl _) (tzScan_Guarded s h)

theorem EnvFree_verbatim (s : Bytes) : EnvFree (.verbatim s) := fun _ => rfl

theorem tzStep_le (q c : Nat) : tzStep q c ≤ 4 := by
  unfold tzStep
  split_ifs <;> omega

theorem tzScan_le (s : Bytes) : ∀ q, q ≤ 4 → tzScan q s ≤ 4 := by
  induction s with
  | nil => intro q h; exact h
  | cons c s ih => intro q _; exact ih _ (tzStep_le q c)

theorem tzStep_four (q c : Nat) (h : tzStep q c = 4) : q = 4 ∨ (q = 3 ∧ c = 84) := by
  unfold tzStep at h
  split_ifs at h <;> omega

theorem tzStep_two (q c : Nat) (h : tzStep q c = 2) : c = 77 := by
  unfold tzStep at h
  split_ifs at h <;> omega

theorem tzStep_three (q c : Nat) (h : tzStep q c = 3) : q = 2 ∧ c = 83 := by
  unfold tzStep at h
  split_ifs at h <;> omega

theorem tzScan_found : ∀ (r : Bytes) (q : Nat), q ≠ 4 → tzScan q r = 4 →
    (q = 2 ∧ List.isPrefixOf [83, 84] r = true) ∨ (q = 3 ∧ List.isPrefixOf [84] r = true) ∨
      containsText r [77, 83, 84] = true := by
  intro r
  induction r with
  | nil => intro q hq h; exact absurd h hq
  | cons c r ih =>
    intro q hq h
    by_cases h4 : tzStep q c = 4
    · rcases tzStep_four q c h4 with h1 | h1
      · exact absurd h1 hq
      · right; left
        exact ⟨h1.1, by simp [List.isPrefixOf, h1.2]⟩
    · rcases ih (tzStep q c) h4 h with ⟨h1, h2⟩ | ⟨h1, h2⟩ | h1
      · right; right
        have hc : c = 77 := tzStep_two q c h1
        rcases r with _ | ⟨a, _ | ⟨b, r⟩⟩ <;> simp [List.isPrefixOf] at h2
        simp [containsText, List.isPrefixOf, hc, h2.1, h2.2]
      · left
        have hc := tzStep_three q c h1
        rcases r with _ | ⟨a, r⟩ <;> simp [List.isPrefixOf] at h2
        exact ⟨hc.1, by simp [List.isPrefixOf, hc.2, h2]⟩
      · right; right
        simp [containsText, h1]

theorem canCombine_scan (r : Bytes) (h : canCombine r = true) : tzScan 0 r ≠ 4 := by
  intro h4
  rcases tzScan_found r 0 (by decide) h4 with ⟨h1, -⟩ | ⟨h1, -⟩ | h1
  · exact absurd h1 (by decide)
  · exact absurd h1 (by decide)
  · unfold canCombine at h
    simp only [Bool.and_eq_true, List.all_eq_true, Bool.not_eq_true'] at h
    have := h.2 (str "MST") (by decide)
    rw [str_MST, h1] at this
    exact absurd this (by decide)

theorem EnvFree_plain (a : Appender) (h : a.canCombine = false) : EnvFree a := by
  cases a with
  | stdlibFormat s => exact absurd h (by simp [Appender.canCombine])
  | _ => exact fun _ => rfl

set_option maxRecDepth 100000 in
theorem specCheck_all : ∀ b ∈ directiveChars, b ≠ 90 → specCheck b = true := by
  decide

theorem lookupSpec_good (b : Nat) (hb : b ≠ 90) (spec : Appender)
    (h : lookupSpec b = some spec) : SpecGood spec := by
  by_cases hm : b ∈ directiveChars
  · have hc := specCheck_all b hm hb
    unfold specCheck at hc
    rw [h] at hc
    have hq : ∀ (s : Bytes), tzScan 0 s = 0 → tzScan 1 s = 0 → tzScan 2 s = 0 →
        tzScan 3 s = 0 → ∀ q, q < 4 → tzScan q s = 0 := by
      intro s h0 h1 h2 h3 q hq
      interval_cases q <;> assumption
    cases spec with
    | verbatim s =>
      simp only [Bool.and_eq_true, beq_iff_eq] at hc
      exact Or.inr ⟨hc.1.1.1.1, Or.inl rfl, hq s hc.1.1.1.2 hc.1.1.2 hc.1.2 hc.2⟩
    | stdlibFormat s =>
      simp only [Bool.and_eq_true, beq_iff_eq] at hc
      exact Or.inr ⟨rfl, Or.inr rfl, hq s hc.1.1.1 hc.1.1.2 hc.1.2 hc.2⟩
    | _ => exact Or.inl ⟨rfl, fun _ => rfl⟩
  · rw [lookupSpec_none b hm] at h
    exact absurd h (by simp)

theorem Inv_weaken (h : CombiningAppend) (hi : Inv (· = 0) h) : Inv (· ≠ 4) h := by
  refine ⟨hi.1, fun p hp => ⟨(hi.2 p hp).1, fun hc => ?_⟩⟩
  obtain ⟨s, hs, h0⟩ := (hi.2 p hp).2 hc
  exact ⟨s, hs, by simp only at h0 ⊢; omega⟩

theorem Inv_text (h : CombiningAppend) (hi : Inv (· = 0) h) (r : Bytes) :
    Inv (· ≠ 4) (h.Append (.verbatim r)) := by
  rcases h with ⟨done, prev, pc⟩
  obtain ⟨hd, hp⟩ := hi
  simp only at hd hp
  cases prev with
  | none =>
    simp only [CombiningAppend.Append, Appender.canCombine]
    refine ⟨hd, fun p hp2 => ?_⟩
    simp only [Option.some.injEq] at hp2
    subst hp2
    exact ⟨EnvFree_verbatim r, fun hc => ⟨r, Or.inl rfl, canCombine_scan r hc⟩⟩
  | some p =>
    obtain ⟨hfree, hcomb⟩ := hp p rfl
    by_cases hc : (pc && canCombine r) = true
    · simp only [CombiningAppend.Append, Appender.canCombine, hc, if_true]
      simp only [Bool.and_eq_true] at hc
      obtain ⟨s, hs, h0⟩ := hcomb hc.1
      have hscan : tzScan 0 (s ++ r) ≠ 4 := by
        rw [tzScan_append, h0]; exact canCombine_scan r hc.2
      refine ⟨hd, fun p2 hp2 => ?_⟩
      simp only [Option.some.injEq] at hp2
      subst hp2
      rcases hs with rfl | rfl
      · exact ⟨EnvFree_verbatim _, fun _ => ⟨s ++ r, Or.inl rfl, hscan⟩⟩
      · exact ⟨EnvFree_layout _ hscan, fun _ => ⟨s ++ r, Or.inr rfl, hscan⟩⟩
    · simp only [CombiningAppend.Append, Appender.canCombine, hc, Bool.false_eq_true, if_false]
      refine ⟨?_, fun p2 hp2 => ?_⟩
      · intro a ha
        rcases List.mem_append.mp ha with ha | ha
        · exact hd a ha
        · rw [List.mem_singleton.mp ha]; exact hfree
      · simp only [Option.some.injEq] at hp2
        subst hp2
        exact ⟨EnvFree_verbatim r, fun hc2 => ⟨r, Or.inl rfl, canCombine_scan r hc2⟩⟩

theorem SpecGood_free (spec : Appender) (hg : SpecGood spec) : EnvFree spec := by
  rcases hg with ⟨-, h⟩ | ⟨-, hs, h0⟩
  · exact h
  · rcases hs with e | e
    · rw [e]; exact EnvFree_verbatim _
    · rw [e]; exact EnvFree_layout _ (by rw [h0 0 (by decide)]; decide)

theorem Inv_spec (h : CombiningAppend) (hi : Inv (· ≠ 4) h) (spec : Appender)
    (hg : SpecGood spec) : Inv (· = 0) (h.Append spec) := by
  have hfs := SpecGood_free spec hg
  have hnew : spec.canCombine = true →
      ∃ s, (spec = .verbatim s ∨ spec = .stdlibFormat s) ∧ tzScan 0 s = 0 := by
    intro hc
    rcases hg with ⟨h1, -⟩ | ⟨-, hs, h0⟩
    · rw [h1] at hc; exact absurd hc (by decide)
    · exact ⟨spec.str, hs, h0 0 (by decide)⟩
  rcases h with ⟨done, prev, pc⟩
  obtain ⟨hd, hp⟩ := hi
  simp only at hd hp
  cases prev with
  | none =>
    simp only [CombiningAppend.Append]
    refine ⟨hd, fun p hp2 => ?_⟩
    simp only [Option.some.injEq] at hp2
    subst hp2
    exact ⟨hfs, hnew⟩
  | some p =>
    obtain ⟨hfree, hcomb⟩ := hp p rfl
    by_cases hc : (pc && spec.canCombine) = true
    · simp only [CombiningAppend.Append, hc, if_true]
      simp only [Bool.and_eq_true] at hc
      obtain ⟨s, hs, h0⟩ := hcomb hc.1
      rcases hg with ⟨h1, -⟩ | ⟨-, hx, hq⟩
      · rw [h1] at hc; exact absurd hc.2 (by decide)
      · have hlt : tzScan 0 s < 4 := by
          have := tzScan_le s 0 (by decide); omega
        have hscan : tzScan 0 (s ++ spec.str) = 0 := by
          rw [tzScan_append]; exact hq _ hlt
        refine ⟨hd, fun p2 hp2 => ?_⟩
        simp only [Option.some.injEq] at hp2
        subst hp2
        rcases hs with rfl | rfl
        · rcases hx with e | e
          · have : (Appender.verbatim s).combine spec = .verbatim (s ++ spec.str) := by
              rw [e]; rfl
            rw [this]
            exact ⟨EnvFree_verbatim _, fun _ => ⟨_, Or.inl rfl, hscan⟩⟩
          · have : (Appender.verbatim s).combine spec = .stdlibFormat (s ++ spec.str) := by
              rw [e]; rfl
            rw [this]
            exact ⟨EnvFree_layout _ (by rw [hscan]; decide), fun _ => ⟨_, Or.inr rfl, hscan⟩⟩
        · exact ⟨EnvFree_layout _ (by rw [hscan]; decide), fun _ => ⟨_, Or.inr rfl, hscan⟩⟩
    · simp only [CombiningAppend.Append, hc, Bool.false_eq_true, if_false]
      refine ⟨?_, fun p2 hp2 => ?_⟩
      · intro a ha
        rcases List.mem_append.mp ha with ha | ha
        · exact hd a ha
        · rw [List.mem_singleton.mp ha]; exact hfree
      · simp only [Option.some.injEq] at hp2
        subst hp2
        exact ⟨hfs, hnew⟩

theorem Inv_list (Q : Nat → Prop) (h : CombiningAppend) (hi : Inv Q h) :
    ∀ a ∈ h.list, EnvFree a := by
  intro a ha
  unfold CombiningAppend.list at ha
  rcases List.mem_append.mp ha with ha | ha
  · exact hi.1 a ha
  · cases hp : h.prev with
    | none => rw [hp] at ha; simp at ha
    | some p =>
      rw [hp] at ha
      simp only [Option.toList, List.mem_singleton] at ha
      rw [ha]
      exact (hi.2 p hp).1

theorem usesZoneName_pre (pre q : Bytes) (h37 : ∀ c ∈ pre, c ≠ 37) :
    usesZoneName (pre ++ q) = usesZoneName q := by
  induction pre with
  | nil => rfl
  | cons c pre ih =>
    have hc : c ≠ 37 := h37 c (by simp)
    rw [List.cons_append, usesZoneName_lit c hc, ih (fun x hx => h37 x (by simp [hx]))]

theorem compile_free : ∀ (n : Nat) (p : Bytes) (f : Nat) (h h2 : CombiningAppend),
    p.length ≤ n → p.length ≤ f → usesZoneName p = false → Inv (· = 0) h →
    compile f p h = .ok h2 → ∀ a ∈ h2.list, EnvFree a := by
  intro n
  induction n using Nat.strong_induction_on with
  | _ n ih =>
    intro p f h h2 hn hf hz hi hc
    cases hidx : indexPercent p with
    | none =>
      by_cases hp : p = []
      · subst hp
        rw [compile_nil] at hc
        injection hc with hc
        subst hc
        exact Inv_list _ h hi
      · cases f with
        | zero => exact absurd (List.length_eq_zero.mp (Nat.le_zero.mp hf)) hp
        | succ f =>
          rw [compile_literal f p hp (indexPercent_none p hidx) h] at hc
          injection hc with hc
          subst hc
          exact Inv_list _ _ (Inv_text h hi p)
    | some i =>
      obtain ⟨pre, tl, hp, _, hpre⟩ := indexPercent_some _ _ hidx
      subst hp
      cases f with
      | zero => simp at hf
      | succ f =>
        cases tl with
        | nil =>
          rw [compile_stray f pre hpre h] at hc
          exact absurd hc (by simp)
        | cons b rest =>
          rw [compile_directive f pre hpre b rest h] at hc
          rw [usesZoneName_pre pre _ hpre, usesZoneName_dir] at hz
          simp only [Bool.or_eq_false_iff, decide_eq_false_iff_not] at hz
          simp only [List.length_append, List.length_cons] at hn hf
          cases hl : lookupSpec b with
          | none => rw [hl] at hc; exact absurd hc (by simp)
          | some spec =>
            rw [hl] at hc
            simp only [] at hc
            have h1 : Inv (· ≠ 4) (afterText h pre) := by
              unfold afterText
              split_ifs
              · exact Inv_weaken h hi
              · exact Inv_text h hi pre
            exact ih rest.length (by omega) rest f _ h2 (le_refl _) (by omega) hz.2
              (Inv_spec _ h1 spec (lookupSpec_good b hz.1 spec hl)) hc

theorem getLast_drop (v : Bytes) (k c : Nat) (h : v.getLast? = some c) (hne : v.drop k ≠ []) :
    (v.drop k).getLast? = some c := by
  have hk : k < v.length := by
    by_contra hge
    exact hne (List.drop_eq_nil_of_le (by omega))
  rw [List.getLast?_drop, if_neg (by omega), h]

theorem six_last (z : Bytes) (h6 : z.length = 6) (hl : z.getLast? = some 90) :
    byteAt z 5 = 90 := by
  match z, h6 with
  | [a, b, c, d, e, f], _ =>
    simp at hl
    simp [byteAt, hl]

theorem fast_zone_utc {α : Type} (z : Bytes) (X X2 Y : Option α)
    (hz : z ≠ [] → z.getLast? = some 90) :
    (if z.length ≠ 1 ∨ byteAt z 0 ≠ 90 then
        if z.length ≠ 6 then none
        else
          if (!((parseUint (slice z 1 3) 0 23).2 && (parseUint (slice z 4 6) 0 59).2) ||
              !((byteAt z 0 == 45 || byteAt z 0 == 43) && byteAt z 3 == 58)) = true then none
          else X
      else Y) =
    (if z.length ≠ 1 ∨ byteAt z 0 ≠ 90 then
        if z.length ≠ 6 then none
        else
          if (!((parseUint (slice z 1 3) 0 23).2 && (parseUint (slice z 4 6) 0 59).2) ||
              !((byteAt z 0 == 45 || byteAt z 0 == 43) && byteAt z 3 == 58)) = true then none
          else X2
      else Y) := by
  by_cases h1 : z.length ≠ 1 ∨ byteAt z 0 ≠ 90
  · rw [if_pos h1, if_pos h1]
    by_cases h6 : z.length ≠ 6
    · rw [if_pos h6, if_pos h6]
    · rw [if_neg h6, if_neg h6]
      push_neg at h6
      have hne : z ≠ [] := by rintro rfl; simp at h6
      have h5 := six_last z h6 (hz hne)
      have hbad : (!((parseUint (slice z 1 3) 0 23).2 && (parseUint (slice z 4 6) 0 59).2) ||
          !((byteAt z 0 == 45 || byteAt z 0 == 43) && byteAt z 3 == 58)) = true := by
        by_contra hc
        simp only [Bool.or_eq_true, Bool.not_eq_true', Bool.and_eq_false_iff, not_or,
          Bool.not_eq_false, Bool.and_eq_true, beq_iff_eq] at hc
        have d2 := parseUint_ok _ _ _ hc.1.2
        have a5 := slice_digitAt z 4 6 (by omega) d2 5 (by omega) (by omega)
        unfold digitAt at a5
        rw [h5] at a5
        exact absurd a5 (by decide)
      rw [if_pos hbad, if_pos hbad]
  · rw [if_neg h1, if_neg h1]

theorem parseRFC3339_Z (env env2 : Env) (s : Bytes) (hl : s.getLast? = some 90) :
    parseRFC3339 env s = parseRFC3339 env2 s := by
  unfold parseRFC3339
  split
  · rfl
  simp only []
  split
  · rfl
  by_cases hf : (decide ((List.drop 19 s).length ≥ 2) && byteAt (List.drop 19 s) 0 == 46 &&
      isDigit (List.drop 19 s) 1) = true
  · simp only [hf, if_true]
    exact fast_zone_utc _ _ _ _ (fun hne => by
      rw [List.drop_drop] at hne ⊢
      exact getLast_drop s _ 90 hl hne)
  · simp only [hf, Bool.false_eq_true, if_false]
    exact fast_zone_utc _ _ _ _ (fun hne => getLast_drop s _ 90 hl hne)

theorem parseStd_zone_utc (next : Option Std) (st : ParseState)
    (h : (parseStd .stdISO8601ColonTZ next st).err = false)
    (hv : (parseStd .stdISO8601ColonTZ next st).st.value = [])
    (hl : st.value.getLast? = some 90) :
    (parseStd .stdISO8601ColonTZ next st).st.z = some UTC := by
  have hz := parseStd_zone_shape next st h hv
  unfold zoneShape at hz
  simp only [Bool.or_eq_true, Bool.and_eq_true, beq_iff_eq] at hz
  rcases hz with hz | hz
  · unfold parseStd
    have hc : (decide (st.value.length ≥ 1) && byteAt st.value 0 == 90) = true := by
      simp [hz.1, hz.2]
    simp only [hc, if_true]
  · have h5 := six_last st.value hz.1.1.1.1.1.1 hl
    have a5 := hz.2
    unfold digitAt at a5
    rw [h5] at a5
    exact absurd a5 (by decide)

theorem zoneShape_ne (v : Bytes) (h : zoneShape v = true) : v ≠ [] := by
  rintro rfl
  exact absurd h (by decide)

theorem tail_zone (L v : Bytes) (σ st : ParseState)
    (h : parseChunks L v
      [{ lit := [58], std := .stdZeroMinute, stdstr := str "04" },
       { lit := [58], std := .stdZeroSecond, stdstr := str "05" },
       { lit := [], std := .stdISO8601ColonTZ, stdstr := str "Z07:00" }] σ = .ok st)
    (hl : σ.value.getLast? = some 90) : st.z = some UTC := by
  -- minute
  obtain ⟨k5, r5, e5, h⟩ := step_ok _ _ _ _ _ _ _ _ h
  dsimp only [List.length_singleton] at k5 r5 e5 h
  obtain ⟨-, b5, v5⟩ := skip_single_ok _ 58 (by decide) k5
  rw [v5] at r5 e5 h
  obtain ⟨g5, -, s5⟩ := parseStd_minute _ _ e5 r5
  dsimp only at g5 s5
  obtain ⟨d50, d51, n5⟩ := getnum_fixed_ok _ g5
  have n5b := getnum2 _ d50 d51 true
  rw [s5, n5b] at h
  dsimp only at h
  rw [List.drop_drop] at h
  clear e5 r5 s5 k5 v5 g5 n5 n5b
  -- second
  obtain ⟨k6, r6, e6, h⟩ := step_ok _ _ _ _ _ _ _ _ h
  dsimp only [List.length_singleton, List.head?, Option.map] at k6 r6 e6 h
  obtain ⟨-, b6, v6⟩ := skip_single_ok _ 58 (by decide) k6
  rw [v6, List.drop_drop] at r6 e6 h
  obtain ⟨g6, -⟩ := parseStd_second _ _ e6 r6
  dsimp only at g6
  obtain ⟨d60, d61, n6⟩ := getnum_fixed_ok _ g6
  have n6b := getnum2 _ d60 d61 true
  have hval := parseStd_second_value _ e6 r6
  dsimp only at hval
  rw [n6b] at hval
  dsimp only at hval
  -- zone
  obtain ⟨_, _, e7, h⟩ := step_ok _ _ _ _ _ _ _ _ h
  dsimp only [skip_zero, List.length_nil] at e7 h
  obtain ⟨hv, hst⟩ := parseChunks_nil_ok _ _ _ _ h
  have hz := parseStd_zone_shape _ _ e7 hv
  have hne := zoneShape_ne _ hz
  rw [hst]
  refine parseStd_zone_utc _ _ e7 hv ?_
  dsimp only at hne ⊢
  rw [hval] at hne ⊢
  split_ifs at hne ⊢
  · rw [List.drop_drop] at hne ⊢
    rw [List.drop_drop] at hne ⊢
    exact getLast_drop _ _ 90 hl hne
  · rw [List.drop_drop] at hne ⊢
    exact getLast_drop _ _ 90 hl hne

theorem generic_zone (s : Bytes) (st : ParseState)
    (h : parseChunks RFC3339 s rfc3339Chunks { value := s } = .ok st)
    (hl : s.getLast? = some 90) : st.z = some UTC := by
  unfold rfc3339Chunks at h
  rw [str_dash, str_T, str_colon] at h
  -- year
  obtain ⟨_, _, e1, h⟩ := step_ok _ _ _ _ _ _ _ _ h
  dsimp only [skip_zero, List.length_nil] at e1 h
  obtain ⟨l1, a1, s1⟩ := parseStd_year _ _ e1
  rw [s1] at h
  dsimp only at h l1
  clear e1 s1
  -- month
  obtain ⟨k2, r2, e2, h⟩ := step_ok _ _ _ _ _ _ _ _ h
  dsimp only [List.length_singleton] at k2 r2 e2 h
  obtain ⟨-, b2, v2⟩ := skip_single_ok _ 45 (by decide) k2
  rw [v2, List.drop_drop] at r2 e2 h
  obtain ⟨g2, -, -, s2⟩ := parseStd_month _ _ e2 r2
  dsimp only at g2 s2
  obtain ⟨d20, d21, n2⟩ := getnum_fixed_ok _ g2
  have n2b := getnum2 _ d20 d21 true
  rw [s2, n2b] at h
  dsimp only at h
  rw [List.drop_drop] at h
  clear e2 r2 s2 k2 v2 g2 n2 n2b
  -- day
  obtain ⟨k3, r3, e3, h⟩ := step_ok _ _ _ _ _ _ _ _ h
  dsimp only [List.length_singleton] at k3 r3 e3 h
  obtain ⟨-, b3, v3⟩ := skip_single_ok _ 45 (by decide) k3
  rw [v3, List.drop_drop] at r3 e3 h
  obtain ⟨g3, s3⟩ := parseStd_day _ _ e3
  dsimp only at g3 s3
  obtain ⟨d30, d31, n3⟩ := getnum_fixed_ok _ g3
  have n3b := getnum2 _ d30 d31 true
  rw [s3, n3b] at h
  dsimp only at h
  rw [List.drop_drop] at h
  clear e3 r3 s3 k3 v3 g3 n3 n3b
  -- hour
  obtain ⟨k4, r4, e4, h⟩ := step_ok _ _ _ _ _ _ _ _ h
  dsimp only [List.length_singleton] at k4 r4 e4 h
  obtain ⟨-, b4, v4⟩ := skip_single_ok _ 84 (by decide) k4
  rw [v4, List.drop_drop] at r4 e4 h
  obtain ⟨g4, -, s4⟩ := parseStd_hour _ _ e4 r4
  dsimp only at g4 s4
  rw [s4] at h
  have ht := tail_lenient _ _ _ _ h
  refine tail_zone _ _ _ _ h ?_
  dsimp only at ht ⊢
  have hne : (getnum (List.drop (1 + (2 + (1 + (2 + (1 + 4))))) s) false).2.1 ≠ [] := by
    intro e
    rw [e] at ht
    exact absurd ht (by decide)
  obtain ⟨d40, hcase⟩ := getnum_free_ok _ g4
  rcases hcase with ⟨c1, c2⟩ | ⟨c1, c2⟩
  · rw [c2] at hne ⊢
    dsimp only at hne ⊢
    rw [List.drop_drop] at hne ⊢
    exact getLast_drop _ _ 90 hl hne
  · rw [c2] at hne ⊢
    dsimp only at hne ⊢
    rw [List.drop_drop] at hne ⊢
    exact getLast_drop _ _ 90 hl hne

theorem parse_Z (env env2 : Env) (s : Bytes) (hl : s.getLast? = some 90) :
    parse env s = parse env2 s := by
  unfold parse
  cases hc : parseChunks RFC3339 s rfc3339Chunks { value := s } with
  | error e => rfl
  | ok st =>
    have hz := generic_zone s st hc hl
    simp only [hz]

theorem Parse_Z (env env2 : Env) (s : Bytes) (hl : s.getLast? = some 90) :
    Parse env s = Parse env2 s := by
  unfold Parse
  rw [parseRFC3339_Z env env2 s hl, parse_Z env env2 s hl]

theorem FormatString_free (l : List Appender) (h : ∀ a ∈ l, EnvFree a) (t : Time) :
    FormatString l t = FormatString l (forget t) := by
  induction l with
  | nil => rfl
  | cons a l ih =>
    unfold FormatString
    rw [h a (List.mem_cons_self _ _) t, ih (fun b hb => h b (List.mem_cons_of_mem _ hb))]

theorem strftime_env (env env2 : Env) (format ts : Bytes)
    (h : usesZoneName format = false ∨ ts.getLast? = some 90 ∨
      (strftime env format ts).Error ≠ none) :
    strftime env format ts = strftime env2 format ts := by
  have hpe := Parse_env env env2 ts
  cases h1 : Parse env ts with
  | error e1 =>
    cases h2 : Parse env2 ts with
    | error e2 =>
      rw [h1, h2] at hpe
      simp only [forgetResult, Except.error.injEq] at hpe
      unfold strftime
      rw [h1, h2, hpe]
    | ok t2 =>
      rw [h1, h2] at hpe
      simp [forgetResult] at hpe
  | ok t =>
    cases h2 : Parse env2 ts with
    | error e2 =>
      rw [h1, h2] at hpe
      simp [forgetResult] at hpe
    | ok t2 =>
      rw [h1, h2] at hpe
      simp only [forgetResult, Except.ok.injEq] at hpe
      unfold strftime strftimeNew at h ⊢
      rw [h1] at h
      rw [h1, h2]
      cases hc : compile format.length format {} with
      | error e => rfl
      | ok hh =>
        rw [hc] at h
        simp only [] at h ⊢
        rcases h with h | h | h
        · have hfree := compile_free format.length format format.length {} hh (le_refl _)
            (le_refl _) h ⟨fun a ha => absurd ha (by simp), fun p hp => absurd hp (by simp)⟩ hc
          rw [FormatString_free _ hfree t, FormatString_free _ hfree t2, hpe]
        · have := Parse_Z env env2 ts h
          rw [h1, h2] at this
          injection this with this
          rw [this]
        · exact absurd rfl h

set_option maxRecDepth 100000 in
/-- Counterexample for C10: the format %Z on 2024-01-15T10:30:00-08:00 gives -0800 on a host
whose local zone is UTC and PST on a host whose local zone is PST, eight hours west. -/
theorem zone_name_depends_on_host :
    strftime envUTC (str "%Z") (str "2024-01-15T10:30:00-08:00") =
      { Result := some (str "-0800") } ∧
    strftime envPST (str "%Z") (str "2024-01-15T10:30:00-08:00") =
      { Result := some (str "PST") } := by
  decide

/-- C10, amended: unix_timestamp, parse_rfc3339 and days_difference on every argument tuple
return the same output (the same result text or the same error) in every two environments,
and so does strftime whenever the format has no directive %Z, or the timestamp ends in Z, or
the call returns an error; what is left out is a result of strftime for a format with %Z on
a timestamp with a numeric offset.  The environment is the local time zone of the host, the
one thing of the process environment that the four Run methods and the library functions
they call read; none of them reads the clock or a locale. -/
theorem environment_independent (env env2 : Env) :
    (∀ ts, unix_timestamp env ts = unix_timestamp env2 ts) ∧
    (∀ ts, parse_rfc3339 env ts = parse_rfc3339 env2 ts) ∧
    (∀ s e, days_difference env s e = days_difference env2 s e) ∧
    (∀ format ts,
      (usesZoneName format = false ∨ ts.getLast? = some 90 ∨
        (strftime env format ts).Error ≠ none) →
      strftime env format ts = strftime env2 format ts) := by
  refine ⟨?_, ?_, ?_, ?_⟩
  · intro ts
    rw [unix_timestamp_forget, unix_timestamp_forget, Parse_env env env2]
  · intro ts
    rw [parse_rfc3339_forget, parse_rfc3339_forget, Parse_env env env2]
  · intro s e
    rw [days_difference_forget, days_difference_forget, Parse_env env env2 s,
      Parse_env env env2 e]
  · intro format ts h
    exact strftime_env env env2 format ts h

set_option maxRecDepth 100000 in
/-- Witness for C10: the format %Y-%m-%d %H:%M:%S %z has no %Z and gives the same text for
2024-01-15T10:30:00-08:00 on hosts in UTC and in PST; the format %Z gives UTC on both hosts
for 2024-01-15T10:30:00Z; and the format %Z%Q is rejected on both hosts with the same
message. -/
theorem environment_independent_witness :
    (usesZoneName (str "%Y-%m-%d %H:%M:%S %z") = false ∧
      strftime envUTC (str "%Y-%m-%d %H:%M:%S %z") (str "2024-01-15T10:30:00-08:00") =
        strftime envPST (str "%Y-%m-%d %H:%M:%S %z") (str "2024-01-15T10:30:00-08:00") ∧
      strftime envPST (str "%Y-%m-%d %H:%M:%S %z") (str "2024-01-15T10:30:00-08:00") =
        { Result := some (str "2024-01-15 10:30:00 -0800") }) ∧
    ((str "2024-01-15T10:30:00Z").getLast? = some 90 ∧
      strftime envUTC (str "%Z") (str "2024-01-15T10:30:00Z") =
        strftime envPST (str "%Z") (str "2024-01-15T10:30:00Z") ∧
      strftime envPST (str "%Z") (str "2024-01-15T10:30:00Z") =
        { Result := some (str "UTC") }) ∧
    ((strftime envUTC (str "%Z%Q") (str "2024-01-15T10:30:00-08:00")).Error ≠ none ∧
      strftime envUTC (str "%Z%Q") (str "2024-01-15T10:30:00-08:00") =
        strftime envPST (str "%Z%Q") (str "2024-01-15T10:30:00-08:00")) :=
  ⟨⟨by decide, (environment_independent envUTC envPST).2.2.2 _ _ (Or.inl (by decide)),
      by decide⟩,
   ⟨by decide, (environment_independent envUTC envPST).2.2.2 _ _ (Or.inr (Or.inl (by decide))),
      by decide⟩,
   ⟨by decide,
    (environment_independent envUTC envPST).2.2.2 _ _ (Or.inr (Or.inr (by decide)))⟩⟩

end TimeUtils
